import Mathlib

/-!
# globe.js: marker registry and picking decode

A shallow embedding of `src/markers.js` (the ring of marker slots), of
`src/countries.js` (the counters per country), of `setLabel` in `src/main.js`
(the picking decode) and of `src/position.js` (the damped position), with the
properties of the specification that concern them.

Conventions of the embedding

* JavaScript numbers that hold coordinates are `JSNum`: a finite value (an
  exact rational; rounding and overflow of doubles are not modelled), the two
  infinities, or NaN.  `Math.PI`, `Math.cos`, `Math.sin` and `Math.pow` are
  parameters (`MathEnv`).  The numbers of a position are the elements of an
  ordered field; `Math.sqrt` is a parameter there, the real square root in
  the theorems about the error.
* Counters are integers; `x | 0` is the conversion to a signed 32-bit integer.
* A JavaScript array or object is a function from its index to the value
  stored there; a hole reads as `undefined` (`none` for an array of objects).
* A call that raises a `TypeError` (a method call on `undefined`) returns
  `none`.
* A callback is a function on the state of its owner, threaded through the
  call that invokes it.
* Calls to the external collaborators of `setLabel` (tooltip, renderer,
  marker and country lookups) are recorded in order as a list of `Effect`s.
-/

namespace Globe

/-! ## JavaScript values -/

/-- Values stored as label or country code: `undefined`, a number or a string. -/
inductive JSVal where
  | undefined
  | num (n : Int)
  | str (s : String)
  deriving DecidableEq, Repr

/-- Numbers used as coordinates. -/
inductive JSNum where
  | fin (q : ℚ)
  | posInf
  | negInf
  | nan
  deriving DecidableEq

namespace JSNum

/-- The value is neither an infinity nor NaN. -/
def isFinite : JSNum → Bool
  | fin _ => true
  | _ => false

/-- Unary minus. -/
def neg : JSNum → JSNum
  | fin q => fin (-q)
  | posInf => negInf
  | negInf => posInf
  | nan => nan

/-- An infinity (the positive one if `positive`) multiplied by a finite
factor: NaN for the factor zero, else the infinity of the product's sign. -/
def infTimes (positive : Bool) (q : ℚ) : JSNum :=
  if q = 0 then nan
  else if 0 < q then (if positive then posInf else negInf)
  else (if positive then negInf else posInf)

/-- The product `a * b`. -/
def mul : JSNum → JSNum → JSNum
  | nan, _ => nan
  | _, nan => nan
  | fin a, fin b => fin (a * b)
  | fin a, posInf => infTimes true a
  | fin a, negInf => infTimes false a
  | posInf, fin b => infTimes true b
  | negInf, fin b => infTimes false b
  | posInf, posInf => posInf
  | negInf, negInf => posInf
  | posInf, negInf => negInf
  | negInf, posInf => negInf

/-- The quotient `a / 180`. -/
def divBy180 : JSNum → JSNum
  | fin a => fin (a / 180)
  | posInf => posInf
  | negInf => negInf
  | nan => nan

end JSNum

/-- The part of `Math` that `convert` uses. -/
structure MathEnv where
  PI : ℚ
  cos : ℚ → ℚ
  sin : ℚ → ℚ
  pow : ℚ → ℚ → ℚ

/-- The cosine `Math.cos(x)`: NaN unless `x` is finite. -/
def MathEnv.jsCos (M : MathEnv) : JSNum → JSNum
  | .fin q => .fin (M.cos q)
  | _ => .nan

/-- The sine `Math.sin(x)`: NaN unless `x` is finite. -/
def MathEnv.jsSin (M : MathEnv) : JSNum → JSNum
  | .fin q => .fin (M.sin q)
  | _ => .nan

/-- A `THREE.Vector3`. -/
structure Vector3 where
  x : JSNum
  y : JSNum
  z : JSNum
  deriving DecidableEq

/-! ## markers.js -/

/-- The constant `INFINITY = Number.POSITIVE_INFINITY`. -/
def INFINITY : JSNum := .posInf

/-- The position `(INFINITY, INFINITY, INFINITY)` of an unused marker. -/
def unusedPosition : Vector3 := ⟨INFINITY, INFINITY, INFINITY⟩

/-- The options `maxMarker` and `maxAnimation` of `GLOBE.Markers`
(`none` when the option is not supplied). -/
structure MarkerOptions where
  maxMarker : Option Int
  maxAnimation : Option Int

/-- The expression `option || dflt` for a numeric option: the default when the
option is absent or `0`. -/
def orDefault (option : Option Int) (dflt : Int) : Int :=
  match option with
  | none => dflt
  | some v => if v = 0 then dflt else v

/-- The closure state of `GLOBE.Markers`. -/
structure Markers where
  marker : Nat → Option Vector3
  label : Nat → JSVal
  countryCode : Nat → JSVal
  nextMarker : Nat
  maxMarker : Nat
  animation : Nat → Option Vector3
  nextAnimation : Nat
  maxAnimation : Int

namespace Markers

/-- The value of `maxMarker` after `init` has evaluated the options. -/
def initMaxMarker (options : MarkerOptions) : Int :=
  let maxMarker := orDefault options.maxMarker 10000
  let maxMarker := if maxMarker < 1 then 1 else maxMarker
  if maxMarker > 16777216 then 16777216 else maxMarker

/-- The function `init`: `marker = [maxMarker]`, `label = [maxMarker]`,
`countryCode = [maxMarker]`, `animation = [maxAnimation]` are one-element
arrays; the two loops then store an unused vertex at every index below
`maxMarker` (resp. `maxAnimation`). -/
def init (options : MarkerOptions) : Markers :=
  let maxMarker := initMaxMarker options
  let maxAnimation := orDefault options.maxAnimation 100
  { marker := fun i => if (i : Int) < maxMarker then some unusedPosition else none
    label := fun i => if i = 0 then .num maxMarker else .undefined
    countryCode := fun i => if i = 0 then .num maxMarker else .undefined
    nextMarker := 0
    maxMarker := maxMarker.toNat
    animation := fun i => if (i : Int) < maxAnimation then some unusedPosition else none
    nextAnimation := 0
    maxAnimation := maxAnimation }

/-- The function `inUse`. -/
def inUse (marker : Vector3) : Bool :=
  !(marker.x == INFINITY && marker.y == INFINITY && marker.z == INFINITY)

/-- The function `convert`. -/
def convert (M : MathEnv) (latitude longitude radius : JSNum) : Vector3 :=
  let theta := (latitude.mul (.fin M.PI)).divBy180
  let phi := (longitude.mul (.fin M.PI)).divBy180
  let x := (radius.mul (M.jsCos phi)).mul (M.jsCos theta)
  let y := radius.mul (M.jsSin theta)
  let z := (radius.neg.mul (M.jsSin phi)).mul (M.jsCos theta)
  ⟨x, y, z⟩

/-- The function `add`.  The result is the returned key, the new state and the
state of the callback's owner; `none` when `marker[nextMarker]` or
`animation[nextAnimation]` is not a vertex.  The animation timeout written by
`add` is a shader attribute and is not kept. -/
def add {σ : Type} (M : MathEnv) (s : Markers) (cc : JSVal)
    (latitude longitude radius : JSNum) (sourceLabel : JSVal)
    (onOverflow : JSVal → σ → σ) (w : σ) : Option (Nat × Markers × σ) :=
  match s.marker s.nextMarker with
  | none => none
  | some m =>
    let w := if inUse m then onOverflow (s.countryCode s.nextMarker) w else w
    let cartesian := convert M latitude longitude radius
    match s.animation s.nextAnimation with
    | none => none
    | some _ =>
      let returnMarker := s.nextMarker
      some (returnMarker,
        { s with
          marker := Function.update s.marker s.nextMarker (some cartesian)
          animation := Function.update s.animation s.nextAnimation (some cartesian)
          label := Function.update s.label s.nextMarker sourceLabel
          countryCode := Function.update s.countryCode s.nextMarker cc
          nextMarker := (s.nextMarker + 1) % s.maxMarker
          nextAnimation := (((s.nextAnimation : Int) + 1) % s.maxAnimation).toNat },
        w)

/-- The function `remove`; `none` when `marker[key]` is not a vertex. -/
def remove (s : Markers) (key : Nat) : Option Markers :=
  match s.marker key with
  | none => none
  | some _ =>
    some { s with
      marker := Function.update s.marker key (some unusedPosition)
      countryCode := Function.update s.countryCode key .undefined }

/-- The function `getLabel`. -/
def getLabel (s : Markers) (key : Nat) : JSVal := s.label key

/-- The function `getCC`. -/
def getCC (s : Markers) (key : Nat) : JSVal := s.countryCode key

/-- The body of the loop of `reset` for the index `i`. -/
def resetStep (s : Markers) (i : Nat) : Option Markers :=
  match s.marker i with
  | none => none
  | some _ =>
    some { s with
      marker := Function.update s.marker i (some unusedPosition)
      countryCode := Function.update s.countryCode i .undefined }

/-- The function `reset`: the loop over `i = 0, ..., maxMarker - 1`. -/
def reset (s : Markers) : Option Markers :=
  (List.range s.maxMarker).foldlM resetStep s

/-- The colour key of marker `i` as it is sampled from the pick buffer:
`new THREE.Color(i)` takes the red, green and blue byte of the hex value `i`,
and the fragment shader writes `vec4(vColor, 1.0)` in PickMode. -/
def pickColor (i : Nat) : Nat × Nat × Nat × Nat :=
  (i / 65536 % 256, i / 256 % 256, i % 256, 255)

/-- The arguments of one call of `add` (the callback apart). -/
structure AddCall where
  cc : JSVal
  latitude : JSNum
  longitude : JSNum
  radius : JSNum
  sourceLabel : JSVal

/-- Latitude, longitude and radius of the call are finite numbers. -/
def AddCall.finite (c : AddCall) : Bool :=
  c.latitude.isFinite && c.longitude.isFinite && c.radius.isFinite

/-- Successive calls of `add` with one callback; the returned keys are
collected in call order. -/
def addAll {σ : Type} (M : MathEnv) (s : Markers) (calls : List AddCall)
    (onOverflow : JSVal → σ → σ) (w : σ) : Option (List Nat × Markers × σ) :=
  match calls with
  | [] => some ([], s, w)
  | c :: cs =>
    match add M s c.cc c.latitude c.longitude c.radius c.sourceLabel onOverflow w with
    | none => none
    | some (k, s1, w1) =>
      match addAll M s1 cs onOverflow w1 with
      | none => none
      | some (ks, s2, w2) => some (k :: ks, s2, w2)

/-- A callback that records its argument: the owner state is the list of
the arguments of all invocations so far, oldest first. -/
def record (cc : JSVal) (log : List JSVal) : List JSVal := log ++ [cc]

/-- Slot `i` holds a vertex that `inUse` accepts. -/
def slotInUse (s : Markers) (i : Nat) : Bool :=
  match s.marker i with
  | some m => inUse m
  | none => false

/-- The animation ring of the options is not empty, so that `add` finds a
vertex in it; this holds when the option is left out, as `GLOBE.View` does. -/
def usable (options : MarkerOptions) : Prop :=
  0 < orDefault options.maxAnimation 100

instance (options : MarkerOptions) : Decidable (usable options) := by
  unfold usable; infer_instance

/-- States of a registry: after `init` and after any returning call of `add`,
`remove` and `reset`. -/
inductive Reachable (M : MathEnv) : Markers → Prop where
  | init (options : MarkerOptions) (h : usable options) : Reachable M (init options)
  | add {σ : Type} {s s1 : Markers} {k : Nat} {w w1 : σ} (cc : JSVal)
      (latitude longitude radius : JSNum) (sourceLabel : JSVal)
      (onOverflow : JSVal → σ → σ) (hs : Reachable M s)
      (h : add M s cc latitude longitude radius sourceLabel onOverflow w = some (k, s1, w1)) :
      Reachable M s1
  | remove {s s1 : Markers} (key : Nat) (hs : Reachable M s)
      (h : remove s key = some s1) : Reachable M s1
  | reset {s s1 : Markers} (hs : Reachable M s) (h : reset s = some s1) : Reachable M s1

/-- States of a registry on which `remove` was never called and every `add`
had finite coordinates. -/
inductive ReachableByAdd (M : MathEnv) : Markers → Prop where
  | init (options : MarkerOptions) (h : usable options) : ReachableByAdd M (init options)
  | add {σ : Type} {s s1 : Markers} {k : Nat} {w w1 : σ} (c : AddCall)
      (onOverflow : JSVal → σ → σ) (hs : ReachableByAdd M s) (hc : c.finite = true)
      (h : add M s c.cc c.latitude c.longitude c.radius c.sourceLabel onOverflow w
        = some (k, s1, w1)) :
      ReachableByAdd M s1
  | reset {s s1 : Markers} (hs : ReachableByAdd M s) (h : reset s = some s1) :
      ReachableByAdd M s1

/-- The property "this call of `add` evicts nothing": the callback is not
invoked and every slot in use keeps its position, label and country code. -/
def AddEvictsNothing (M : MathEnv) (s : Markers) (c : AddCall) : Prop :=
  ∃ k s1, add M s c.cc c.latitude c.longitude c.radius c.sourceLabel record [] = some (k, s1, [])
    ∧ ∀ j, slotInUse s j = true →
        s1.marker j = s.marker j ∧ s1.label j = s.label j ∧ s1.countryCode j = s.countryCode j

/-- The state that a returning call of `add` leaves. -/
def addState (M : MathEnv) (s : Markers) (c : AddCall) : Markers :=
  { s with
    marker := Function.update s.marker s.nextMarker
      (some (convert M c.latitude c.longitude c.radius))
    animation := Function.update s.animation s.nextAnimation
      (some (convert M c.latitude c.longitude c.radius))
    label := Function.update s.label s.nextMarker c.sourceLabel
    countryCode := Function.update s.countryCode s.nextMarker c.cc
    nextMarker := (s.nextMarker + 1) % s.maxMarker
    nextAnimation := (((s.nextAnimation : Int) + 1) % s.maxAnimation).toNat }

/-- The state that a returning call of `remove` leaves. -/
def removeState (s : Markers) (key : Nat) : Markers :=
  { s with
    marker := Function.update s.marker key (some unusedPosition)
    countryCode := Function.update s.countryCode key .undefined }

/-- The state after the first `n` rounds of the loop of `reset`. -/
def resetState (s : Markers) (n : Nat) : Markers :=
  { s with
    marker := fun i => if i < n then some unusedPosition else s.marker i
    countryCode := fun i => if i < n then .undefined else s.countryCode i }

/-- Well-formed states: both ring cursors are inside their ring, every index
of a ring holds a vertex, and no country code is stored outside the ring. -/
structure WF (s : Markers) : Prop where
  next_lt : s.nextMarker < s.maxMarker
  marker_some : ∀ i, i < s.maxMarker → ∃ v, s.marker i = some v
  cc_undef : ∀ i, s.maxMarker ≤ i → s.countryCode i = .undefined
  anim_lt : (s.nextAnimation : Int) < s.maxAnimation
  anim_some : ∀ i : Nat, (i : Int) < s.maxAnimation → ∃ v, s.animation i = some v

/-- Slot `j` lies among the `m` slots that the ring cursor `n` reaches next,
in a ring of `C` slots. -/
def ahead (C n m j : Nat) : Prop :=
  j < C ∧ ((n ≤ j ∧ j < n + m) ∨ j + C < n + m)

/-- Math functions for evaluating examples: `PI` is `355/113`, cosine and sine
are their Taylor polynomials of degree two and three, and the power (used
with the exponent `1/3` only) is `0` at `0` and else the tangent of the cube
root at `1`. -/
def exampleMath : MathEnv :=
  { PI := 355 / 113
    cos := fun q => 1 - q * q / 2
    sin := fun q => q - q * q * q / 6
    pow := fun q _ => if q = 0 then 0 else (q + 2) / 3 }

/-- A call of `add` for evaluating examples: country `cc` at latitude `0`,
longitude `0` on a globe of radius `200`. -/
def exampleCall (cc label : String) : AddCall :=
  ⟨.str cc, .fin 0, .fin 0, .fin 200, .str label⟩

/-- A call of `add`, `remove` or `reset`. -/
inductive Call where
  | add (c : AddCall)
  | remove (key : Nat)
  | reset

/-- A registry with a record of its history: the number of calls made so far,
and for every slot the number of the call of `add` that wrote it last (`none`
if no `add` has written it). -/
structure Stamped where
  state : Markers
  clock : Nat
  born : Nat → Option Nat

/-- A fresh registry with its empty history. -/
def Stamped.init (options : MarkerOptions) : Stamped :=
  { state := Markers.init options, clock := 0, born := fun _ => none }

/-- One call on a registry with history; `none` if the call raises. -/
def Stamped.step (M : MathEnv) (t : Stamped) : Call → Option Stamped
  | .add c =>
    match add M t.state c.cc c.latitude c.longitude c.radius c.sourceLabel record [] with
    | none => none
    | some (key, s1, _) =>
      some { state := s1, clock := t.clock + 1, born := Function.update t.born key (some t.clock) }
  | .remove key =>
    match remove t.state key with
    | none => none
    | some s1 => some { t with state := s1, clock := t.clock + 1 }
  | .reset =>
    match reset t.state with
    | none => none
    | some s1 => some { t with state := s1, clock := t.clock + 1 }

/-- A sequence of calls on a registry with history. -/
def Stamped.run (M : MathEnv) (t : Stamped) : List Call → Option Stamped
  | [] => some t
  | call :: calls =>
    match Stamped.step M t call with
    | none => none
    | some t1 => Stamped.run M t1 calls

/-- The number of calls of `add` after which the ring cursor `n` reaches the
slot `j`, in a ring of `C` slots. -/
def distance (C n j : Nat) : Nat :=
  if n ≤ j then j - n else j + C - n

/-- The invariant of the history: every slot in use was written by a call of
`add`, the calls recorded are past calls, and the slots were written in the
order in which the ring cursor reaches them next. -/
structure Stamped.Ordered (t : Stamped) : Prop where
  wf : WF t.state
  written : ∀ j, j < t.state.maxMarker → slotInUse t.state j = true → ∃ b, t.born j = some b
  past : ∀ j b, t.born j = some b → b < t.clock
  order : ∀ i j bi bj, i < t.state.maxMarker → j < t.state.maxMarker →
    t.born i = some bi → t.born j = some bj →
    distance t.state.maxMarker t.state.nextMarker i
      < distance t.state.maxMarker t.state.nextMarker j → bi < bj

end Markers

/-! ## countries.js -/

namespace Countries

/-- The table `code`. -/
def code : List String := [
  "A1", "A2", "O1", "AD", "AE", "AF", "AG", "AI", "AL", "AM", "AO", "AP",
  "AQ", "AR", "AS", "AT", "AU", "AW", "AX", "AZ", "BA", "BB", "BD", "BE",
  "BF", "BG", "BH", "BI", "BJ", "BL", "BM", "BN", "BO", "BQ", "BR", "BS",
  "BT", "BV", "BW", "BY", "BZ", "CA", "CC", "CD", "CF", "CG", "CH", "CI",
  "CK", "CL", "CM", "CN", "CO", "CR", "CU", "CV", "CW", "CX", "CY", "CZ",
  "DE", "DJ", "DK", "DM", "DO", "DZ", "EC", "EE", "EG", "EH", "ER", "ES",
  "ET", "EU", "FI", "FJ", "FK", "FM", "FO", "FR", "GA", "GB", "GD", "GE",
  "GF", "GG", "GH", "GI", "GL", "GM", "GN", "GP", "GQ", "GR", "GS", "GT",
  "GU", "GW", "GY", "HK", "HM", "HN", "HR", "HT", "HU", "ID", "IE", "IL",
  "IM", "IN", "IO", "IQ", "IR", "IS", "IT", "JE", "JM", "JO", "JP", "KE",
  "KG", "KH", "KI", "KM", "KN", "KP", "KR", "KW", "KY", "KZ", "LA", "LB",
  "LC", "LI", "LK", "LR", "LS", "LT", "LU", "LV", "LY", "MA", "MC", "MD",
  "ME", "MF", "MG", "MH", "MK", "ML", "MM", "MN", "MO", "MP", "MQ", "MR",
  "MS", "MT", "MU", "MV", "MW", "MX", "MY", "MZ", "NA", "NC", "NE", "NF",
  "NG", "NI", "NL", "NO", "NP", "NR", "NU", "NZ", "OM", "PA", "PE", "PF",
  "PG", "PH", "PK", "PL", "PM", "PN", "PR", "PS", "PT", "PW", "PY", "QA",
  "RE", "RO", "RS", "RU", "RW", "SA", "SB", "SC", "SD", "SE", "SG", "SH",
  "SI", "SJ", "SK", "SL", "SM", "SN", "SO", "SR", "SS", "ST", "SV", "SX",
  "SY", "SZ", "TC", "TD", "TF", "TG", "TH", "TJ", "TK", "TL", "TM", "TN",
  "TO", "TR", "TT", "TV", "TW", "TZ", "UA", "UG", "UM", "US", "UY", "UZ",
  "VA", "VC", "VE", "VG", "VI", "VN", "VU", "WF", "WS", "YE", "YT", "ZA",
  "ZM", "ZW", "NULL", "NULL"]

/-- The constant `bytes`. -/
def bytes : Nat := 3

/-- The closure state of `GLOBE.Countries`: the number `markers`; the object
`markerPerCountry` with the names of its own properties in `keys`, in the
order in which they were created (a property that was never written reads as
`none`; so does a property inherited from `Object.prototype`, an object that
`| 0` turns into `0` and that `> 0` rejects, like `undefined`); the
interpolating function, `maxSaturation`, and the bytes of `cpc`. -/
structure Counters where
  markers : Int
  markerPerCountry : String → Option Int
  keys : List String
  interpolator : ℚ → ℚ
  maxSaturation : ℚ
  cpc : Nat → Nat

/-- The property name under which a value is used as key of an object. -/
def propertyKey : JSVal → String
  | .undefined => "undefined"
  | .num n => toString n
  | .str s => s

/-- The expression `x | 0` for an integer or `undefined`: zero if undefined,
else the value as a signed 32-bit integer. -/
def orZero : Option Int → Int
  | none => 0
  | some n => (n + 2147483648) % 4294967296 - 2147483648

/-- The function `getCC`: the entry `code[index]`. -/
def getCC (index : Nat) : JSVal :=
  match code[index]? with
  | some c => .str c
  | none => .undefined

/-- The byte that a `Uint8Array` stores for a number: its integer part modulo
`256`. -/
def toUint8 (v : ℚ) : Nat :=
  ((if 0 ≤ v then Rat.floor v else -Rat.floor (-v)) % 256).toNat

/-- The function `setColor`. -/
def setColor (cpc : Nat → Nat) (index : Nat) (red green blue : ℚ) : Nat → Nat :=
  let cpc := Function.update cpc (index * bytes + 0) (toUint8 red)
  let cpc := Function.update cpc (index * bytes + 1) (toUint8 green)
  Function.update cpc (index * bytes + 2) (toUint8 blue)

/-- The body of the loop of `updateCountries` for the index `i`. -/
def updateCountry (c : Counters) (i : Nat) : Counters :=
  if c.markers ≤ 0 then
    { c with cpc := setColor c.cpc i c.maxSaturation c.maxSaturation c.maxSaturation }
  else
    let absolute := orZero (c.markerPerCountry (propertyKey (getCC i)))
    let ratio : ℚ := (absolute : ℚ) / (c.markers : ℚ)
    let value := c.interpolator ratio * c.maxSaturation
    { c with cpc := setColor c.cpc i c.maxSaturation value value }

/-- The function `updateCountries`: the loop over `i = 0, ..., code.length - 1`. -/
def updateCountries (c : Counters) : Counters :=
  (List.range code.length).foldl updateCountry c

/-- The assignment `markerPerCountry[key] = value`.  Under the name `__proto__`
an object has the accessor inherited from `Object.prototype`, whose setter
ignores a number: nothing is stored. -/
def setProperty (c : Counters) (key : String) (value : Int) : Counters :=
  if key = "__proto__" then c
  else
    { c with
      markerPerCountry := Function.update c.markerPerCountry key (some value)
      keys := if key ∈ c.keys then c.keys else c.keys ++ [key] }

/-- The function `inc`. -/
def inc (c : Counters) (cc : JSVal) : Counters :=
  let c := { c with markers := c.markers + 1 }
  let c := setProperty c (propertyKey cc) (orZero (c.markerPerCountry (propertyKey cc)) + 1)
  updateCountries c

/-- The function `dec`. -/
def dec (c : Counters) (cc : JSVal) : Counters :=
  match c.markerPerCountry (propertyKey cc) with
  | some v =>
    if v > 0 then
      let c := { c with markers := c.markers - 1 }
      let c := setProperty c (propertyKey cc) (v - 1)
      updateCountries c
    else c
  | none => c

/-- The function `reset`. -/
def reset (c : Counters) : Counters :=
  let c := c.keys.foldl (fun c key => setProperty c key 0) c
  let c := { c with markers := 0 }
  updateCountries c

/-- The options of `GLOBE.Countries` (`none` when an option is not supplied). -/
structure Options where
  interpolator : Option (ℚ → ℚ)
  maxSaturation : Option ℚ

/-- The function `defaultInterpolator` of `init`. -/
def defaultInterpolator (M : MathEnv) (ratio : ℚ) : ℚ :=
  1 - M.pow ratio (1 / 3)

/-- The value of `maxSaturation` after `init` has evaluated the options. -/
def initMaxSaturation (options : Options) : ℚ :=
  let maxSaturation :=
    match options.maxSaturation with
    | none => 255
    | some v => if v = 0 then 255 else v
  let maxSaturation := if maxSaturation > 255 then 255 else maxSaturation
  if maxSaturation < 0 then 0 else maxSaturation

/-- The function `init`. -/
def init (M : MathEnv) (options : Options) : Counters :=
  reset
    { markers := 0
      markerPerCountry := fun _ => none
      keys := []
      interpolator := options.interpolator.getD (defaultInterpolator M)
      maxSaturation := initMaxSaturation options
      cpc := fun _ => 0 }

/-- The state that `init` leaves when no option is supplied. -/
def initCounters : Counters := init Markers.exampleMath ⟨none, none⟩

/-- The function `hasMarker`. -/
def hasMarker (c : Counters) : Bool := decide (c.markers > 0)

/-- The function `getMarkers`. -/
def getMarkers (c : Counters) (index : Nat) : Int :=
  orZero (c.markerPerCountry (propertyKey (getCC index)))

/-- The function `getAllMarkers`. -/
def getAllMarkers (c : Counters) : Int := c.markers

/-- A call of `inc`, `dec` or `reset`. -/
inductive Op where
  | inc (cc : JSVal)
  | dec (cc : JSVal)
  | reset

/-- The state after one call. -/
def apply (c : Counters) : Op → Counters
  | .inc cc => inc c cc
  | .dec cc => dec c cc
  | .reset => reset c

/-- The state after a sequence of calls. -/
def run (c : Counters) (ops : List Op) : Counters :=
  ops.foldl apply c

/-- The sum of all counters stored in `markerPerCountry`. -/
def counterSum (c : Counters) : Int :=
  (c.keys.map (fun key => (c.markerPerCountry key).getD 0)).sum

/-- The call does not increment the name `__proto__`. -/
def Op.plain : Op → Prop
  | .inc cc => propertyKey cc ≠ "__proto__"
  | _ => True

/-- The object `markerPerCountry` is well-formed: `keys` lists each own
property once, these are the names that hold a number, and `__proto__` is not
among them. -/
structure Shape (c : Counters) : Prop where
  nodup : c.keys.Nodup
  noProto : "__proto__" ∉ c.keys
  mem_iff : ∀ key, key ∈ c.keys ↔ ∃ v, c.markerPerCountry key = some v

/-- The invariant of the aggregator: every counter is at least zero and the
counters add up to `markers`. -/
structure Counted (c : Counters) : Prop where
  shape : Shape c
  nonneg : ∀ key v, c.markerPerCountry key = some v → 0 ≤ v
  sum_eq : counterSum c = c.markers

/-- The three bytes that `cpc` holds for the colour index `i`. -/
def getColor (c : Counters) (i : Nat) : Nat × Nat × Nat :=
  (c.cpc (i * bytes + 0), c.cpc (i * bytes + 1), c.cpc (i * bytes + 2))

/-- The colour of the index `i` as the specification words it: the neutral
colour if the total is zero, else red at `maxSaturation` and green and blue at
the interpolation of the share of the country, each stored as a byte. -/
def specColor (c : Counters) (i : Nat) : Nat × Nat × Nat :=
  if getAllMarkers c = 0 then
    (toUint8 c.maxSaturation, toUint8 c.maxSaturation, toUint8 c.maxSaturation)
  else
    (toUint8 c.maxSaturation,
      toUint8 (c.interpolator ((getMarkers c i : ℚ) / (getAllMarkers c : ℚ)) * c.maxSaturation),
      toUint8 (c.interpolator ((getMarkers c i : ℚ) / (getAllMarkers c : ℚ)) * c.maxSaturation))

/-- The value `m` clamped to the range from `0` to `255`, in the words of the
specification. -/
def specMaxSaturation (m : ℚ) : ℚ :=
  if m < 0 then 0 else if m > 255 then 255 else m

/-- The sum of the positive counters stored in `markerPerCountry`. -/
def positiveSum (c : Counters) : Int :=
  (c.keys.map (fun key => max ((c.markerPerCountry key).getD 0) 0)).sum

/-- The colour that one pass of the loop of `updateCountries` writes. -/
def rowColor (c : Counters) (i : Nat) : Nat × Nat × Nat :=
  getColor (updateCountry c i) i

/-- The colour table agrees with the counters. -/
def TableOK (c : Counters) : Prop :=
  ∀ i, i < 256 → getColor c i = rowColor c i

/-- The invariant that holds after every sequence of calls: no counter is
below `-2^31`, and the positive counters add up to at most `markers`. -/
structure Bounded (c : Counters) : Prop where
  shape : Shape c
  lower : ∀ key v, c.markerPerCountry key = some v → -2147483648 ≤ v
  sum_le : positiveSum c ≤ c.markers

end Countries

/-! ## main.js: the picking decode -/

namespace Main

/-- The sample `renderer.getPixel(posX, posY)`: four bytes of the pick buffer. -/
structure Color where
  r : Nat
  g : Nat
  b : Nat
  a : Nat
  deriving DecidableEq, Repr

/-- The calls that `setLabel` makes to its collaborators. -/
inductive Effect where
  | viewGetLabel (key : Nat)
  | countriesGetCC (index : Nat)
  | countriesGetMarkers (index : Nat)
  | countriesGetAllMarkers
  | rendererSetPickIndex (index : Int)
  | tooltipShow (label : JSVal) (x y : Int)
  | tooltipHide
  deriving DecidableEq, Repr

/-- The text of a value inside a string concatenation. -/
def toText : JSVal → String
  | .undefined => "undefined"
  | .num n => toString n
  | .str s => s

/-- The default of the option `modifyMarkerLabel`. -/
def defaultModifyMarkerLabel (label : JSVal) : JSVal := label

/-- The default of the option `setCountryLabel`. -/
def defaultSetCountryLabel (cc : JSVal) (markers allMarkers : Int) : JSVal :=
  .str ("CC: " ++ toText cc ++ " Markers: " ++ toString markers ++ " of "
    ++ toString allMarkers ++ " total")

/-- The function `setLabel`, given the sampled `color` in place of the mouse
position it is read at.  The result lists the collaborator calls in the order
in which they are made. -/
def setLabel (view : Markers) (countries : Countries.Counters)
    (modifyMarkerLabel : JSVal → JSVal) (setCountryLabel : JSVal → Int → Int → JSVal)
    (color : Color) (screenPosX screenPosY : Int) : List Effect :=
  if color.a = 255 then
    (if color.r = 0 then
      let hex := (color.r <<< 16) + (color.g <<< 8) + color.b
      let label := modifyMarkerLabel (view.getLabel hex)
      [.viewGetLabel hex, .tooltipShow label screenPosX screenPosY]
    else []) ++
    (if color.r > 0 ∧ color.r < 254 then
      let cc := Countries.getCC color.r
      let markers := Countries.getMarkers countries color.r
      let allMarkers := Countries.getAllMarkers countries
      let label := setCountryLabel cc markers allMarkers
      [.countriesGetCC color.r, .countriesGetMarkers color.r, .countriesGetAllMarkers,
        .rendererSetPickIndex color.r, .tooltipShow label screenPosX screenPosY]
    else [])
  else
    [.tooltipHide, .rendererSetPickIndex (-1)]

/-- The sample that the pick buffer holds where marker `i` is drawn. -/
def markerSample (i : Nat) : Color :=
  let c := Markers.pickColor i
  ⟨c.1, c.2.1, c.2.2.1, c.2.2.2⟩

/-- The decode result "marker hit for `key`": the label of marker `key` is
looked up and shown, nothing else is called. -/
def MarkerHit (view : Markers) (modifyMarkerLabel : JSVal → JSVal) (key : Nat)
    (x y : Int) : List Effect :=
  [.viewGetLabel key, .tooltipShow (modifyMarkerLabel (view.getLabel key)) x y]

/-- The decode result "country hit for `index`": the label is built from that
country's code and counters, the country is highlighted and the label shown;
no marker is looked up. -/
def CountryHit (countries : Countries.Counters)
    (setCountryLabel : JSVal → Int → Int → JSVal) (index : Nat) (x y : Int) : List Effect :=
  [.countriesGetCC index, .countriesGetMarkers index, .countriesGetAllMarkers,
    .rendererSetPickIndex index,
    .tooltipShow (setCountryLabel (Countries.getCC index)
      (Countries.getMarkers countries index) (Countries.getAllMarkers countries)) x y]

/-- The decode result "no hit": the tooltip is hidden and the highlight
cleared. -/
def NoHit : List Effect := [.tooltipHide, .rendererSetPickIndex (-1)]

end Main

/-! ## position.js

The position is embedded over an ordered field `K` of finite numbers (the
rationals for evaluation, the reals where `Math.sqrt` is needed); a limit is
`none` where the source has an infinity (`-INFINITY` in a lower limit,
`INFINITY` in an upper limit).  Vectors are values: the vectors passed in the
options are assumed not to be shared with each other or changed by the caller.
-/

/-- A `THREE.Vector3` with components in `K`. -/
structure Vec3 (K : Type) where
  x : K
  y : K
  z : K
  deriving DecidableEq

namespace Vec3

/-- The method `a.multiply(b)` (also `multiplyVectors(a, b)`): the
component-wise product. -/
def multiply {K : Type} [LinearOrderedField K] (a b : Vec3 K) : Vec3 K :=
  ⟨a.x * b.x, a.y * b.y, a.z * b.z⟩

/-- The method `a.add(b)` (also `addVectors(a, b)`). -/
def add {K : Type} [LinearOrderedField K] (a b : Vec3 K) : Vec3 K :=
  ⟨a.x + b.x, a.y + b.y, a.z + b.z⟩

/-- The method `subVectors(a, b)`. -/
def subVectors {K : Type} [LinearOrderedField K] (a b : Vec3 K) : Vec3 K :=
  ⟨a.x - b.x, a.y - b.y, a.z - b.z⟩

/-- The method `a.multiplyScalar(s)`. -/
def multiplyScalar {K : Type} [LinearOrderedField K] (a : Vec3 K) (s : K) : Vec3 K :=
  ⟨a.x * s, a.y * s, a.z * s⟩

/-- One component of `clamp`: a value below `min` becomes `min`, else a value
above `max` becomes `max` (`none` is the infinite limit, which no value
passes). -/
def clampComponent {K : Type} [LinearOrderedField K] (min max : Option K) (v : K) : K :=
  match min, max with
  | some l, some u => if v < l then l else if v > u then u else v
  | some l, none => if v < l then l else v
  | none, some u => if v > u then u else v
  | none, none => v

/-- The method `v.clamp(min, max)` of three.js. -/
def clamp {K : Type} [LinearOrderedField K] (v : Vec3 K) (min max : Vec3 (Option K)) : Vec3 K :=
  ⟨clampComponent min.x max.x v.x, clampComponent min.y max.y v.y,
    clampComponent min.z max.z v.z⟩

/-- The method `v.length()`, for a given square root function. -/
def length {K : Type} [LinearOrderedField K] (sqrt : K → K) (v : Vec3 K) : K :=
  sqrt (v.x * v.x + v.y * v.y + v.z * v.z)

end Vec3

/-- The closure state of `GLOBE.Position`. -/
structure Position (K : Type) where
  currentPos : Vec3 K
  targetPos : Vec3 K
  storedPos : Vec3 K
  lastTarget : Vec3 K
  lowerLimit : Vec3 (Option K)
  upperLimit : Vec3 (Option K)
  weights : Vec3 K
  difference : Vec3 K

namespace Position

/-- The options of `GLOBE.Position` (`none` when an option is not supplied). -/
structure Options (K : Type) where
  currentPos : Option (Vec3 K)
  targetPos : Option (Vec3 K)
  weights : Option (Vec3 K)
  lowerLimit : Option (Vec3 (Option K))
  upperLimit : Option (Vec3 (Option K))

/-- The constant `ZEROS`. -/
def ZEROS {K : Type} [LinearOrderedField K] : Vec3 K := ⟨0, 0, 0⟩

/-- The constant `ONES`. -/
def ONES {K : Type} [LinearOrderedField K] : Vec3 K := ⟨1, 1, 1⟩

/-- The constant `MIN`, as a lower limit. -/
def MIN {K : Type} : Vec3 (Option K) := ⟨none, none, none⟩

/-- The constant `MAX`, as an upper limit. -/
def MAX {K : Type} : Vec3 (Option K) := ⟨none, none, none⟩

/-- The function `getZoomDamp`. -/
def getZoomDamp {K : Type} [LinearOrderedField K] (p : Position K) : Vec3 K :=
  ⟨1, p.currentPos.x * p.currentPos.x, p.currentPos.x * p.currentPos.x⟩

/-- The function `clampTarget`. -/
def clampTarget {K : Type} [LinearOrderedField K] (p : Position K) : Position K :=
  { p with targetPos := p.targetPos.clamp p.lowerLimit p.upperLimit }

/-- The function `updateDifference`. -/
def updateDifference {K : Type} [LinearOrderedField K] (p : Position K) : Position K :=
  { p with difference := Vec3.subVectors p.targetPos p.currentPos }

/-- The loop of `init` over the three components of `weights`: the first
component outside `(0, 1]` replaces the whole vector by `ONES` and ends the
loop. -/
def checkWeights {K : Type} [LinearOrderedField K] (weights : Vec3 K) : Vec3 K :=
  if weights.x ≤ 0 ∨ weights.x > 1 then ONES
  else if weights.y ≤ 0 ∨ weights.y > 1 then ONES
  else if weights.z ≤ 0 ∨ weights.z > 1 then ONES
  else weights

/-- The function `init`. -/
def init {K : Type} [LinearOrderedField K] (options : Options K) : Position K :=
  let currentPos := options.currentPos.getD ZEROS
  let targetPos := options.targetPos.getD ZEROS
  let p : Position K :=
    { currentPos := currentPos
      targetPos := targetPos
      storedPos := currentPos
      lastTarget := targetPos
      lowerLimit := options.lowerLimit.getD MIN
      upperLimit := options.upperLimit.getD MAX
      weights := checkWeights (options.weights.getD ONES)
      difference := ZEROS }
  updateDifference (clampTarget p)

/-- The function `adjustTarget`. -/
def adjustTarget {K : Type} [LinearOrderedField K] (p : Position K) (delta : Vec3 K) :
    Position K :=
  let zoomDamp := getZoomDamp p
  let delta := delta.multiply zoomDamp
  updateDifference (clampTarget { p with targetPos := p.targetPos.add delta })

/-- The function `store`. -/
def store {K : Type} [LinearOrderedField K] (p : Position K) (pos : Vec3 K) : Position K :=
  { p with lastTarget := p.targetPos, storedPos := pos }

/-- The expression `damp || 1`: `1` when the argument is left out or zero. -/
def dampOrOne {K : Type} [LinearOrderedField K] (damp : Option K) : K :=
  match damp with
  | none => 1
  | some d => if d = 0 then 1 else d

/-- The function `adjustTargetRelative`. -/
def adjustTargetRelative {K : Type} [LinearOrderedField K] (p : Position K) (pos : Vec3 K)
    (damp : Option K) : Position K :=
  let damp := dampOrOne damp
  let zoomDamp := getZoomDamp p
  let vec := Vec3.subVectors pos p.storedPos
  let vec := vec.multiplyScalar damp
  let vec := vec.multiply zoomDamp
  updateDifference (clampTarget { p with targetPos := Vec3.add p.lastTarget vec })

/-- The function `doStep`: the returned vector and the new state. -/
def doStep {K : Type} [LinearOrderedField K] (p : Position K) : Vec3 K × Position K :=
  let intermediate := Vec3.multiply p.difference p.weights
  let p := updateDifference { p with currentPos := p.currentPos.add intermediate }
  (p.currentPos, p)

/-- The function `getError`, for a given square root function. -/
def getError {K : Type} [LinearOrderedField K] (sqrt : K → K) (p : Position K) : K :=
  let targetLength := p.targetPos.length sqrt
  p.difference.length sqrt / (if targetLength = 0 then 1 else targetLength)

/-- The error as the specification words it: `|difference| / max(|target|, 1)`. -/
def specError {K : Type} [LinearOrderedField K] (sqrt : K → K) (p : Position K) : K :=
  p.difference.length sqrt / max (p.targetPos.length sqrt) 1

/-- The target of `adjustTargetRelative(pos, d)` as the specification words it:
`clamp(lastTarget + ((pos - stored) * d) ⊙ (1, r², r²))` with `r` the radial
component of `current`. -/
def specRelativeTarget {K : Type} [LinearOrderedField K] (p : Position K) (pos : Vec3 K)
    (d : K) : Vec3 K :=
  Vec3.clamp
    ⟨p.lastTarget.x + (pos.x - p.storedPos.x) * d * 1,
      p.lastTarget.y + (pos.y - p.storedPos.y) * d * p.currentPos.x ^ 2,
      p.lastTarget.z + (pos.z - p.storedPos.z) * d * p.currentPos.x ^ 2⟩
    p.lowerLimit p.upperLimit

/-- A position at rest at the origin, without limits, over the rationals: the
state that `init` leaves when no option is supplied. -/
def examplePosition : Position ℚ := init ⟨none, none, none, none, none⟩

/-- The options of `main.js` with rational stand-ins for the angles: distance
limited to `[250, 1000]`, horizontal angle free, vertical angle limited to
`[-3/2, 3/2]`. -/
def exampleOptions : Options ℚ :=
  { currentPos := some ⟨10000, 0, 0⟩
    targetPos := some ⟨1000, 2, 1 / 3⟩
    weights := some ⟨3 / 10, 1 / 10, 1 / 10⟩
    lowerLimit := some ⟨some 250, none, some (-3 / 2)⟩
    upperLimit := some ⟨some 1000, none, some (3 / 2)⟩ }

/-- States of a position: after `init` and after any call of `adjustTarget`,
`store`, `adjustTargetRelative` and `doStep`. -/
inductive Reachable {K : Type} [LinearOrderedField K] : Position K → Prop where
  | init (options : Options K) : Reachable (init options)
  | adjustTarget {p : Position K} (delta : Vec3 K) (h : Reachable p) :
      Reachable (adjustTarget p delta)
  | store {p : Position K} (pos : Vec3 K) (h : Reachable p) : Reachable (store p pos)
  | adjustTargetRelative {p : Position K} (pos : Vec3 K) (damp : Option K)
      (h : Reachable p) : Reachable (adjustTargetRelative p pos damp)
  | doStep {p : Position K} (h : Reachable p) : Reachable (doStep p).2

/-- A lower limit is not above its upper limit (an infinite limit never is). -/
def componentOrdered {K : Type} [LinearOrderedField K] (min max : Option K) : Prop :=
  match min, max with
  | some l, some u => l ≤ u
  | _, _ => True

/-- The limits satisfy `lowerLimit <= upperLimit` in every component. -/
def limitsOrdered {K : Type} [LinearOrderedField K] (p : Position K) : Prop :=
  componentOrdered p.lowerLimit.x p.upperLimit.x ∧
  componentOrdered p.lowerLimit.y p.upperLimit.y ∧
  componentOrdered p.lowerLimit.z p.upperLimit.z

/-- The value `v` lies in `[min, max]`. -/
def componentWithin {K : Type} [LinearOrderedField K] (min max : Option K) (v : K) : Prop :=
  (match min with | some l => l ≤ v | none => True) ∧
  (match max with | some u => v ≤ u | none => True)

/-- The vector `v` lies in `[lowerLimit, upperLimit]` in every component. -/
def withinLimits {K : Type} [LinearOrderedField K] (p : Position K) (v : Vec3 K) : Prop :=
  componentWithin p.lowerLimit.x p.upperLimit.x v.x ∧
  componentWithin p.lowerLimit.y p.upperLimit.y v.y ∧
  componentWithin p.lowerLimit.z p.upperLimit.z v.z

/-- Every component of the weights lies in `(0, 1]`. -/
def validWeights {K : Type} [LinearOrderedField K] (w : Vec3 K) : Prop :=
  (0 < w.x ∧ w.x ≤ 1) ∧ (0 < w.y ∧ w.y ≤ 1) ∧ (0 < w.z ∧ w.z ≤ 1)

/-- The state after `n` calls of `doStep`. -/
def steps {K : Type} [LinearOrderedField K] (n : Nat) (p : Position K) : Position K :=
  match n with
  | 0 => p
  | n + 1 => (doStep (steps n p)).2

end Position

/-! ## update.js -/

namespace Update

/-- The variable `enqueued`.  `GLOBE.Update` declares `timeoutInterval`,
`blocked`, `waiting` and `updateFunction` with `var`; `enqueued` is not among
them, so the assignments to it create and write a variable of the global
scope, which all instances share. -/
structure Globals where
  enqueued : Bool
  deriving DecidableEq, Repr

/-- A pending callback of `setTimeout`: the time at which it is due and the
argument `execute` of the call of `startTimeout` that set it. -/
structure Timeout where
  due : Nat
  execute : Bool
  deriving DecidableEq, Repr

/-- The closure state of one `GLOBE.Update` object, with its pending timeouts
(oldest first) and the times of all calls of `updateFunction` so far (oldest
first). -/
structure Throttler where
  timeoutInterval : Nat
  blocked : Bool
  timeouts : List Timeout
  calls : List Nat
  deriving DecidableEq, Repr

/-- The function `init` of `new GLOBE.Update(f, t)`. -/
def init (_g : Globals) (t : Nat) : Globals × Throttler :=
  ({ enqueued := false },
    { timeoutInterval := t, blocked := false, timeouts := [], calls := [] })

/-- The call `updateFunction()` at the time `now`. -/
def updateFunction (u : Throttler) (now : Nat) : Throttler :=
  { u with calls := u.calls ++ [now] }

/-- The function `startTimeout`, called at the time `now`. -/
def startTimeout (u : Throttler) (now : Nat) (execute : Bool) : Throttler :=
  { u with timeouts := u.timeouts ++ [⟨now + u.timeoutInterval, execute⟩] }

/-- The function `execute`, called at the time `now`. -/
def execute (g : Globals) (u : Throttler) (now : Nat) : Globals × Throttler :=
  if !u.blocked then
    let u := { u with blocked := true }
    let u := updateFunction u now
    (g, startTimeout u now false)
  else
    ({ g with enqueued := true }, u)

/-- The callback that `startTimeout` hands to `setTimeout`, run for the oldest
pending timeout at the time at which it is due; nothing happens when no
timeout is pending. -/
def expire (g : Globals) (u : Throttler) : Globals × Throttler :=
  match u.timeouts with
  | [] => (g, u)
  | timeout :: rest =>
    let u := { u with timeouts := rest }
    let u := if timeout.execute then updateFunction u timeout.due else u
    if g.enqueued then
      ({ g with enqueued := false }, startTimeout u timeout.due true)
    else
      (g, { u with blocked := false })

/-- What happens to one throttler: a call of `execute` at a given time, or
the expiry of its oldest pending timeout. -/
inductive Event where
  | execute (now : Nat)
  | expire
  deriving DecidableEq, Repr

/-- The state after one event. -/
def step (s : Globals × Throttler) : Event → Globals × Throttler
  | .execute now => execute s.1 s.2 now
  | .expire => expire s.1 s.2

/-- The state after a sequence of events. -/
def run (s : Globals × Throttler) (events : List Event) : Globals × Throttler :=
  events.foldl step s

/-- The event calls `updateFunction` in the state `s`. -/
def invokes (s : Globals × Throttler) (e : Event) : Bool :=
  decide ((step s e).2.calls ≠ s.2.calls)

/-- The two throttlers of `GLOBE.Main` with the global scope they share. -/
structure System where
  globals : Globals
  pickBufferUpdate : Throttler
  mapUpdate : Throttler
  deriving DecidableEq, Repr

/-- The two constructor calls of `onLoad` in main.js:
`pickBufferUpdate = new GLOBE.Update(..., 300)`, then
`mapUpdate = new GLOBE.Update(..., 100)`. -/
def System.init (g : Globals) : System :=
  let p := Update.init g 300
  let m := Update.init p.1 100
  { globals := m.1, pickBufferUpdate := p.2, mapUpdate := m.2 }

/-- The two instances. -/
inductive Instance where
  | pickBufferUpdate
  | mapUpdate
  deriving DecidableEq, Repr

/-- The state of the system after one event of one instance. -/
def System.step (s : System) : Instance × Event → System
  | (.pickBufferUpdate, e) =>
    let r := Update.step (s.globals, s.pickBufferUpdate) e
    { s with globals := r.1, pickBufferUpdate := r.2 }
  | (.mapUpdate, e) =>
    let r := Update.step (s.globals, s.mapUpdate) e
    { s with globals := r.1, mapUpdate := r.2 }

/-- The state of the system after a sequence of events. -/
def System.run (s : System) (events : List (Instance × Event)) : System :=
  events.foldl System.step s

/-- The reachable states of a single throttler: either it is idle (not
blocked, nothing queued, no timeout pending), or it is blocked and exactly one
timeout is pending. -/
def Settled (s : Globals × Throttler) : Prop :=
  (s.2.blocked = false ∧ s.1.enqueued = false ∧ s.2.timeouts = []) ∨
  (s.2.blocked = true ∧ ∃ timeout, s.2.timeouts = [timeout])

end Update

namespace JSNum

/-- The difference `a - b`. -/
def sub : JSNum → JSNum → JSNum
  | nan, _ => nan
  | _, nan => nan
  | fin a, fin b => fin (a - b)
  | fin _, posInf => negInf
  | fin _, negInf => posInf
  | posInf, fin _ => posInf
  | negInf, fin _ => negInf
  | posInf, posInf => nan
  | negInf, negInf => nan
  | posInf, negInf => posInf
  | negInf, posInf => negInf

end JSNum

/-! ## main.js: markers and countries -/

namespace Main

/-- The objects of `GLOBE.Main` that `addMarker`, `removeMarker` and `reset`
use: the marker registry of `view`, `countries`, and the two throttlers
`pickBufferUpdate` and `mapUpdate`. -/
structure Controller where
  view : Markers
  countries : Countries.Counters
  updates : Update.System

/-- The option `offset` of the view that `onLoad` builds. -/
def viewOffset : JSNum := .fin 10

/-- The option `radius` of the view that `onLoad` builds. -/
def viewRadius : JSNum := .fin 200

/-- The `markerScale` of the view: `options.markerScale || 1`, and `onLoad`
sets no such option. -/
def viewMarkerScale : JSNum := .fin 1

/-- The function `addMarker` of view.js. -/
def viewAddMarker {σ : Type} (M : MathEnv) (markers : Markers) (cc : JSVal)
    (latitude longitude : JSNum) (sourceLabel : JSVal) (onOverflow : JSVal → σ → σ) (w : σ) :
    Option (Nat × Markers × σ) :=
  Markers.add M markers cc latitude (longitude.sub viewOffset) (viewRadius.mul viewMarkerScale)
    sourceLabel onOverflow w

/-- The calls `pickBufferUpdate.execute(); mapUpdate.execute();` at the time
`now`. -/
def executeBoth (u : Update.System) (now : Nat) : Update.System :=
  (u.step (.pickBufferUpdate, .execute now)).step (.mapUpdate, .execute now)

/-- The function `addMarker` of main.js, called at the time `now`; the
callback `onOverflow` is `countries.dec`. -/
def addMarker (M : MathEnv) (g : Controller) (now : Nat) (cc : JSVal)
    (latitude longitude : JSNum) (sourceLabel : JSVal) : Option (Nat × Controller) :=
  let onOverflow : JSVal → Countries.Counters → Countries.Counters :=
    fun cc c => Countries.dec c cc
  match viewAddMarker M g.view cc latitude longitude sourceLabel onOverflow g.countries with
  | none => none
  | some (returnMarker, view, countries) =>
    let countries := Countries.inc countries cc
    some (returnMarker,
      { view := view, countries := countries, updates := executeBoth g.updates now })

/-- The function `removeMarker` of main.js, called at the time `now`. -/
def removeMarker (g : Controller) (now : Nat) (key : Nat) : Option Controller :=
  let cc := Markers.getCC g.view key
  match Markers.remove g.view key with
  | none => none
  | some view =>
    let countries := Countries.dec g.countries cc
    some { view := view, countries := countries, updates := executeBoth g.updates now }

/-- The function `reset` of main.js, called at the time `now`. -/
def reset (g : Controller) (now : Nat) : Option Controller :=
  let countries := Countries.reset g.countries
  match Markers.reset g.view with
  | none => none
  | some view =>
    some { view := view, countries := countries, updates := executeBoth g.updates now }

/-- The objects that `onLoad` builds.  main.js passes no `maxMarker` to the
view (`viewOptions` is `⟨none, none⟩` there, a capacity of `10000`) and no
options to `GLOBE.Countries`. -/
def onLoad (M : MathEnv) (viewOptions : MarkerOptions) (g : Update.Globals) : Controller :=
  { view := Markers.init viewOptions
    countries := Countries.init M ⟨none, none⟩
    updates := Update.System.init g }

/-- A call of `addMarker`, `removeMarker` or `reset`. -/
inductive Call where
  | addMarker (cc : JSVal) (latitude longitude : JSNum) (sourceLabel : JSVal)
  | removeMarker (key : Nat)
  | reset

/-- The state after one call at the time `now`; `none` if the call raises. -/
def step (M : MathEnv) (g : Controller) (now : Nat) : Call → Option Controller
  | .addMarker cc latitude longitude sourceLabel =>
    match addMarker M g now cc latitude longitude sourceLabel with
    | none => none
    | some (_, g1) => some g1
  | .removeMarker key => removeMarker g now key
  | .reset => reset g now

/-- The state after a sequence of calls, each with its time. -/
def run (M : MathEnv) (g : Controller) : List (Nat × Call) → Option Controller
  | [] => some g
  | (now, call) :: calls =>
    match step M g now call with
    | none => none
    | some g1 => run M g1 calls

/-- The calls that use a country code of the code table and finite
coordinates, and keys of `removeMarker` below the capacity. -/
def Call.admissible (capacity : Nat) : Call → Prop
  | .addMarker cc latitude longitude _ =>
    (∃ s, s ∈ Countries.code ∧ cc = .str s) ∧ latitude.isFinite = true ∧
      longitude.isFinite = true
  | .removeMarker key => key < capacity
  | .reset => True

/-- Calls for evaluating examples: adds for `US`, `DE` and `US` at the times
`0`, `10`, `20`, then `removeMarker(1)` at the times `30` and `40`. -/
def exampleCalls : List (Nat × Call) :=
  [(0, .addMarker (.str "US") (.fin 38) (.fin (-97)) (.str "a")),
    (10, .addMarker (.str "DE") (.fin 51) (.fin 9) (.str "b")),
    (20, .addMarker (.str "US") (.fin 40) (.fin (-74)) (.str "c")),
    (30, .removeMarker 1),
    (40, .removeMarker 1)]

/-- The number of marker slots in use. -/
def inUseCount (s : Markers) : Nat :=
  (List.range s.maxMarker).countP (Markers.slotInUse s)

/-- The number of marker slots in use that carry the country code `cc`. -/
def codeCount (s : Markers) (cc : JSVal) : Nat :=
  (List.range s.maxMarker).countP (fun i => Markers.slotInUse s i && decide (s.countryCode i = cc))

/-- The number of marker slots in use whose country code has the property
name `key`. -/
def keyCount (s : Markers) (key : String) : Nat :=
  (List.range s.maxMarker).countP
    (fun i => Markers.slotInUse s i && decide (Countries.propertyKey (s.countryCode i) = key))

/-- The invariant of the controller: the registry is well-formed; a slot in
use carries a code of the code table; a slot not in use carries `undefined`,
unless no marker was added yet; every counter of the aggregator is the number
of slots in use with that code, and the total is the number of slots in use. -/
structure Consistent (g : Controller) : Prop where
  wf : Markers.WF g.view
  cap : g.view.maxMarker ≤ 16777216
  shape : Countries.Shape g.countries
  coded : ∀ i, i < g.view.maxMarker → Markers.slotInUse g.view i = true →
    ∃ s, s ∈ Countries.code ∧ g.view.countryCode i = .str s
  idle : (∀ i, i < g.view.maxMarker → Markers.slotInUse g.view i = false →
      g.view.countryCode i = .undefined) ∨
    (g.view.nextMarker = 0 ∧ (∀ i, i < g.view.maxMarker → Markers.slotInUse g.view i = false) ∧
      ∀ i, 0 < i → i < g.view.maxMarker → g.view.countryCode i = .undefined)
  counts : ∀ key, (g.countries.markerPerCountry key).getD 0 = (keyCount g.view key : Int)
  total : g.countries.markers = (inUseCount g.view : Int)

end Main

/-! ## Double arithmetic -/

namespace Float64

/-- The nearest integer to `m`, the even one of the two when `m` lies halfway
between two integers. -/
def roundHalfEven {K : Type} [LinearOrderedField K] [FloorRing K] (m : K) : Int :=
  if m - (⌊m⌋ : Int) < 1 / 2 then ⌊m⌋
  else if 1 / 2 < m - (⌊m⌋ : Int) then ⌊m⌋ + 1
  else if ⌊m⌋ % 2 = 0 then ⌊m⌋ else ⌊m⌋ + 1

/-- The distance between neighbouring doubles at a positive number `x`: with
`2^e <= x < 2^(e+1)` it is `2^(e-52)`, as the significand has 53 bits. -/
def ulp {K : Type} [LinearOrderedField K] [FloorRing K] (x : K) : K :=
  (2 : K) ^ (Int.log 2 x - 52)

/-- The double nearest to a positive number. -/
def roundPos {K : Type} [LinearOrderedField K] [FloorRing K] (x : K) : K :=
  (roundHalfEven (x / ulp x) : K) * ulp x

/-- The double that the result `x` of an arithmetic operation is rounded to
(round to nearest, ties to even); the range of the exponent is taken as
unbounded, so that there is no overflow and no underflow. -/
def toDouble {K : Type} [LinearOrderedField K] [FloorRing K] (x : K) : K :=
  if 0 < x then roundPos x else if x < 0 then -roundPos (-x) else 0

end Float64

/-! ## position.js in double arithmetic

The functions of position.js that `doStep` and `getError` use, with the result
of every arithmetic operation rounded to the nearest double. -/

namespace Vec3

/-- The method `multiplyVectors(a, b)` in double arithmetic. -/
def multiplyDouble {K : Type} [LinearOrderedField K] [FloorRing K] (a b : Vec3 K) : Vec3 K :=
  ⟨Float64.toDouble (a.x * b.x), Float64.toDouble (a.y * b.y), Float64.toDouble (a.z * b.z)⟩

/-- The method `a.add(b)` in double arithmetic. -/
def addDouble {K : Type} [LinearOrderedField K] [FloorRing K] (a b : Vec3 K) : Vec3 K :=
  ⟨Float64.toDouble (a.x + b.x), Float64.toDouble (a.y + b.y), Float64.toDouble (a.z + b.z)⟩

/-- The method `subVectors(a, b)` in double arithmetic. -/
def subVectorsDouble {K : Type} [LinearOrderedField K] [FloorRing K] (a b : Vec3 K) : Vec3 K :=
  ⟨Float64.toDouble (a.x - b.x), Float64.toDouble (a.y - b.y), Float64.toDouble (a.z - b.z)⟩

/-- The method `v.length()` in double arithmetic, that is
`Math.sqrt(x * x + y * y + z * z)`, for a given exact square root function:
`Math.sqrt` returns the double nearest to the root. -/
def lengthDouble {K : Type} [LinearOrderedField K] [FloorRing K] (sqrt : K → K) (v : Vec3 K) :
    K :=
  Float64.toDouble (sqrt (Float64.toDouble
    (Float64.toDouble (Float64.toDouble (v.x * v.x) + Float64.toDouble (v.y * v.y))
      + Float64.toDouble (v.z * v.z))))

end Vec3

namespace Position

/-- The function `updateDifference` in double arithmetic. -/
def updateDifferenceDouble {K : Type} [LinearOrderedField K] [FloorRing K] (p : Position K) :
    Position K :=
  { p with difference := Vec3.subVectorsDouble p.targetPos p.currentPos }

/-- The function `init` in double arithmetic (only `updateDifference`
calculates). -/
def initDouble {K : Type} [LinearOrderedField K] [FloorRing K] (options : Options K) :
    Position K :=
  updateDifferenceDouble (init options)

/-- The function `doStep` in double arithmetic: the returned vector and the new
state. -/
def doStepDouble {K : Type} [LinearOrderedField K] [FloorRing K] (p : Position K) :
    Vec3 K × Position K :=
  let intermediate := Vec3.multiplyDouble p.difference p.weights
  let p := updateDifferenceDouble { p with currentPos := p.currentPos.addDouble intermediate }
  (p.currentPos, p)

/-- The function `getError` in double arithmetic, for a given exact square root
function. -/
def getErrorDouble {K : Type} [LinearOrderedField K] [FloorRing K] (sqrt : K → K)
    (p : Position K) : K :=
  let targetLength := p.targetPos.lengthDouble sqrt
  Float64.toDouble (p.difference.lengthDouble sqrt / (if targetLength = 0 then 1 else targetLength))

/-- The state after `n` calls of `doStep` in double arithmetic. -/
def stepsDouble {K : Type} [LinearOrderedField K] [FloorRing K] (n : Nat) (p : Position K) :
    Position K :=
  match n with
  | 0 => p
  | n + 1 => (doStepDouble (stepsDouble n p)).2

/-- The vector has doubles as components. -/
def isDoubleVector {K : Type} [LinearOrderedField K] [FloorRing K] (v : Vec3 K) : Prop :=
  Float64.toDouble v.x = v.x ∧ Float64.toDouble v.y = v.y ∧ Float64.toDouble v.z = v.z

/-- The states of a position in double arithmetic, as `init` and the functions
that adjust the target leave them: `current` and `target` are vectors of
doubles, the weights lie in `(0, 1]`, and `difference` is `target - current`
as `updateDifference` calculates it. -/
structure InDoubles {K : Type} [LinearOrderedField K] [FloorRing K] (p : Position K) : Prop where
  current : isDoubleVector p.currentPos
  target : isDoubleVector p.targetPos
  weights : validWeights p.weights
  difference : p.difference = Vec3.subVectorsDouble p.targetPos p.currentPos

end Position

namespace Position

/-- Options for evaluating examples: at rest at the origin with the target
`(1, 0, 0)` and the weights `(1, 1, 1)`. -/
def unitOptions {K : Type} [LinearOrderedField K] : Options K :=
  ⟨none, some ⟨1, 0, 0⟩, some ⟨1, 1, 1⟩, none, none⟩

/-- Options for evaluating examples: current position `(1, 0, 0)`, target
`(1 + 2^-52, 0, 0)` (the double next to `1`), weights `(1/4, 1/4, 1/4)`. -/
def stallOptions {K : Type} [LinearOrderedField K] : Options K :=
  ⟨some ⟨1, 0, 0⟩, some ⟨1 + 1 / 4503599627370496, 0, 0⟩, some ⟨1 / 4, 1 / 4, 1 / 4⟩,
    none, none⟩

end Position

/-! ## Properties of the marker registry -/

namespace Markers

theorem initMaxMarker_bounds (options : MarkerOptions) :
    1 ≤ initMaxMarker options ∧ initMaxMarker options ≤ 16777216 := by
  unfold initMaxMarker
  simp only
  split_ifs <;> omega

theorem initMaxMarker_of_bounds (C : Nat) (a : Option Int) (h1 : 1 ≤ C) (h2 : C ≤ 16777216) :
    (init ⟨some (C : Int), a⟩).maxMarker = C := by
  have h0 : (C : Int) ≠ 0 := by omega
  simp only [init, initMaxMarker, orDefault, h0, if_false]
  split_ifs <;> omega

theorem WF_init (options : MarkerOptions) (h : usable options) : WF (init options) := by
  have hb := initMaxMarker_bounds options
  unfold usable at h
  refine ⟨?_, ?_, ?_, ?_, ?_⟩
  · simp only [init]; omega
  · intro i hi
    simp only [init] at hi ⊢
    exact ⟨unusedPosition, if_pos (by omega)⟩
  · intro i hi
    simp only [init] at hi ⊢
    have : i ≠ 0 := by omega
    simp [this]
  · simp only [init]; exact_mod_cast h
  · intro i hi
    simp only [init] at hi ⊢
    exact ⟨unusedPosition, if_pos hi⟩

theorem add_eq {σ : Type} (M : MathEnv) {s : Markers} (h : WF s) (c : AddCall)
    (onOverflow : JSVal → σ → σ) (w : σ) :
    add M s c.cc c.latitude c.longitude c.radius c.sourceLabel onOverflow w
      = some (s.nextMarker, addState M s c,
          if slotInUse s s.nextMarker = true then onOverflow (s.countryCode s.nextMarker) w
          else w) := by
  obtain ⟨v, hv⟩ := h.marker_some _ h.next_lt
  obtain ⟨a, ha⟩ := h.anim_some _ h.anim_lt
  simp [add, hv, ha, slotInUse, addState]

theorem cursor_succ {n C : Nat} (h : n < C) :
    (n + 1) % C = if n + 1 = C then 0 else n + 1 := by
  split_ifs with h1
  · rw [h1, Nat.mod_self]
  · exact Nat.mod_eq_of_lt (by omega)

theorem WF_addState (M : MathEnv) {s : Markers} (h : WF s) (c : AddCall) :
    WF (addState M s c) := by
  have hpos : 0 < s.maxAnimation := lt_of_le_of_lt (Int.ofNat_nonneg _) h.anim_lt
  refine ⟨?_, ?_, ?_, ?_, ?_⟩
  · exact Nat.mod_lt _ (lt_of_le_of_lt (Nat.zero_le _) h.next_lt)
  · intro i hi
    by_cases hin : i = s.nextMarker
    · exact ⟨convert M c.latitude c.longitude c.radius, by simp [addState, hin]⟩
    · obtain ⟨v, hv⟩ := h.marker_some i hi
      exact ⟨v, by simp [addState, Function.update_noteq hin, hv]⟩
  · intro i hi
    have hne : i ≠ s.nextMarker := by
      have := h.next_lt
      simp only [addState] at hi
      omega
    simp only [addState] at hi ⊢
    rw [Function.update_noteq hne]
    exact h.cc_undef i hi
  · simp only [addState]
    have h1 := Int.emod_nonneg ((s.nextAnimation : Int) + 1) (ne_of_gt hpos)
    have h2 := Int.emod_lt_of_pos ((s.nextAnimation : Int) + 1) hpos
    rw [Int.toNat_of_nonneg h1]
    exact h2
  · intro i hi
    by_cases hin : i = s.nextAnimation
    · exact ⟨convert M c.latitude c.longitude c.radius, by simp [addState, hin]⟩
    · obtain ⟨v, hv⟩ := h.anim_some i hi
      exact ⟨v, by simp [addState, Function.update_noteq hin, hv]⟩

theorem remove_eq {s : Markers} (h : WF s) {key : Nat} (hk : key < s.maxMarker) :
    remove s key = some (removeState s key) := by
  obtain ⟨v, hv⟩ := h.marker_some key hk
  simp [remove, hv, removeState]

theorem remove_some {s s1 : Markers} {key : Nat} (h : remove s key = some s1) :
    s1 = removeState s key := by
  unfold remove at h
  split at h
  · exact absurd h (by simp)
  · simpa [removeState] using h.symm

theorem WF_removeState {s : Markers} (h : WF s) (key : Nat) : WF (removeState s key) := by
  refine ⟨h.next_lt, ?_, ?_, h.anim_lt, h.anim_some⟩
  · intro i hi
    by_cases hin : i = key
    · exact ⟨unusedPosition, by simp [removeState, hin]⟩
    · obtain ⟨v, hv⟩ := h.marker_some i hi
      exact ⟨v, by simp [removeState, Function.update_noteq hin, hv]⟩
  · intro i hi
    by_cases hin : i = key
    · simp [removeState, hin]
    · simp only [removeState] at hi ⊢
      rw [Function.update_noteq hin]
      exact h.cc_undef i hi

theorem remove_fields (s : Markers) (key : Nat) :
    (removeState s key).nextMarker = s.nextMarker ∧
    (removeState s key).maxMarker = s.maxMarker ∧
    (removeState s key).label = s.label := ⟨rfl, rfl, rfl⟩

theorem resetLoop_eq {s : Markers} (h : WF s) (n : Nat) (hn : n ≤ s.maxMarker) :
    (List.range n).foldlM resetStep s = some (resetState s n) := by
  induction n with
  | zero => simp [resetState]
  | succ n ih =>
    obtain ⟨v, hv⟩ := h.marker_some n (by omega)
    rw [List.range_succ, List.foldlM_append, ih (by omega)]
    have hm : (resetState s n).marker n = some v := by simp [resetState, hv]
    simp only [List.foldlM_cons, List.foldlM_nil, resetStep, hm, Option.some_bind,
      Option.bind_eq_bind, Option.pure_def, Option.some.injEq]
    simp only [resetState, Markers.mk.injEq, and_true, true_and]
    constructor
    · funext i
      by_cases hi : i = n
      · subst hi; simp
      · have : i < n + 1 ↔ i < n := by omega
        simp [Function.update_noteq hi, this]
    · funext i
      by_cases hi : i = n
      · subst hi; simp
      · have : i < n + 1 ↔ i < n := by omega
        simp [Function.update_noteq hi, this]

theorem reset_eq {s : Markers} (h : WF s) : reset s = some (resetState s s.maxMarker) :=
  resetLoop_eq h s.maxMarker (le_refl _)

theorem WF_resetState {s : Markers} (h : WF s) : WF (resetState s s.maxMarker) := by
  refine ⟨h.next_lt, ?_, ?_, h.anim_lt, h.anim_some⟩
  · intro i hi
    simp only [resetState] at hi ⊢
    exact ⟨unusedPosition, by simp [hi]⟩
  · intro i hi
    simp only [resetState] at hi ⊢
    have : ¬ i < s.maxMarker := by omega
    simp only [this, if_false]
    exact h.cc_undef i hi

theorem Reachable.wf {M : MathEnv} {s : Markers} (h : Reachable M s) : WF s := by
  induction h with
  | init options hu => exact WF_init options hu
  | add cc latitude longitude radius sourceLabel onOverflow _ h ih =>
    rw [add_eq M ih ⟨cc, latitude, longitude, radius, sourceLabel⟩] at h
    simp only [Option.some.injEq, Prod.mk.injEq] at h
    rw [← h.2.1]
    exact WF_addState M ih _
  | remove key _ h ih =>
    rw [remove_some h]
    exact WF_removeState ih key
  | reset _ h ih =>
    rw [reset_eq ih] at h
    simp only [Option.some.injEq] at h
    rw [← h]
    exact WF_resetState ih

theorem ReachableByAdd.reachable {M : MathEnv} {s : Markers} (h : ReachableByAdd M s) :
    Reachable M s := by
  induction h with
  | init options hu => exact Reachable.init options hu
  | add c onOverflow _ _ h ih =>
    exact Reachable.add c.cc c.latitude c.longitude c.radius c.sourceLabel onOverflow ih h
  | reset _ h ih => exact Reachable.reset ih h

theorem inUse_convert (M : MathEnv) (c : AddCall) (h : c.finite = true) :
    inUse (convert M c.latitude c.longitude c.radius) = true := by
  obtain ⟨cc, lat, lon, r, lbl⟩ := c
  simp only [AddCall.finite, Bool.and_eq_true] at h
  obtain ⟨⟨h1, h2⟩, h3⟩ := h
  cases lat <;> simp [JSNum.isFinite] at h1
  cases lon <;> simp [JSNum.isFinite] at h2
  cases r <;> simp [JSNum.isFinite] at h3
  simp [inUse, convert, JSNum.mul, JSNum.divBy180, JSNum.neg, MathEnv.jsCos, MathEnv.jsSin,
    INFINITY]

theorem slotInUse_init (options : MarkerOptions) (j : Nat) :
    slotInUse (init options) j = false := by
  simp only [slotInUse, init]
  split_ifs <;> simp [inUse, unusedPosition]

theorem slotInUse_resetState (s : Markers) (j : Nat) (hj : j < s.maxMarker) :
    slotInUse (resetState s s.maxMarker) j = false := by
  simp [slotInUse, resetState, hj, inUse, unusedPosition]

theorem slotInUse_addState (M : MathEnv) (s : Markers) (c : AddCall) (j : Nat) :
    slotInUse (addState M s c) j
      = if j = s.nextMarker then inUse (convert M c.latitude c.longitude c.radius)
        else slotInUse s j := by
  by_cases h : j = s.nextMarker
  · simp [slotInUse, addState, h]
  · simp [slotInUse, addState, Function.update_noteq h, h]

theorem addState_fields (M : MathEnv) (s : Markers) (c : AddCall) :
    (addState M s c).maxMarker = s.maxMarker ∧
    (addState M s c).nextMarker = (s.nextMarker + 1) % s.maxMarker := ⟨rfl, rfl⟩

theorem addState_other (M : MathEnv) (s : Markers) (c : AddCall) {j : Nat}
    (h : j ≠ s.nextMarker) :
    (addState M s c).marker j = s.marker j ∧ (addState M s c).label j = s.label j ∧
    (addState M s c).countryCode j = s.countryCode j := by
  simp [addState, Function.update_noteq h]

theorem addState_slot (M : MathEnv) (s : Markers) (c : AddCall) :
    (addState M s c).marker s.nextMarker = some (convert M c.latitude c.longitude c.radius) ∧
    (addState M s c).label s.nextMarker = c.sourceLabel ∧
    (addState M s c).countryCode s.nextMarker = c.cc := by
  simp [addState]

theorem addAll_spec {σ : Type} (M : MathEnv) (onOverflow : JSVal → σ → σ)
    (calls : List AddCall) :
    ∀ (s : Markers) (w : σ), WF s →
      ∃ ks s1 w1, addAll M s calls onOverflow w = some (ks, s1, w1) ∧ WF s1 ∧
        s1.maxMarker = s.maxMarker ∧
        s1.nextMarker = (s.nextMarker + calls.length) % s.maxMarker ∧
        ks.length = calls.length ∧
        (∀ k, k < calls.length → ks[k]? = some ((s.nextMarker + k) % s.maxMarker)) ∧
        (calls.length ≤ s.maxMarker →
          (∀ j, ¬ ahead s.maxMarker s.nextMarker calls.length j →
            s1.marker j = s.marker j ∧ s1.label j = s.label j ∧
            s1.countryCode j = s.countryCode j) ∧
          ((∀ j, ahead s.maxMarker s.nextMarker calls.length j → slotInUse s j = false) →
            w1 = w)) := by
  induction calls with
  | nil =>
    intro s w h
    refine ⟨[], s, w, rfl, h, rfl, ?_, rfl, ?_, ?_⟩
    · simp [Nat.mod_eq_of_lt h.next_lt]
    · intro k hk; simp at hk
    · intro _; exact ⟨fun j _ => ⟨rfl, rfl, rfl⟩, fun _ => rfl⟩
  | cons c cs ih =>
    intro s w h
    have hn := h.next_lt
    obtain ⟨ks, s1, w1, h1, hwf, hmax, hnext, hlen, hkeys, hrest⟩ :=
      ih (addState M s c)
        (if slotInUse s s.nextMarker = true then onOverflow (s.countryCode s.nextMarker) w
          else w) (WF_addState M h c)
    obtain ⟨hm1, hn1⟩ := addState_fields M s c
    rw [hm1] at hmax hrest hkeys hnext
    rw [hn1] at hnext hrest hkeys
    refine ⟨s.nextMarker :: ks, s1, w1, ?_, hwf, hmax, ?_, ?_, ?_, ?_⟩
    · simp only [addAll, add_eq M h c, h1]
    · rw [hnext, Nat.mod_add_mod]
      congr 1
      simp only [List.length_cons]
      omega
    · simp [hlen]
    · intro k hk
      cases k with
      | zero => simp [Nat.mod_eq_of_lt hn]
      | succ k =>
        simp only [List.length_cons] at hk
        rw [List.getElem?_cons_succ, hkeys k (by omega), Nat.mod_add_mod]
        congr 2
        omega
    · intro hle
      simp only [List.length_cons] at hle ⊢
      obtain ⟨hsame, hfree⟩ := hrest (by omega)
      rw [cursor_succ hn] at hsame hfree
      constructor
      · intro j hj
        have hjn : j ≠ s.nextMarker := by
          intro e; apply hj; unfold ahead; omega
        obtain ⟨a1, a2, a3⟩ := addState_other M s c hjn
        have hj1 : ¬ ahead s.maxMarker (if s.nextMarker + 1 = s.maxMarker then 0
            else s.nextMarker + 1) cs.length j := by
          intro e; apply hj; unfold ahead at e ⊢
          split_ifs at e <;> omega
        obtain ⟨b1, b2, b3⟩ := hsame j hj1
        exact ⟨b1.trans a1, b2.trans a2, b3.trans a3⟩
      · intro hall
        have h0 : slotInUse s s.nextMarker = false :=
          hall _ (by unfold ahead; omega)
        rw [hfree ?_]
        · simp [h0]
        · intro j hj
          have hjn : j ≠ s.nextMarker := by
            intro e; unfold ahead at hj
            split_ifs at hj <;> omega
          rw [slotInUse_addState, if_neg hjn]
          apply hall
          unfold ahead at hj ⊢
          split_ifs at hj <;> omega

theorem addAll_append {σ : Type} (M : MathEnv) (onOverflow : JSVal → σ → σ)
    (l1 l2 : List AddCall) :
    ∀ (s s1 s2 : Markers) (w w1 w2 : σ) (ks1 ks2 : List Nat),
      addAll M s l1 onOverflow w = some (ks1, s1, w1) →
      addAll M s1 l2 onOverflow w1 = some (ks2, s2, w2) →
      addAll M s (l1 ++ l2) onOverflow w = some (ks1 ++ ks2, s2, w2) := by
  induction l1 with
  | nil =>
    intro s s1 s2 w w1 w2 ks1 ks2 h1 h2
    simp only [addAll, Option.some.injEq, Prod.mk.injEq] at h1
    obtain ⟨rfl, rfl, rfl⟩ := h1
    simpa using h2
  | cons c cs ih =>
    intro s s1 s2 w w1 w2 ks1 ks2 h1 h2
    simp only [addAll, List.cons_append] at h1 ⊢
    cases ha : add M s c.cc c.latitude c.longitude c.radius c.sourceLabel onOverflow w with
    | none => simp [ha] at h1
    | some r =>
      obtain ⟨k, sa, wa⟩ := r
      simp only [ha] at h1 ⊢
      cases hb : addAll M sa cs onOverflow wa with
      | none => simp [hb] at h1
      | some r2 =>
        obtain ⟨kb, sb, wb⟩ := r2
        simp only [hb, Option.some.injEq, Prod.mk.injEq] at h1
        obtain ⟨rfl, rfl, rfl⟩ := h1
        simp [ih sa sb s2 wa wb w2 kb ks2 hb h2]

theorem ReachableByAdd.ring {M : MathEnv} {s : Markers} (hs : ReachableByAdd M s) :
    ∃ m, m ≤ s.maxMarker ∧
      ∀ j, j < s.maxMarker → (slotInUse s j = false ↔ ahead s.maxMarker s.nextMarker m j) := by
  induction hs with
  | init options hu =>
    refine ⟨(Markers.init options).maxMarker, le_refl _, fun j hj => ?_⟩
    have h0 : (Markers.init options).nextMarker = 0 := rfl
    rw [h0]
    simp only [slotInUse_init, true_iff]
    unfold ahead; omega
  | @add σ s s1 k w w1 c onOverflow hr hc h ih =>
    have hwf := hr.reachable.wf
    have hn := hwf.next_lt
    rw [add_eq M hwf c] at h
    simp only [Option.some.injEq, Prod.mk.injEq] at h
    obtain ⟨m, hm, hring⟩ := ih
    rw [← h.2.1]
    obtain ⟨hm1, hn1⟩ := addState_fields M s c
    rw [hm1, hn1, cursor_succ hn]
    refine ⟨m - 1, by omega, fun j hj => ?_⟩
    rw [slotInUse_addState, inUse_convert M c hc]
    have hj' := hring j hj
    by_cases hjn : j = s.nextMarker
    · simp only [hjn, if_true, Bool.true_eq_false, false_iff]
      unfold ahead
      split_ifs <;> omega
    · simp only [hjn, if_false]
      rw [hj']
      unfold ahead
      split_ifs <;> omega
  | @reset s s1 hr h ih =>
    have hwf := hr.reachable.wf
    have hn := hwf.next_lt
    rw [reset_eq hwf] at h
    simp only [Option.some.injEq] at h
    rw [← h]
    refine ⟨s.maxMarker, le_refl _, fun j hj => ?_⟩
    have h1 : (resetState s s.maxMarker).maxMarker = s.maxMarker := rfl
    have h2 : (resetState s s.maxMarker).nextMarker = s.nextMarker := rfl
    rw [h1] at hj ⊢
    rw [h2, slotInUse_resetState s j hj]
    simp only [true_iff]
    unfold ahead; omega

/-! ### The ring of identities -/

/-- C2: on a fresh registry of capacity `C = maxMarker` (at least `1`, and every
value from `1` to `2^24` is the capacity of some registry), any sequence of
`add` calls without `remove` returns, and call number `k` (from `0`) returns
the identity `k mod C`, whatever the arguments and the callback. -/
theorem C2_add_returns_index_mod_capacity {σ : Type} (M : MathEnv) (options : MarkerOptions)
    (hu : usable options) (calls : List AddCall) (onOverflow : JSVal → σ → σ) (w : σ) :
    1 ≤ (init options).maxMarker ∧
    (∀ C : Nat, 1 ≤ C → C ≤ 16777216 →
      (init ⟨some (C : Int), options.maxAnimation⟩).maxMarker = C) ∧
    ∃ ks s1 w1, addAll M (init options) calls onOverflow w = some (ks, s1, w1) ∧
      ks.length = calls.length ∧
      ∀ k, k < calls.length → ks[k]? = some (k % (init options).maxMarker) := by
  have hwf := WF_init options hu
  refine ⟨?_, fun C h1 h2 => initMaxMarker_of_bounds C _ h1 h2, ?_⟩
  · have := hwf.next_lt; omega
  · obtain ⟨ks, s1, w1, h1, _, _, _, hlen, hkeys, _⟩ :=
      addAll_spec M onOverflow calls (init options) w hwf
    refine ⟨ks, s1, w1, h1, hlen, fun k hk => ?_⟩
    have h0 : (init options).nextMarker = 0 := rfl
    rw [hkeys k hk, h0, Nat.zero_add]

/-- C2, at capacity `2` with three calls. -/
theorem C2_add_returns_index_mod_capacity_witness :
    usable ⟨some 2, none⟩ ∧
    ∃ ks s1 w1,
      addAll exampleMath (init ⟨some 2, none⟩)
        [exampleCall "A" "L1", exampleCall "B" "L2", exampleCall "C" "L3"] record []
        = some (ks, s1, w1) ∧
      ks.length = 3 ∧ ∀ k, k < 3 → ks[k]? = some (k % (init ⟨some 2, none⟩).maxMarker) :=
  ⟨by decide,
    (C2_add_returns_index_mod_capacity exampleMath ⟨some 2, none⟩ (by decide)
      [exampleCall "A" "L1", exampleCall "B" "L2", exampleCall "C" "L3"] record []).2.2⟩

/-- C3: on a fresh registry of capacity `C`, in a sequence of `C + 1` calls of
`add` whose first call has finite coordinates, the first `C` calls do not
invoke the overflow callback, and call `C + 1` invokes it once, with the
country code of the first call, and returns identity `0`; over the whole
sequence the callback is invoked exactly once. -/
theorem C3_overflow_once_at_wraparound (M : MathEnv) (options : MarkerOptions)
    (hu : usable options) (first last : AddCall) (middle : List AddCall)
    (hlen : middle.length + 1 = (init options).maxMarker) (hfin : first.finite = true) :
    ∃ ks s1 s2,
      addAll M (init options) (first :: middle) record [] = some (ks, s1, []) ∧
      add M s1 last.cc last.latitude last.longitude last.radius last.sourceLabel record []
        = some (0, s2, [first.cc]) ∧
      addAll M (init options) (first :: middle ++ [last]) record []
        = some (ks ++ [0], s2, [first.cc]) := by
  have hwf := WF_init options hu
  have h0 : (init options).nextMarker = 0 := rfl
  have hC := hwf.next_lt
  rw [h0] at hC
  -- the first call
  have hadd := add_eq M hwf first record []
  rw [h0, slotInUse_init] at hadd
  simp only [Bool.false_eq_true, if_false] at hadd
  set sa := addState M (init options) first with hsa
  have hwfa : WF sa := WF_addState M hwf first
  obtain ⟨hma, hna⟩ := addState_fields M (init options) first
  rw [h0, cursor_succ hC] at hna
  -- the calls in the middle
  obtain ⟨ks, s1, w1, h1, hwf1, hmax, hnext, _, _, hrest⟩ :=
    addAll_spec M record middle sa [] hwfa
  rw [hma] at hmax hnext hrest
  rw [hna] at hnext hrest
  obtain ⟨hsame, hfree⟩ := hrest (by omega)
  have hw1 : w1 = [] := by
    apply hfree
    intro j hj
    have hj0 : j ≠ (init options).nextMarker := by
      rw [h0]; unfold ahead at hj; split_ifs at hj <;> omega
    rw [slotInUse_addState, if_neg hj0, slotInUse_init]
  subst hw1
  have hs1n : s1.nextMarker = 0 := by
    rw [hnext]
    by_cases h : 0 + 1 = (init options).maxMarker
    · have hm0 : middle.length = 0 := by omega
      rw [if_pos h, hm0]
      exact Nat.zero_mod _
    · have : (0 + 1 + middle.length) = (init options).maxMarker := by omega
      rw [if_neg h, this, Nat.mod_self]
  obtain ⟨b1, _, b3⟩ := hsame 0 (by unfold ahead; split_ifs <;> omega)
  obtain ⟨a1, _, a3⟩ := addState_slot M (init options) first
  rw [h0] at a1 a3
  have hin : slotInUse s1 0 = true := by
    simp only [slotInUse, b1, a1]
    exact inUse_convert M first hfin
  have hcc : s1.countryCode 0 = first.cc := b3.trans a3
  -- the last call
  have hlast := add_eq M hwf1 last record []
  rw [hs1n, hin, hcc] at hlast
  simp only [if_true, record, List.nil_append] at hlast
  have hprefix : addAll M (init options) (first :: middle) record [] = some (0 :: ks, s1, []) := by
    simp only [addAll, hadd, h1]
  refine ⟨0 :: ks, s1, addState M s1 last, hprefix, hlast, ?_⟩
  have hsingle : addAll M s1 [last] record [] = some ([0], addState M s1 last, [first.cc]) := by
    simp only [addAll, hlast]
  exact addAll_append M record (first :: middle) [last] _ _ _ _ _ _ _ _ hprefix hsingle

/-- C3, at capacity `2`: adds for `A`, `B`, `C`. -/
theorem C3_overflow_once_at_wraparound_witness :
    usable ⟨some 2, none⟩ ∧
    [exampleCall "B" "L2"].length + 1 = (init ⟨some 2, none⟩).maxMarker ∧
    (exampleCall "A" "L1").finite = true ∧
    ∃ ks s1 s2,
      addAll exampleMath (init ⟨some 2, none⟩) [exampleCall "A" "L1", exampleCall "B" "L2"]
        record [] = some (ks, s1, []) ∧
      add exampleMath s1 (exampleCall "C" "L3").cc (exampleCall "C" "L3").latitude
        (exampleCall "C" "L3").longitude (exampleCall "C" "L3").radius
        (exampleCall "C" "L3").sourceLabel record [] = some (0, s2, [.str "A"]) ∧
      addAll exampleMath (init ⟨some 2, none⟩)
        [exampleCall "A" "L1", exampleCall "B" "L2", exampleCall "C" "L3"] record []
        = some (ks ++ [0], s2, [.str "A"]) :=
  ⟨by decide, by decide, by rfl,
    C3_overflow_once_at_wraparound exampleMath ⟨some 2, none⟩ (by decide)
      (exampleCall "A" "L1") (exampleCall "C" "L3") [exampleCall "B" "L2"] (by decide) (by rfl)⟩

/-! ### Eviction -/

/-- C4: in every state of a registry, `add` returns the ring cursor as key and
invokes the callback once, with the country code that the slot at the cursor
held before the call, if that slot is in use, and not at all otherwise (for
any callback, and in particular for the recording one); afterwards the slot
holds the converted position, the label and the country code of the call. -/
theorem C4_add_overflow_iff_cursor_slot_in_use {σ : Type} (M : MathEnv) (s : Markers)
    (hs : Reachable M s) (c : AddCall) (onOverflow : JSVal → σ → σ) (w : σ) :
    ∃ s1,
      add M s c.cc c.latitude c.longitude c.radius c.sourceLabel onOverflow w
        = some (s.nextMarker, s1,
            if slotInUse s s.nextMarker = true then onOverflow (s.countryCode s.nextMarker) w
            else w) ∧
      add M s c.cc c.latitude c.longitude c.radius c.sourceLabel record []
        = some (s.nextMarker, s1,
            if slotInUse s s.nextMarker = true then [s.countryCode s.nextMarker] else []) ∧
      s1.marker s.nextMarker = some (convert M c.latitude c.longitude c.radius) ∧
      s1.label s.nextMarker = c.sourceLabel ∧
      s1.countryCode s.nextMarker = c.cc := by
  have hwf := hs.wf
  obtain ⟨a1, a2, a3⟩ := addState_slot M s c
  refine ⟨addState M s c, add_eq M hwf c onOverflow w, ?_, a1, a2, a3⟩
  rw [add_eq M hwf c record []]
  simp [record]

/-- C4, on the state after one add to a registry of capacity `1`. -/
theorem C4_add_overflow_iff_cursor_slot_in_use_witness :
    Reachable exampleMath (addState exampleMath (init ⟨some 1, none⟩) (exampleCall "A" "L1")) ∧
    ∃ s1,
      add exampleMath (addState exampleMath (init ⟨some 1, none⟩) (exampleCall "A" "L1"))
        (.str "B") (.fin 0) (.fin 0) (.fin 200) (.str "L2") record []
        = some (0, s1, [.str "A"]) ∧
      s1.countryCode 0 = .str "B" :=
  have hr : Reachable exampleMath
      (addState exampleMath (init ⟨some 1, none⟩) (exampleCall "A" "L1")) :=
    have ha := add_eq exampleMath (WF_init ⟨some 1, none⟩ (by decide)) (exampleCall "A" "L1")
      record []
    Reachable.add _ _ _ _ _ record (Reachable.init _ (by decide)) ha
  ⟨hr, by
    obtain ⟨s1, _, h2, _, _, h5⟩ :=
      C4_add_overflow_iff_cursor_slot_in_use exampleMath _ hr (exampleCall "B" "L2") record []
    refine ⟨s1, ?_, h5⟩
    rw [show add exampleMath _ (JSVal.str "B") (JSNum.fin 0) (JSNum.fin 0) (JSNum.fin 200)
      (JSVal.str "L2") record [] = _ from h2]
    have hin : slotInUse (addState exampleMath (init ⟨some 1, none⟩) (exampleCall "A" "L1")) 0
        = true := by
      rw [slotInUse_addState]
      exact inUse_convert exampleMath (exampleCall "A" "L1") rfl
    have hn : (addState exampleMath (init ⟨some 1, none⟩) (exampleCall "A" "L1")).nextMarker
        = 0 := by decide
    rw [hn, hin]
    rfl⟩

theorem convert_infinite_radius :
    convert exampleMath (.fin 45) (.fin (-45)) .posInf = unusedPosition := by
  simp [convert, JSNum.mul, JSNum.divBy180, JSNum.neg, MathEnv.jsCos, MathEnv.jsSin,
    exampleMath, JSNum.infTimes, unusedPosition, INFINITY]
  norm_num

/-- C5, as stated, fails: in a registry of capacity `2`, after adds for `A` and
`B` and `remove(1)`, slot `1` is unused, yet the next `add` invokes the
callback for `A` and overwrites the live marker in slot `0`.  The same
happens without `remove` when the add for `B` had an infinite radius (at
latitude `45`, longitude `-45` the converted position is the unused one). -/
theorem C5_evicts_although_slot_unused :
    (∃ s1 s2 s3 : Markers,
      addAll exampleMath (init ⟨some 2, none⟩) [exampleCall "A" "L1", exampleCall "B" "L2"]
        record [] = some ([0, 1], s1, []) ∧
      remove s1 1 = some s2 ∧
      Reachable exampleMath s2 ∧
      (∃ i, i < s2.maxMarker ∧ slotInUse s2 i = false) ∧
      slotInUse s2 0 = true ∧
      add exampleMath s2 (.str "C") (.fin 0) (.fin 0) (.fin 200) (.str "L3") record []
        = some (0, s3, [.str "A"]) ∧
      s3.countryCode 0 = .str "C" ∧
      ¬ AddEvictsNothing exampleMath s2 (exampleCall "C" "L3")) ∧
    (∃ t1 t2 : Markers,
      addAll exampleMath (init ⟨some 2, none⟩)
        [exampleCall "A" "L1", ⟨.str "B", .fin 45, .fin (-45), .posInf, .str "L2"⟩]
        record [] = some ([0, 1], t1, []) ∧
      Reachable exampleMath t1 ∧
      (∃ i, i < t1.maxMarker ∧ slotInUse t1 i = false) ∧
      slotInUse t1 0 = true ∧
      add exampleMath t1 (.str "C") (.fin 0) (.fin 0) (.fin 200) (.str "L3") record []
        = some (0, t2, [.str "A"]) ∧
      ¬ AddEvictsNothing exampleMath t1 (exampleCall "C" "L3")) := by
  have hwf0 : WF (init ⟨some 2, none⟩) := WF_init _ (by decide)
  have hr0 : Reachable exampleMath (init ⟨some 2, none⟩) := Reachable.init _ (by decide)
  have ha := add_eq exampleMath hwf0 (exampleCall "A" "L1") record []
  have hwfa := WF_addState exampleMath hwf0 (exampleCall "A" "L1")
  have hra := Reachable.add _ _ _ _ _ record hr0 ha
  set sa := addState exampleMath (init ⟨some 2, none⟩) (exampleCall "A" "L1") with hsa
  have hn0 : (init ⟨some 2, none⟩).nextMarker = 0 := rfl
  have hna : sa.nextMarker = 1 := by decide
  have hi0 : slotInUse (init ⟨some 2, none⟩) 0 = false := slotInUse_init _ 0
  have hia : slotInUse sa 1 = false := by
    rw [hsa, slotInUse_addState, slotInUse_init]; decide
  have hina : slotInUse sa 0 = true := by
    rw [hsa, slotInUse_addState]
    exact inUse_convert exampleMath (exampleCall "A" "L1") rfl
  have hcca : sa.countryCode 0 = .str "A" := by
    have := (addState_slot exampleMath (init ⟨some 2, none⟩) (exampleCall "A" "L1")).2.2
    rw [hn0] at this
    exact this
  rw [hn0, hi0] at ha
  simp only [Bool.false_eq_true, if_false] at ha
  constructor
  · have hb := add_eq exampleMath hwfa (exampleCall "B" "L2") record []
    have hwfb := WF_addState exampleMath hwfa (exampleCall "B" "L2")
    have hrb := Reachable.add _ _ _ _ _ record hra hb
    have hrem : remove _ 1 = _ := remove_eq hwfb (by decide)
    have hwf2 := WF_removeState hwfb 1
    have hr2 := Reachable.remove 1 hrb hrem
    have hc := add_eq exampleMath hwf2 (exampleCall "C" "L3") record []
    set sb := addState exampleMath sa (exampleCall "B" "L2") with hsb
    set s2 := removeState sb 1 with hs2
    have hin0 : slotInUse s2 0 = true := by
      have h1 : s2.marker 0 = sa.marker 0 := by
        simp [hs2, hsb, removeState, addState, Function.update]
        decide
      simpa [slotInUse, h1] using hina
    have hfree1 : slotInUse s2 1 = false := by
      simp [slotInUse, hs2, removeState, inUse, unusedPosition]
    have hcc0 : s2.countryCode 0 = .str "A" := by
      have h1 : s2.countryCode 0 = sa.countryCode 0 := by
        simp [hs2, hsb, removeState, addState, Function.update]
        decide
      rw [h1, hcca]
    have hn2 : s2.nextMarker = 0 := by decide
    rw [hn2, hin0, hcc0] at hc
    simp only [if_true, record, List.nil_append] at hc
    rw [hna, hia] at hb
    simp only [Bool.false_eq_true, if_false] at hb
    refine ⟨sb, s2, addState exampleMath s2 (exampleCall "C" "L3"), ?_, hrem, hr2,
      ⟨1, by decide, hfree1⟩, hin0, hc, ?_, ?_⟩
    · simp only [addAll, ha, hb]
    · have := (addState_slot exampleMath s2 (exampleCall "C" "L3")).2.2
      rw [hn2] at this
      exact this
    · rintro ⟨k, s4, h4, _⟩
      rw [show add exampleMath s2 (exampleCall "C" "L3").cc (exampleCall "C" "L3").latitude
        (exampleCall "C" "L3").longitude (exampleCall "C" "L3").radius
        (exampleCall "C" "L3").sourceLabel record [] = _ from hc] at h4
      simp at h4
  · have hb := add_eq exampleMath hwfa ⟨.str "B", .fin 45, .fin (-45), .posInf, .str "L2"⟩
      record []
    have hwfb := WF_addState exampleMath hwfa ⟨.str "B", .fin 45, .fin (-45), .posInf, .str "L2"⟩
    have hrb := Reachable.add _ _ _ _ _ record hra hb
    have hc := add_eq exampleMath hwfb (exampleCall "C" "L3") record []
    set t1 := addState exampleMath sa ⟨.str "B", .fin 45, .fin (-45), .posInf, .str "L2"⟩
      with ht1
    have hin0 : slotInUse t1 0 = true := by
      rw [ht1, slotInUse_addState, hna]
      simpa using hina
    have hfree1 : slotInUse t1 1 = false := by
      rw [ht1, slotInUse_addState, hna]
      simp only [if_true]
      rw [convert_infinite_radius]
      decide
    have hcc0 : t1.countryCode 0 = .str "A" := by
      have h1 := (@addState_other exampleMath sa
        ⟨.str "B", .fin 45, .fin (-45), .posInf, .str "L2"⟩ 0 (by rw [hna]; decide)).2.2
      rw [← hcca]
      exact h1
    have hn1 : t1.nextMarker = 0 := by decide
    rw [hn1, hin0, hcc0] at hc
    simp only [if_true, record, List.nil_append] at hc
    rw [hna, hia] at hb
    simp only [Bool.false_eq_true, if_false] at hb
    refine ⟨t1, addState exampleMath t1 (exampleCall "C" "L3"), ?_, hrb,
      ⟨1, by decide, hfree1⟩, hin0, hc, ?_⟩
    · simp only [addAll, ha, hb]
    · rintro ⟨k, s4, h4, _⟩
      rw [show add exampleMath t1 (exampleCall "C" "L3").cc (exampleCall "C" "L3").latitude
        (exampleCall "C" "L3").longitude (exampleCall "C" "L3").radius
        (exampleCall "C" "L3").sourceLabel record [] = _ from hc] at h4
      simp at h4

/-- C5, amended: in every state that a registry reaches from construction
through calls of `add` with finite coordinates and calls of `reset`, without
`remove`, and in which at least one slot is unused, `add` does not invoke the
callback and leaves every slot in use as it is. -/
theorem C5_no_eviction_before_full_without_remove (M : MathEnv) (s : Markers)
    (hs : ReachableByAdd M s) (hfree : ∃ i, i < s.maxMarker ∧ slotInUse s i = false)
    (c : AddCall) : AddEvictsNothing M s c := by
  have hwf := hs.reachable.wf
  have hn := hwf.next_lt
  obtain ⟨m, hm, hring⟩ := hs.ring
  obtain ⟨i, hi, hfi⟩ := hfree
  have hai := (hring i hi).1 hfi
  have h0 : slotInUse s s.nextMarker = false :=
    (hring _ hn).2 (by unfold ahead at hai ⊢; omega)
  have hadd := add_eq M hwf c record []
  rw [h0] at hadd
  simp only [Bool.false_eq_true, if_false] at hadd
  refine ⟨s.nextMarker, addState M s c, hadd, fun j hj => ?_⟩
  have hjn : j ≠ s.nextMarker := by
    intro e; rw [e, h0] at hj; exact absurd hj (by simp)
  exact addState_other M s c hjn

/-- C5 amended, on the state after one add to a registry of capacity `2`. -/
theorem C5_no_eviction_before_full_without_remove_witness :
    ReachableByAdd exampleMath
      (addState exampleMath (init ⟨some 2, none⟩) (exampleCall "A" "L1")) ∧
    AddEvictsNothing exampleMath
      (addState exampleMath (init ⟨some 2, none⟩) (exampleCall "A" "L1"))
      (exampleCall "B" "L2") :=
  have hr : ReachableByAdd exampleMath
      (addState exampleMath (init ⟨some 2, none⟩) (exampleCall "A" "L1")) :=
    have ha := add_eq exampleMath (WF_init ⟨some 2, none⟩ (by decide)) (exampleCall "A" "L1")
      record []
    ReachableByAdd.add (exampleCall "A" "L1") record (ReachableByAdd.init _ (by decide)) rfl ha
  ⟨hr, C5_no_eviction_before_full_without_remove exampleMath _ hr
    ⟨1, by decide, by
      rw [slotInUse_addState, slotInUse_init]; decide⟩
    (exampleCall "B" "L2")⟩

/-! ### Frame of `remove` and `reset` -/

/-- C6: for a handle `h` below the capacity, `remove(h)` returns, leaves slot
`h` at the unused position with country code `undefined`, leaves position,
label and country code of every other slot, the capacity and the ring cursor
unchanged, and the next `add` returns the same identity with and without the
`remove`. -/
theorem C6_remove_clears_one_slot (M : MathEnv) (s : Markers) (hs : Reachable M s)
    (h : Nat) (hh : h < s.maxMarker) :
    ∃ s1, remove s h = some s1 ∧
      s1.marker h = some unusedPosition ∧ slotInUse s1 h = false ∧
      getCC s1 h = .undefined ∧
      (∀ i, i ≠ h → s1.marker i = s.marker i ∧ getLabel s1 i = getLabel s i ∧
        getCC s1 i = getCC s i) ∧
      s1.maxMarker = s.maxMarker ∧ s1.nextMarker = s.nextMarker ∧
      (∀ (σ : Type) (c : AddCall) (onOverflow : JSVal → σ → σ) (w : σ),
        ∃ k sa sb wa wb,
          add M s c.cc c.latitude c.longitude c.radius c.sourceLabel onOverflow w
            = some (k, sa, wa) ∧
          add M s1 c.cc c.latitude c.longitude c.radius c.sourceLabel onOverflow w
            = some (k, sb, wb)) := by
  have hwf := hs.wf
  have hwf1 := WF_removeState hwf h
  refine ⟨removeState s h, remove_eq hwf hh, ?_, ?_, ?_, ?_, rfl, rfl, ?_⟩
  · simp [removeState]
  · simp [slotInUse, removeState, inUse, unusedPosition]
  · simp [getCC, removeState]
  · intro i hi
    simp [getCC, getLabel, removeState, Function.update_noteq hi]
  · intro σ c onOverflow w
    exact ⟨s.nextMarker, _, _, _, _, add_eq M hwf c onOverflow w,
      add_eq M hwf1 c onOverflow w⟩

/-- C6, removing handle `0` from a fresh registry of capacity `2`. -/
theorem C6_remove_clears_one_slot_witness :
    Reachable exampleMath (init ⟨some 2, none⟩) ∧ 0 < (init ⟨some 2, none⟩).maxMarker ∧
    ∃ s1, remove (init ⟨some 2, none⟩) 0 = some s1 ∧ getCC s1 0 = .undefined ∧
      s1.nextMarker = (init ⟨some 2, none⟩).nextMarker :=
  ⟨Reachable.init _ (by decide), by decide, by
    obtain ⟨s1, h1, _, _, h4, _, _, h7, _⟩ :=
      C6_remove_clears_one_slot exampleMath (init ⟨some 2, none⟩)
        (Reachable.init _ (by decide)) 0 (by decide)
    exact ⟨s1, h1, h4, h7⟩⟩

/-- C7: in every state of a registry `reset()` returns; afterwards every slot
is unused and every country code is `undefined`, the ring cursor and the
capacity are unchanged, the next `add` returns the same identity with and
without the `reset`, and no sequence of at most capacity-many `add` calls
that follows invokes the overflow callback. -/
theorem C7_reset_clears_slots_keeps_cursor (M : MathEnv) (s : Markers)
    (hs : Reachable M s) :
    ∃ s1, reset s = some s1 ∧
      (∀ i, i < s.maxMarker → s1.marker i = some unusedPosition ∧ slotInUse s1 i = false) ∧
      (∀ i, getCC s1 i = .undefined) ∧
      s1.nextMarker = s.nextMarker ∧ s1.maxMarker = s.maxMarker ∧
      (∀ (σ : Type) (c : AddCall) (onOverflow : JSVal → σ → σ) (w : σ),
        ∃ k sa sb wa wb,
          add M s c.cc c.latitude c.longitude c.radius c.sourceLabel onOverflow w
            = some (k, sa, wa) ∧
          add M s1 c.cc c.latitude c.longitude c.radius c.sourceLabel onOverflow w
            = some (k, sb, wb)) ∧
      (∀ calls : List AddCall, calls.length ≤ s.maxMarker →
        ∃ ks s2, addAll M s1 calls record [] = some (ks, s2, [])) := by
  have hwf := hs.wf
  have hwf1 := WF_resetState hwf
  have hn := hwf.next_lt
  refine ⟨resetState s s.maxMarker, reset_eq hwf, ?_, ?_, rfl, rfl, ?_, ?_⟩
  · intro i hi
    exact ⟨by simp [resetState, hi], slotInUse_resetState s i hi⟩
  · intro i
    by_cases hi : i < s.maxMarker
    · simp [getCC, resetState, hi]
    · simp only [getCC, resetState, hi, if_false]
      exact hwf.cc_undef i (by omega)
  · intro σ c onOverflow w
    exact ⟨s.nextMarker, _, _, _, _, add_eq M hwf c onOverflow w,
      add_eq M hwf1 c onOverflow w⟩
  · intro calls hlen
    obtain ⟨ks, s2, w1, h1, _, _, _, _, _, hrest⟩ :=
      addAll_spec M record calls (resetState s s.maxMarker) [] hwf1
    obtain ⟨_, hfree⟩ := hrest hlen
    have hw : w1 = [] := by
      apply hfree
      intro j hj
      exact slotInUse_resetState s j hj.1
    rw [hw] at h1
    exact ⟨ks, s2, h1⟩

/-- C7, resetting a registry of capacity `1` that holds one marker. -/
theorem C7_reset_clears_slots_keeps_cursor_witness :
    Reachable exampleMath (addState exampleMath (init ⟨some 1, none⟩) (exampleCall "A" "L1")) ∧
    ∃ s1, reset (addState exampleMath (init ⟨some 1, none⟩) (exampleCall "A" "L1")) = some s1 ∧
      getCC s1 0 = .undefined ∧
      ∃ ks s2, addAll exampleMath s1 [exampleCall "B" "L2"] record [] = some (ks, s2, []) :=
  have hr : Reachable exampleMath
      (addState exampleMath (init ⟨some 1, none⟩) (exampleCall "A" "L1")) :=
    have ha := add_eq exampleMath (WF_init ⟨some 1, none⟩ (by decide)) (exampleCall "A" "L1")
      record []
    Reachable.add _ _ _ _ _ record (Reachable.init _ (by decide)) ha
  ⟨hr, by
    obtain ⟨s1, h1, _, h3, _, _, _, h7⟩ :=
      C7_reset_clears_slots_keeps_cursor exampleMath _ hr
    exact ⟨s1, h1, h3 0, h7 [exampleCall "B" "L2"] (by decide)⟩⟩

end Markers

/-! ## Properties of the picking decode -/

namespace Countries

set_option maxRecDepth 8192 in
theorem code_length : code.length = 256 := by rfl

set_option maxRecDepth 8192 in
theorem getCC_254 : getCC 254 = .str "NULL" := by rfl

set_option maxRecDepth 8192 in
theorem getCC_255 : getCC 255 = .str "NULL" := by rfl

end Countries

namespace Main

theorem setLabel_marker (view : Markers) (countries : Countries.Counters)
    (modifyMarkerLabel : JSVal → JSVal) (setCountryLabel : JSVal → Int → Int → JSVal)
    (g b : Nat) (x y : Int) :
    setLabel view countries modifyMarkerLabel setCountryLabel ⟨0, g, b, 255⟩ x y
      = MarkerHit view modifyMarkerLabel (g * 256 + b) x y := by
  simp [setLabel, MarkerHit, Nat.shiftLeft_eq]

theorem setLabel_country (view : Markers) (countries : Countries.Counters)
    (modifyMarkerLabel : JSVal → JSVal) (setCountryLabel : JSVal → Int → Int → JSVal)
    (r g b : Nat) (x y : Int) (h1 : 0 < r) (h2 : r < 254) :
    setLabel view countries modifyMarkerLabel setCountryLabel ⟨r, g, b, 255⟩ x y
      = CountryHit countries setCountryLabel r x y := by
  have h0 : r ≠ 0 := by omega
  simp [setLabel, CountryHit, h0, h1, h2]

theorem setLabel_transparent (view : Markers) (countries : Countries.Counters)
    (modifyMarkerLabel : JSVal → JSVal) (setCountryLabel : JSVal → Int → Int → JSVal)
    (c : Color) (x y : Int) (h : c.a ≠ 255) :
    setLabel view countries modifyMarkerLabel setCountryLabel c x y = NoHit := by
  simp [setLabel, NoHit, h]

theorem setLabel_opaque_high_red (view : Markers) (countries : Countries.Counters)
    (modifyMarkerLabel : JSVal → JSVal) (setCountryLabel : JSVal → Int → Int → JSVal)
    (r g b : Nat) (x y : Int) (h : 254 ≤ r) :
    setLabel view countries modifyMarkerLabel setCountryLabel ⟨r, g, b, 255⟩ x y = [] := by
  have h0 : r ≠ 0 := by omega
  have h1 : ¬ r < 254 := by omega
  simp [setLabel, h0, h1]

theorem markerSample_roundtrip (view : Markers) (countries : Countries.Counters)
    (modifyMarkerLabel : JSVal → JSVal) (setCountryLabel : JSVal → Int → Int → JSVal)
    (id : Nat) (x y : Int) (h : id < 65536) :
    setLabel view countries modifyMarkerLabel setCountryLabel (markerSample id) x y
      = MarkerHit view modifyMarkerLabel id x y := by
  have hr : id / 65536 % 256 = 0 := by omega
  have hg : id / 256 % 256 * 256 + id % 256 = id := by omega
  have hs : markerSample id = ⟨0, id / 256 % 256, id % 256, 255⟩ := by
    simp [markerSample, Markers.pickColor, hr]
  rw [hs, setLabel_marker, hg]

/-- C1, at the failing input: a view built with `maxMarker = 70000` has
capacity `70000`, so `65536` is one of its identities; its colour key is
sampled as `(1, 0, 0, 255)`, and `setLabel` decodes that sample as a country
hit for index `1`, not as a marker hit for `65536`. -/
theorem C1_marker_65536_decoded_as_country :
    (Markers.init ⟨some 70000, none⟩).maxMarker = 70000 ∧
    markerSample 65536 = ⟨1, 0, 0, 255⟩ ∧
    ∀ (view : Markers) (countries : Countries.Counters) (modifyMarkerLabel : JSVal → JSVal)
      (setCountryLabel : JSVal → Int → Int → JSVal) (x y : Int),
      setLabel view countries modifyMarkerLabel setCountryLabel (markerSample 65536) x y
        = CountryHit countries setCountryLabel 1 x y ∧
      setLabel view countries modifyMarkerLabel setCountryLabel (markerSample 65536) x y
        ≠ MarkerHit view modifyMarkerLabel 65536 x y := by
  have hs : markerSample 65536 = ⟨1, 0, 0, 255⟩ := by decide
  refine ⟨by decide, hs, fun view countries mm scl x y => ?_⟩
  rw [hs, setLabel_country view countries mm scl 1 0 0 x y (by decide) (by decide)]
  exact ⟨rfl, by simp [CountryHit, MarkerHit]⟩

/-- C8: for a country index `i` with `0 < i < 254`, a sample with red `i`,
alpha `255` and any green and blue is decoded as a country hit for `i`: the
label is built from `getCC(i)`, `getMarkers(i)` and `getAllMarkers()`, the
pick index is set to `i`, the label is shown, and `view.getLabel` is not
called. -/
theorem C8_country_sample_decodes_to_country_hit (view : Markers)
    (countries : Countries.Counters) (modifyMarkerLabel : JSVal → JSVal)
    (setCountryLabel : JSVal → Int → Int → JSVal) (i g b : Nat) (x y : Int)
    (h1 : 0 < i) (h2 : i < 254) :
    setLabel view countries modifyMarkerLabel setCountryLabel ⟨i, g, b, 255⟩ x y
      = [.countriesGetCC i, .countriesGetMarkers i, .countriesGetAllMarkers,
          .rendererSetPickIndex i,
          .tooltipShow (setCountryLabel (Countries.getCC i)
            (Countries.getMarkers countries i) (Countries.getAllMarkers countries)) x y] ∧
    setLabel view countries modifyMarkerLabel setCountryLabel ⟨i, g, b, 255⟩ x y
      = CountryHit countries setCountryLabel i x y ∧
    ∀ key, Effect.viewGetLabel key ∉
      setLabel view countries modifyMarkerLabel setCountryLabel ⟨i, g, b, 255⟩ x y := by
  rw [setLabel_country view countries modifyMarkerLabel setCountryLabel i g b x y h1 h2]
  exact ⟨rfl, rfl, fun key => by simp [CountryHit]⟩

/-- C8, for index `225` (`TL`) on a fresh globe with the default label. -/
theorem C8_country_sample_decodes_to_country_hit_witness :
    0 < 225 ∧ 225 < 254 ∧
    setLabel (Markers.init ⟨none, none⟩) Countries.initCounters defaultModifyMarkerLabel
        defaultSetCountryLabel ⟨225, 7, 9, 255⟩ 10 20
      = CountryHit Countries.initCounters defaultSetCountryLabel 225 10 20 :=
  ⟨by decide, by decide,
    (C8_country_sample_decodes_to_country_hit (Markers.init ⟨none, none⟩)
      Countries.initCounters defaultModifyMarkerLabel defaultSetCountryLabel 225 7 9 10 20
      (by decide) (by decide)).2.1⟩

/-- C9, as stated, fails at red `254`: with alpha `255` the sample
`(254, 0, 0, 255)` makes `setLabel` call nothing, so it is not a country hit
for index `254`; the table holds the padding entry `NULL` there. -/
theorem C9_red_254_is_not_a_country_hit :
    setLabel (Markers.init ⟨none, none⟩) Countries.initCounters defaultModifyMarkerLabel
        defaultSetCountryLabel ⟨254, 0, 0, 255⟩ 0 0 = [] ∧
    setLabel (Markers.init ⟨none, none⟩) Countries.initCounters defaultModifyMarkerLabel
        defaultSetCountryLabel ⟨254, 0, 0, 255⟩ 0 0
      ≠ CountryHit Countries.initCounters defaultSetCountryLabel 254 0 0 ∧
    Countries.getCC 254 = .str "NULL" := by
  rw [setLabel_opaque_high_red _ _ _ _ 254 0 0 0 0 (by decide)]
  exact ⟨rfl, by simp [CountryHit], Countries.getCC_254⟩

/-- C9, amended: the red values `0`, `254` and `255` are not country values, so
`253` country indices are usable: with alpha `255`, every red value `r` with
`1 <= r <= 253` is decoded as a country hit for index `r`, and no red value
from `254` on is; the table has `256` entries, of which `254` and `255` are
the padding `NULL`. -/
theorem C9_country_hit_for_red_1_to_253 (view : Markers) (countries : Countries.Counters)
    (modifyMarkerLabel : JSVal → JSVal) (setCountryLabel : JSVal → Int → Int → JSVal)
    (r g b : Nat) (x y : Int) (h1 : 1 ≤ r) (h2 : r ≤ 253) :
    setLabel view countries modifyMarkerLabel setCountryLabel ⟨r, g, b, 255⟩ x y
      = CountryHit countries setCountryLabel r x y ∧
    (∀ r1 : Nat, 254 ≤ r1 →
      setLabel view countries modifyMarkerLabel setCountryLabel ⟨r1, g, b, 255⟩ x y = []) ∧
    Countries.code.length = 256 ∧
    Countries.getCC 254 = .str "NULL" ∧ Countries.getCC 255 = .str "NULL" := by
  refine ⟨setLabel_country view countries modifyMarkerLabel setCountryLabel r g b x y
    (by omega) (by omega), fun r1 hr1 => ?_, Countries.code_length, Countries.getCC_254,
    Countries.getCC_255⟩
  exact setLabel_opaque_high_red view countries modifyMarkerLabel setCountryLabel r1 g b x y hr1

/-- C9 amended, for red `253` (`ZW`). -/
theorem C9_country_hit_for_red_1_to_253_witness :
    1 ≤ 253 ∧ 253 ≤ 253 ∧
    setLabel (Markers.init ⟨none, none⟩) Countries.initCounters defaultModifyMarkerLabel
        defaultSetCountryLabel ⟨253, 0, 0, 255⟩ 0 0
      = CountryHit Countries.initCounters defaultSetCountryLabel 253 0 0 :=
  ⟨by decide, by decide,
    (C9_country_hit_for_red_1_to_253 (Markers.init ⟨none, none⟩) Countries.initCounters
      defaultModifyMarkerLabel defaultSetCountryLabel 253 0 0 0 0 (by decide) (by decide)).1⟩

/-- C10, at the failing input: for the opaque samples with red `255` (the
clear colour `(255, 255, 255, 255)` of the renderer) and red `254`, which are
neither a marker hit nor a country hit, `setLabel` calls nothing: it neither
hides the tooltip nor clears the highlighted country. -/
theorem C10_opaque_white_sample_is_ignored :
    ∀ (view : Markers) (countries : Countries.Counters) (modifyMarkerLabel : JSVal → JSVal)
      (setCountryLabel : JSVal → Int → Int → JSVal) (x y : Int),
      setLabel view countries modifyMarkerLabel setCountryLabel ⟨255, 255, 255, 255⟩ x y = [] ∧
      setLabel view countries modifyMarkerLabel setCountryLabel ⟨254, 0, 0, 255⟩ x y = [] ∧
      setLabel view countries modifyMarkerLabel setCountryLabel ⟨255, 255, 255, 255⟩ x y
        ≠ NoHit := by
  intro view countries mm scl x y
  rw [setLabel_opaque_high_red view countries mm scl 255 255 255 x y (by decide),
    setLabel_opaque_high_red view countries mm scl 254 0 0 x y (by decide)]
  exact ⟨rfl, rfl, by simp [NoHit]⟩

end Main

/-! ## Properties of the position -/

namespace Position

theorem clampComponent_within {K : Type} [LinearOrderedField K] (min max : Option K) (v : K)
    (h : componentOrdered min max) :
    componentWithin min max (Vec3.clampComponent min max v) := by
  cases min <;> cases max <;>
    simp only [Vec3.clampComponent, componentWithin, componentOrdered] at h ⊢
  · exact ⟨trivial, trivial⟩
  · split_ifs with h1
    · exact ⟨trivial, le_refl _⟩
    · exact ⟨trivial, not_lt.mp h1⟩
  · split_ifs with h1
    · exact ⟨le_refl _, trivial⟩
    · exact ⟨not_lt.mp h1, trivial⟩
  · split_ifs with h1 h2
    · exact ⟨le_refl _, h⟩
    · exact ⟨h, le_refl _⟩
    · exact ⟨not_lt.mp h1, not_lt.mp h2⟩

theorem clampComponent_of_within {K : Type} [LinearOrderedField K] (min max : Option K) (v : K)
    (h : componentWithin min max v) : Vec3.clampComponent min max v = v := by
  cases min <;> cases max <;> simp only [Vec3.clampComponent, componentWithin] at h ⊢
  · rw [if_neg (not_lt.mpr h.2)]
  · rw [if_neg (not_lt.mpr h.1)]
  · rw [if_neg (not_lt.mpr h.1), if_neg (not_lt.mpr h.2)]

theorem clamp_of_within {K : Type} [LinearOrderedField K] (p : Position K) (v : Vec3 K)
    (h : withinLimits p v) : v.clamp p.lowerLimit p.upperLimit = v := by
  obtain ⟨h1, h2, h3⟩ := h
  simp only [Vec3.clamp, clampComponent_of_within _ _ _ h1, clampComponent_of_within _ _ _ h2,
    clampComponent_of_within _ _ _ h3]

theorem clamp_within {K : Type} [LinearOrderedField K] (p : Position K) (v : Vec3 K)
    (h : limitsOrdered p) : withinLimits p (v.clamp p.lowerLimit p.upperLimit) :=
  ⟨clampComponent_within _ _ _ h.1, clampComponent_within _ _ _ h.2.1,
    clampComponent_within _ _ _ h.2.2⟩

theorem checkWeights_valid {K : Type} [LinearOrderedField K] (w : Vec3 K) :
    validWeights (checkWeights w) := by
  unfold checkWeights validWeights
  split_ifs with h1 h2 h3
  · simp [ONES]
  · simp [ONES]
  · simp [ONES]
  · push_neg at h1 h2 h3
    exact ⟨h1, h2, h3⟩

theorem Reachable.difference_eq {K : Type} [LinearOrderedField K] {p : Position K}
    (h : Reachable p) : p.difference = Vec3.subVectors p.targetPos p.currentPos := by
  induction h with
  | init options => rfl
  | adjustTarget delta _ _ => rfl
  | store pos _ ih => exact ih
  | adjustTargetRelative pos damp _ _ => rfl
  | doStep _ _ => rfl

theorem Reachable.weights_valid {K : Type} [LinearOrderedField K] {p : Position K}
    (h : Reachable p) : validWeights p.weights := by
  induction h with
  | init options => exact checkWeights_valid _
  | adjustTarget delta _ ih => exact ih
  | store pos _ ih => exact ih
  | adjustTargetRelative pos damp _ ih => exact ih
  | doStep _ ih => exact ih

theorem Reachable.target_within {K : Type} [LinearOrderedField K] {p : Position K}
    (h : Reachable p) (ho : limitsOrdered p) : withinLimits p p.targetPos := by
  induction h with
  | init options => exact clamp_within _ _ ho
  | adjustTarget delta _ _ => exact clamp_within _ _ ho
  | store pos _ ih => exact ih ho
  | adjustTargetRelative pos damp _ _ => exact clamp_within _ _ ho
  | doStep _ ih => exact ih ho

/-- C12: in every state reached from construction through `adjustTarget`,
`store`, `adjustTargetRelative` and `doStep`, the cached difference is
`target - current`, and `doStep()` sets each component of `current` to
`current + (target - current) * weight`, leaves `target` unchanged, leaves the
cached difference equal to `target - current` for the new `current`, and
returns the new `current`. -/
theorem C12_doStep_advances_by_weighted_difference {K : Type} [LinearOrderedField K]
    (p : Position K) (h : Reachable p) :
    p.difference = Vec3.subVectors p.targetPos p.currentPos ∧
    (doStep p).2.currentPos =
      ⟨p.currentPos.x + (p.targetPos.x - p.currentPos.x) * p.weights.x,
        p.currentPos.y + (p.targetPos.y - p.currentPos.y) * p.weights.y,
        p.currentPos.z + (p.targetPos.z - p.currentPos.z) * p.weights.z⟩ ∧
    (doStep p).2.targetPos = p.targetPos ∧
    (doStep p).2.difference
      = Vec3.subVectors (doStep p).2.targetPos (doStep p).2.currentPos ∧
    (doStep p).1 = (doStep p).2.currentPos := by
  have hd := h.difference_eq
  refine ⟨hd, ?_, rfl, rfl, rfl⟩
  simp only [doStep, updateDifference, hd, Vec3.multiply, Vec3.add, Vec3.subVectors]

/-- C12, on the state after one `adjustTarget` from rest. -/
theorem C12_doStep_advances_by_weighted_difference_witness :
    Reachable (adjustTarget (init (⟨some ⟨2, 0, 0⟩, none, some ⟨1 / 2, 1 / 2, 1 / 2⟩, none,
      none⟩ : Options ℚ)) ⟨4, 0, 0⟩) ∧
    (doStep (adjustTarget (init (⟨some ⟨2, 0, 0⟩, none, some ⟨1 / 2, 1 / 2, 1 / 2⟩, none,
      none⟩ : Options ℚ)) ⟨4, 0, 0⟩)).1 = ⟨3, 0, 0⟩ :=
  ⟨Reachable.adjustTarget _ (Reachable.init _), by
    have h := C12_doStep_advances_by_weighted_difference
      (adjustTarget (init (⟨some ⟨2, 0, 0⟩, none, some ⟨1 / 2, 1 / 2, 1 / 2⟩, none,
        none⟩ : Options ℚ)) ⟨4, 0, 0⟩) (Reachable.adjustTarget _ (Reachable.init _))
    rw [h.2.2.2.2, h.2.1]
    norm_num [adjustTarget, init, updateDifference, clampTarget, Vec3.clamp,
      Vec3.clampComponent, MIN, MAX, ZEROS, Vec3.add, Vec3.multiply, getZoomDamp,
      checkWeights]⟩

theorem adjustTargetRelative_target {K : Type} [LinearOrderedField K] (p : Position K)
    (pos : Vec3 K) (damp : Option K) :
    (adjustTargetRelative p pos damp).targetPos
      = specRelativeTarget p pos (dampOrOne damp) := by
  simp only [adjustTargetRelative, updateDifference, clampTarget, specRelativeTarget,
    getZoomDamp, Vec3.add, Vec3.multiply, Vec3.multiplyScalar, Vec3.subVectors, pow_two]

/-- C14: in every reachable state with `lowerLimit <= upperLimit`, for every
position `pos` and every damp factor (also none, and zero), `store(pos)`
followed by `adjustTargetRelative(pos, damp)` leaves `target` unchanged. -/
theorem C14_store_then_relative_keeps_target {K : Type} [LinearOrderedField K]
    (p : Position K) (h : Reachable p) (ho : limitsOrdered p) (pos : Vec3 K)
    (damp : Option K) :
    (adjustTargetRelative (store p pos) pos damp).targetPos = p.targetPos := by
  have hw := h.target_within ho
  have hv : (⟨p.targetPos.x + (pos.x - pos.x) * dampOrOne damp * 1,
      p.targetPos.y + (pos.y - pos.y) * dampOrOne damp * (p.currentPos.x * p.currentPos.x),
      p.targetPos.z + (pos.z - pos.z) * dampOrOne damp * (p.currentPos.x * p.currentPos.x)⟩
      : Vec3 K) = p.targetPos := by
    simp
  simp only [adjustTargetRelative, store, updateDifference, clampTarget, getZoomDamp,
    Vec3.add, Vec3.multiply, Vec3.multiplyScalar, Vec3.subVectors, hv]
  exact clamp_of_within p p.targetPos hw

/-- C14, for the options of `main.js` after a zoom. -/
theorem C14_store_then_relative_keeps_target_witness :
    Reachable (adjustTarget (init exampleOptions) ⟨-100, 0, 0⟩) ∧
    limitsOrdered (adjustTarget (init exampleOptions) ⟨-100, 0, 0⟩) ∧
    (adjustTargetRelative (store (adjustTarget (init exampleOptions) ⟨-100, 0, 0⟩) ⟨0, 5, 7⟩)
        ⟨0, 5, 7⟩ (some (1 / 2))).targetPos
      = (adjustTarget (init exampleOptions) ⟨-100, 0, 0⟩).targetPos :=
  have ho : limitsOrdered (adjustTarget (init exampleOptions) ⟨-100, 0, 0⟩) := by
    norm_num [limitsOrdered, componentOrdered, adjustTarget, init, exampleOptions,
      updateDifference, clampTarget]
  ⟨Reachable.adjustTarget _ (Reachable.init _), ho,
    C14_store_then_relative_keeps_target _ (Reachable.adjustTarget _ (Reachable.init _)) ho
      ⟨0, 5, 7⟩ (some (1 / 2))⟩

/-- C15, as stated, fails for the damp factor `0`: at rest at the origin,
`adjustTargetRelative((1, 0, 0), 0)` moves the target to `(1, 0, 0)`, as with
damp factor `1`, whereas the formula with `d = 0` gives `(0, 0, 0)`. -/
theorem C15_damp_zero_is_replaced_by_one :
    (adjustTargetRelative examplePosition ⟨1, 0, 0⟩ (some 0)).targetPos = ⟨1, 0, 0⟩ ∧
    specRelativeTarget examplePosition ⟨1, 0, 0⟩ 0 = ⟨0, 0, 0⟩ ∧
    (adjustTargetRelative examplePosition ⟨1, 0, 0⟩ (some 0)).targetPos
      ≠ specRelativeTarget examplePosition ⟨1, 0, 0⟩ 0 := by
  have h1 : (adjustTargetRelative examplePosition ⟨1, 0, 0⟩ (some 0)).targetPos
      = ⟨1, 0, 0⟩ := by
    norm_num [adjustTargetRelative, examplePosition, init, updateDifference, clampTarget,
      Vec3.clamp, Vec3.clampComponent, MIN, MAX, ZEROS, Vec3.add, Vec3.multiply,
      Vec3.multiplyScalar, Vec3.subVectors, getZoomDamp, dampOrOne]
  have h2 : specRelativeTarget examplePosition ⟨1, 0, 0⟩ 0 = ⟨0, 0, 0⟩ := by
    norm_num [specRelativeTarget, examplePosition, init, updateDifference, clampTarget,
      Vec3.clamp, Vec3.clampComponent, MIN, MAX, ZEROS]
  refine ⟨h1, h2, ?_⟩
  rw [h1, h2]
  intro h
  have := congrArg Vec3.x h
  norm_num at this

/-- C15, amended: for every position `pos` and every damp factor `d` other
than `0` (`1` when omitted), `adjustTargetRelative(pos, d)` sets `target` to
`clamp(lastTarget + ((pos - stored) * d) ⊙ (1, r², r²))` with `r` the radial
component of `current`; the damp factor `0` is treated like an omitted one.
`current`, `stored` and `lastTarget` are unchanged. -/
theorem C15_relative_target_formula {K : Type} [LinearOrderedField K] (p : Position K)
    (pos : Vec3 K) (d : K) (hd : d ≠ 0) :
    (adjustTargetRelative p pos (some d)).targetPos = specRelativeTarget p pos d ∧
    (adjustTargetRelative p pos none).targetPos = specRelativeTarget p pos 1 ∧
    (adjustTargetRelative p pos (some 0)).targetPos = specRelativeTarget p pos 1 ∧
    (adjustTargetRelative p pos (some d)).currentPos = p.currentPos ∧
    (adjustTargetRelative p pos (some d)).storedPos = p.storedPos ∧
    (adjustTargetRelative p pos (some d)).lastTarget = p.lastTarget := by
  refine ⟨?_, ?_, ?_, rfl, rfl, rfl⟩
  · rw [adjustTargetRelative_target]; simp [dampOrOne, hd]
  · rw [adjustTargetRelative_target]; simp [dampOrOne]
  · rw [adjustTargetRelative_target]; simp [dampOrOne]

/-- C15 amended, for the drag factor of `main.js` scaled to `1/2`. -/
theorem C15_relative_target_formula_witness :
    (1 / 2 : ℚ) ≠ 0 ∧
    (adjustTargetRelative (init exampleOptions) ⟨0, 5, 7⟩ (some (1 / 2))).targetPos
      = specRelativeTarget (init exampleOptions) ⟨0, 5, 7⟩ (1 / 2) :=
  ⟨by norm_num,
    (C15_relative_target_formula (init exampleOptions) ⟨0, 5, 7⟩ (1 / 2) (by norm_num)).1⟩

/-- C16: `adjustTargetRelative(p1, d1)` followed by `adjustTargetRelative(p2, d2)`
leaves the same state, and so the same `target`, as `adjustTargetRelative(p2,
d2)` alone; `stored` and `lastTarget` are unchanged by both calls. -/
theorem C16_relative_adjustments_do_not_compound {K : Type} [LinearOrderedField K]
    (p : Position K) (p1 p2 : Vec3 K) (d1 d2 : Option K) :
    adjustTargetRelative (adjustTargetRelative p p1 d1) p2 d2 = adjustTargetRelative p p2 d2 ∧
    (adjustTargetRelative (adjustTargetRelative p p1 d1) p2 d2).targetPos
      = (adjustTargetRelative p p2 d2).targetPos ∧
    (adjustTargetRelative p p1 d1).storedPos = p.storedPos ∧
    (adjustTargetRelative p p1 d1).lastTarget = p.lastTarget ∧
    (adjustTargetRelative (adjustTargetRelative p p1 d1) p2 d2).storedPos = p.storedPos ∧
    (adjustTargetRelative (adjustTargetRelative p p1 d1) p2 d2).lastTarget = p.lastTarget :=
  ⟨rfl, rfl, rfl, rfl, rfl, rfl⟩

/-- C17: when `lowerLimit <= upperLimit` in every component, `target` lies in
`[lowerLimit, upperLimit]` in every state reached from construction through
`adjustTarget`, `store`, `adjustTargetRelative` and `doStep`. -/
theorem C17_target_within_limits {K : Type} [LinearOrderedField K] (p : Position K)
    (h : Reachable p) (ho : limitsOrdered p) : withinLimits p p.targetPos :=
  h.target_within ho

/-- C17, for the options of `main.js` after zooming far in. -/
theorem C17_target_within_limits_witness :
    Reachable (adjustTarget (init exampleOptions) ⟨-2000, 0, 0⟩) ∧
    limitsOrdered (adjustTarget (init exampleOptions) ⟨-2000, 0, 0⟩) ∧
    withinLimits (adjustTarget (init exampleOptions) ⟨-2000, 0, 0⟩)
      (adjustTarget (init exampleOptions) ⟨-2000, 0, 0⟩).targetPos :=
  have ho : limitsOrdered (adjustTarget (init exampleOptions) ⟨-2000, 0, 0⟩) := by
    norm_num [limitsOrdered, componentOrdered, adjustTarget, init, exampleOptions,
      updateDifference, clampTarget]
  ⟨Reachable.adjustTarget _ (Reachable.init _), ho,
    C17_target_within_limits _ (Reachable.adjustTarget _ (Reachable.init _)) ho⟩

/-! ### The error, over the real numbers -/

theorem sumSq_nonneg (v : Vec3 ℝ) : 0 ≤ v.x * v.x + v.y * v.y + v.z * v.z := by
  have h1 := mul_self_nonneg v.x
  have h2 := mul_self_nonneg v.y
  have h3 := mul_self_nonneg v.z
  linarith

theorem sumSq_eq_zero_iff (v : Vec3 ℝ) : v.x * v.x + v.y * v.y + v.z * v.z = 0 ↔ v = ZEROS := by
  have h1 := mul_self_nonneg v.x
  have h2 := mul_self_nonneg v.y
  have h3 := mul_self_nonneg v.z
  constructor
  · intro h
    have hx : v.x = 0 := mul_self_eq_zero.mp (by linarith)
    have hy : v.y = 0 := mul_self_eq_zero.mp (by linarith)
    have hz : v.z = 0 := mul_self_eq_zero.mp (by linarith)
    cases v
    simp only [ZEROS, Vec3.mk.injEq]
    exact ⟨hx, hy, hz⟩
  · intro h
    rw [h]
    simp [ZEROS]

theorem length_nonneg (v : Vec3 ℝ) : 0 ≤ v.length Real.sqrt := Real.sqrt_nonneg _

theorem length_eq_zero_iff (v : Vec3 ℝ) : v.length Real.sqrt = 0 ↔ v = ZEROS := by
  unfold Vec3.length
  rw [Real.sqrt_eq_zero (sumSq_nonneg v)]
  exact sumSq_eq_zero_iff v

theorem divisor_pos (v : Vec3 ℝ) :
    0 < (if v.length Real.sqrt = 0 then 1 else v.length Real.sqrt) := by
  split_ifs with h
  · exact one_pos
  · exact lt_of_le_of_ne (length_nonneg v) (Ne.symm h)

theorem doStep_difference {K : Type} [LinearOrderedField K] (p : Position K)
    (hd : p.difference = Vec3.subVectors p.targetPos p.currentPos) :
    (doStep p).2.difference
      = ⟨p.difference.x * (1 - p.weights.x), p.difference.y * (1 - p.weights.y),
          p.difference.z * (1 - p.weights.z)⟩ := by
  simp only [doStep, updateDifference, hd, Vec3.multiply, Vec3.add, Vec3.subVectors,
    Vec3.mk.injEq]
  refine ⟨?_, ?_, ?_⟩ <;> ring

theorem shrink_sq_le (d w : ℝ) (h0 : 0 < w) (h1 : w ≤ 1) :
    d * (1 - w) * (d * (1 - w)) ≤ d * d := by
  have ha : (1 - w) * (1 - w) ≤ 1 := by nlinarith
  have hb := mul_le_mul_of_nonneg_left ha (mul_self_nonneg d)
  have hc : d * (1 - w) * (d * (1 - w)) = d * d * ((1 - w) * (1 - w)) := by ring
  rw [hc]
  linarith

theorem shrink_sq_lt (d w : ℝ) (h0 : 0 < w) (h1 : w ≤ 1) (hd : d ≠ 0) :
    d * (1 - w) * (d * (1 - w)) < d * d := by
  have ha : (1 - w) * (1 - w) < 1 := by nlinarith
  have hpos : 0 < d * d := lt_of_le_of_ne (mul_self_nonneg d)
    (fun h => hd (mul_self_eq_zero.mp h.symm))
  have hb := mul_lt_mul_of_pos_left ha hpos
  have hc : d * (1 - w) * (d * (1 - w)) = d * d * ((1 - w) * (1 - w)) := by ring
  rw [hc]
  linarith

theorem getError_doStep_le (p : Position ℝ) (h : Reachable p) :
    getError Real.sqrt (doStep p).2 ≤ getError Real.sqrt p := by
  obtain ⟨hx, hy, hz⟩ := h.weights_valid
  have hd := doStep_difference p h.difference_eq
  have ht : (doStep p).2.targetPos = p.targetPos := rfl
  unfold getError
  simp only [ht, hd]
  apply div_le_div_of_nonneg_right _ (le_of_lt (divisor_pos p.targetPos))
  unfold Vec3.length
  apply Real.sqrt_le_sqrt
  have a := shrink_sq_le p.difference.x p.weights.x hx.1 hx.2
  have b := shrink_sq_le p.difference.y p.weights.y hy.1 hy.2
  have c := shrink_sq_le p.difference.z p.weights.z hz.1 hz.2
  dsimp only
  linarith

theorem getError_pos_iff (p : Position ℝ) :
    0 < getError Real.sqrt p ↔ p.difference ≠ ZEROS := by
  unfold getError
  simp only
  rw [div_pos_iff_of_pos_right (divisor_pos p.targetPos)]
  rw [Ne, ← length_eq_zero_iff]
  constructor
  · intro h e; rw [e] at h; exact lt_irrefl _ h
  · intro h; exact lt_of_le_of_ne (length_nonneg _) (Ne.symm h)

theorem getError_doStep_lt (p : Position ℝ) (h : Reachable p)
    (hpos : 0 < getError Real.sqrt p) :
    getError Real.sqrt (doStep p).2 < getError Real.sqrt p := by
  obtain ⟨hx, hy, hz⟩ := h.weights_valid
  have hd := doStep_difference p h.difference_eq
  have ht : (doStep p).2.targetPos = p.targetPos := rfl
  have hne := (getError_pos_iff p).mp hpos
  unfold getError
  simp only [ht, hd]
  apply div_lt_div_of_pos_right _ (divisor_pos p.targetPos)
  unfold Vec3.length
  have a := shrink_sq_le p.difference.x p.weights.x hx.1 hx.2
  have b := shrink_sq_le p.difference.y p.weights.y hy.1 hy.2
  have c := shrink_sq_le p.difference.z p.weights.z hz.1 hz.2
  apply Real.sqrt_lt_sqrt
  · have h1 := mul_self_nonneg (p.difference.x * (1 - p.weights.x))
    have h2 := mul_self_nonneg (p.difference.y * (1 - p.weights.y))
    have h3 := mul_self_nonneg (p.difference.z * (1 - p.weights.z))
    dsimp only
    linarith
  · have hsome : p.difference.x ≠ 0 ∨ p.difference.y ≠ 0 ∨ p.difference.z ≠ 0 := by
      by_contra hc
      push_neg at hc
      apply hne
      cases hdv : p.difference
      rw [hdv] at hc
      simp only [ZEROS, Vec3.mk.injEq]
      exact hc
    dsimp only
    rcases hsome with h1 | h1 | h1
    · have a1 := shrink_sq_lt p.difference.x p.weights.x hx.1 hx.2 h1
      linarith
    · have b1 := shrink_sq_lt p.difference.y p.weights.y hy.1 hy.2 h1
      linarith
    · have c1 := shrink_sq_lt p.difference.z p.weights.z hz.1 hz.2 h1
      linarith

theorem Reachable.steps {K : Type} [LinearOrderedField K] {p : Position K}
    (h : Reachable p) (n : Nat) : Reachable (Position.steps n p) := by
  induction n with
  | zero => exact h
  | succ n ih => exact Reachable.doStep ih

theorem steps_fields {K : Type} [LinearOrderedField K] (p : Position K)
    (h : Reachable p) (n : Nat) :
    (steps n p).targetPos = p.targetPos ∧ (steps n p).weights = p.weights ∧
    (steps n p).difference
      = ⟨p.difference.x * (1 - p.weights.x) ^ n, p.difference.y * (1 - p.weights.y) ^ n,
          p.difference.z * (1 - p.weights.z) ^ n⟩ := by
  induction n with
  | zero => simp [steps]
  | succ n ih =>
    obtain ⟨ht, hw, hd⟩ := ih
    have hs := doStep_difference (steps n p) (h.steps n).difference_eq
    refine ⟨ht, hw, ?_⟩
    show (doStep (steps n p)).2.difference = _
    rw [hs, hd, hw]
    simp only [Vec3.mk.injEq]
    refine ⟨?_, ?_, ?_⟩ <;> ring

theorem getError_steps_tendsto (p : Position ℝ) (h : Reachable p) :
    Filter.Tendsto (fun n => getError Real.sqrt (steps n p)) Filter.atTop (nhds 0) := by
  obtain ⟨hx, hy, hz⟩ := h.weights_valid
  have hform : ∀ n, getError Real.sqrt (steps n p)
      = Real.sqrt (p.difference.x * (1 - p.weights.x) ^ n * (p.difference.x * (1 - p.weights.x) ^ n)
          + p.difference.y * (1 - p.weights.y) ^ n * (p.difference.y * (1 - p.weights.y) ^ n)
          + p.difference.z * (1 - p.weights.z) ^ n * (p.difference.z * (1 - p.weights.z) ^ n))
        / (if p.targetPos.length Real.sqrt = 0 then 1 else p.targetPos.length Real.sqrt) := by
    intro n
    obtain ⟨ht, _, hd⟩ := steps_fields p h n
    simp only [getError, ht, hd, Vec3.length]
  have tx : Filter.Tendsto (fun n : ℕ => p.difference.x * (1 - p.weights.x) ^ n)
      Filter.atTop (nhds (p.difference.x * 0)) :=
    (tendsto_pow_atTop_nhds_zero_of_lt_one (by linarith [hx.2]) (by linarith [hx.1])).const_mul _
  have ty : Filter.Tendsto (fun n : ℕ => p.difference.y * (1 - p.weights.y) ^ n)
      Filter.atTop (nhds (p.difference.y * 0)) :=
    (tendsto_pow_atTop_nhds_zero_of_lt_one (by linarith [hy.2]) (by linarith [hy.1])).const_mul _
  have tz : Filter.Tendsto (fun n : ℕ => p.difference.z * (1 - p.weights.z) ^ n)
      Filter.atTop (nhds (p.difference.z * 0)) :=
    (tendsto_pow_atTop_nhds_zero_of_lt_one (by linarith [hz.2]) (by linarith [hz.1])).const_mul _
  have tsum := ((tx.mul tx).add (ty.mul ty)).add (tz.mul tz)
  have tsqrt := (Real.continuous_sqrt.tendsto _).comp tsum
  have tdiv := tsqrt.div_const
    (if p.targetPos.length Real.sqrt = 0 then 1 else p.targetPos.length Real.sqrt)
  simp only [mul_zero, add_zero, Real.sqrt_zero, zero_div] at tdiv
  refine tdiv.congr (fun n => ?_)
  rw [hform n]
  rfl

theorem doStep_ones {K : Type} [LinearOrderedField K] (p : Position K)
    (hd : p.difference = Vec3.subVectors p.targetPos p.currentPos) (hw : p.weights = ONES) :
    (doStep p).2.currentPos = p.targetPos ∧ (doStep p).2.difference = ZEROS := by
  have h1 : (doStep p).2.currentPos = p.targetPos := by
    simp only [doStep, updateDifference, hd, hw, ONES, Vec3.multiply, Vec3.add,
      Vec3.subVectors, mul_one, add_sub_cancel]
  refine ⟨h1, ?_⟩
  have h2 : (doStep p).2.difference
      = Vec3.subVectors (doStep p).2.targetPos (doStep p).2.currentPos := rfl
  have h3 : (doStep p).2.targetPos = p.targetPos := rfl
  rw [h2, h1, h3]
  simp [Vec3.subVectors, ZEROS]

theorem getError_of_difference_zero (p : Position ℝ) (h : p.difference = ZEROS) :
    getError Real.sqrt p = 0 := by
  simp [getError, h, Vec3.length, ZEROS]

theorem checkWeights_of_valid {K : Type} [LinearOrderedField K] (w : Vec3 K)
    (h : validWeights w) : checkWeights w = w := by
  obtain ⟨hx, hy, hz⟩ := h
  unfold checkWeights
  rw [if_neg (by push_neg; exact hx), if_neg (by push_neg; exact hy),
    if_neg (by push_neg; exact hz)]

theorem checkWeights_of_invalid {K : Type} [LinearOrderedField K] (w : Vec3 K)
    (h : w.x ≤ 0 ∨ w.x > 1 ∨ w.y ≤ 0 ∨ w.y > 1 ∨ w.z ≤ 0 ∨ w.z > 1) :
    checkWeights w = ONES := by
  unfold checkWeights
  split_ifs with h1 h2 h3
  · rfl
  · rfl
  · rfl
  · push_neg at h1 h2 h3
    rcases h with h | h | h | h | h | h
    · exact absurd h (not_le.mpr h1.1)
    · exact absurd h (not_lt.mpr h1.2)
    · exact absurd h (not_le.mpr h2.1)
    · exact absurd h (not_lt.mpr h2.2)
    · exact absurd h (not_le.mpr h3.1)
    · exact absurd h (not_lt.mpr h3.2)

/-- C11, as stated, fails for a target of length between `0` and `1`: at rest
at the origin with target `(1/2, 0, 0)` the target has length `1/2` and
`getError()` is `(1/2) / (1/2) = 1`, whereas `|difference| / max(|target|, 1)`
is `1/2`. -/
theorem C11_short_target_divides_by_its_length :
    ∃ p : Position ℝ, p = init ⟨none, some ⟨1 / 2, 0, 0⟩, none, none, none⟩ ∧
      Reachable p ∧
      p.targetPos.length Real.sqrt = 1 / 2 ∧
      getError Real.sqrt p = 1 ∧
      specError Real.sqrt p = 1 / 2 ∧
      getError Real.sqrt p ≠ specError Real.sqrt p := by
  refine ⟨_, rfl, Reachable.init _, ?_⟩
  have ht : (init (⟨none, some ⟨1 / 2, 0, 0⟩, none, none, none⟩ : Options ℝ)).targetPos
      = ⟨1 / 2, 0, 0⟩ := by
    simp [init, updateDifference, clampTarget, Vec3.clamp, Vec3.clampComponent, MIN, MAX]
  have hd : (init (⟨none, some ⟨1 / 2, 0, 0⟩, none, none, none⟩ : Options ℝ)).difference
      = ⟨1 / 2, 0, 0⟩ := by
    simp [init, updateDifference, clampTarget, Vec3.clamp, Vec3.clampComponent, MIN, MAX,
      Vec3.subVectors, ZEROS]
  have hl : Vec3.length Real.sqrt (⟨1 / 2, 0, 0⟩ : Vec3 ℝ) = 1 / 2 := by
    unfold Vec3.length
    rw [show (1 / 2 : ℝ) * (1 / 2) + 0 * 0 + 0 * 0 = 1 / 2 * (1 / 2) by ring]
    exact Real.sqrt_mul_self (by norm_num)
  have h1 : getError Real.sqrt
      (init (⟨none, some ⟨1 / 2, 0, 0⟩, none, none, none⟩ : Options ℝ)) = 1 := by
    simp only [getError, ht, hd, hl]
    norm_num
  have h2 : specError Real.sqrt
      (init (⟨none, some ⟨1 / 2, 0, 0⟩, none, none, none⟩ : Options ℝ)) = 1 / 2 := by
    simp only [specError, ht, hd, hl]
    rw [max_eq_right (by norm_num)]
    norm_num
  refine ⟨by rw [ht, hl], h1, h2, ?_⟩
  rw [h1, h2]
  norm_num

/-- C11, amended: in every reachable state, with `difference = target -
current`, `getError()` returns `|difference|` when `target` is the zero
vector (the divisor is `1`) and `|difference| / |target|` otherwise; this is
`|difference| / max(|target|, 1)` whenever the target is zero or has length at
least `1`. -/
theorem C11_getError_divides_by_target_length (p : Position ℝ) (h : Reachable p) :
    (p.targetPos = ZEROS →
      getError Real.sqrt p = (Vec3.subVectors p.targetPos p.currentPos).length Real.sqrt) ∧
    (p.targetPos ≠ ZEROS →
      getError Real.sqrt p = (Vec3.subVectors p.targetPos p.currentPos).length Real.sqrt
        / p.targetPos.length Real.sqrt) ∧
    (p.targetPos = ZEROS ∨ 1 ≤ p.targetPos.length Real.sqrt →
      getError Real.sqrt p = specError Real.sqrt p) := by
  have hd := h.difference_eq
  refine ⟨fun h0 => ?_, fun h0 => ?_, fun h0 => ?_⟩
  · have hl := (length_eq_zero_iff p.targetPos).mpr h0
    simp only [getError, hl, if_true, div_one, hd]
  · have hl : p.targetPos.length Real.sqrt ≠ 0 := fun e => h0 ((length_eq_zero_iff _).mp e)
    simp only [getError, hl, if_false, hd]
  · rcases h0 with h0 | h0
    · have hl := (length_eq_zero_iff p.targetPos).mpr h0
      simp only [getError, specError, hl, if_true]
      rw [max_eq_right zero_le_one]
    · have hl : p.targetPos.length Real.sqrt ≠ 0 := by linarith
      simp only [getError, specError, hl, if_false]
      rw [max_eq_left h0]

/-- C11 amended, at rest at the origin with target `(2, 0, 0)` and with
target `(0, 0, 0)`. -/
theorem C11_getError_divides_by_target_length_witness :
    Reachable (init (⟨none, some ⟨2, 0, 0⟩, none, none, none⟩ : Options ℝ)) ∧
    (init (⟨none, some ⟨2, 0, 0⟩, none, none, none⟩ : Options ℝ)).targetPos ≠ ZEROS ∧
    getError Real.sqrt (init (⟨none, some ⟨2, 0, 0⟩, none, none, none⟩ : Options ℝ))
      = (Vec3.subVectors (init (⟨none, some ⟨2, 0, 0⟩, none, none, none⟩ : Options ℝ)).targetPos
          (init (⟨none, some ⟨2, 0, 0⟩, none, none, none⟩ : Options ℝ)).currentPos).length
            Real.sqrt
        / (init (⟨none, some ⟨2, 0, 0⟩, none, none, none⟩ : Options ℝ)).targetPos.length
            Real.sqrt ∧
    (init (⟨none, none, none, none, none⟩ : Options ℝ)).targetPos = ZEROS ∧
    getError Real.sqrt (init (⟨none, none, none, none, none⟩ : Options ℝ))
      = (Vec3.subVectors (init (⟨none, none, none, none, none⟩ : Options ℝ)).targetPos
          (init (⟨none, none, none, none, none⟩ : Options ℝ)).currentPos).length Real.sqrt :=
  have hne : (init (⟨none, some ⟨2, 0, 0⟩, none, none, none⟩ : Options ℝ)).targetPos
      ≠ ZEROS := by
    intro h
    have := congrArg Vec3.x h
    norm_num [init, updateDifference, clampTarget, Vec3.clamp, Vec3.clampComponent, MIN, MAX,
      ZEROS] at this
  have h0 : (init (⟨none, none, none, none, none⟩ : Options ℝ)).targetPos = ZEROS := by
    simp [init, updateDifference, clampTarget, Vec3.clamp, Vec3.clampComponent, MIN, MAX]
  ⟨Reachable.init _, hne,
    (C11_getError_divides_by_target_length _ (Reachable.init _)).2.1 hne, h0,
    (C11_getError_divides_by_target_length _ (Reachable.init _)).1 h0⟩

/-- In exact arithmetic (over the real numbers, without the rounding of
doubles): in every reachable state whose target differs from the current
position, the errors after `0, 1, 2, ...` calls of `doStep` never increase,
decrease strictly at every call made while the error is positive, and converge
to `0`. -/
theorem exact_error_decreases_to_zero (p : Position ℝ) (h : Reachable p)
    (hne : p.targetPos ≠ p.currentPos) :
    validWeights p.weights ∧
    (∀ n, getError Real.sqrt (steps (n + 1) p) ≤ getError Real.sqrt (steps n p)) ∧
    (∀ n, 0 < getError Real.sqrt (steps n p) →
      getError Real.sqrt (steps (n + 1) p) < getError Real.sqrt (steps n p)) ∧
    getError Real.sqrt (steps 1 p) < getError Real.sqrt p ∧
    (p.weights.x < 1 ∧ p.weights.y < 1 ∧ p.weights.z < 1 →
      ∀ n, getError Real.sqrt (steps (n + 1) p) < getError Real.sqrt (steps n p)) ∧
    Filter.Tendsto (fun n => getError Real.sqrt (steps n p)) Filter.atTop (nhds 0) := by
  have hd0 : p.difference ≠ ZEROS := by
    intro e
    apply hne
    have hd := h.difference_eq
    rw [e] at hd
    simp only [ZEROS, Vec3.subVectors, Vec3.mk.injEq] at hd
    cases ht : p.targetPos
    cases hc : p.currentPos
    rw [ht, hc] at hd
    simp only [Vec3.mk.injEq]
    obtain ⟨h1, h2, h3⟩ := hd
    exact ⟨by linarith, by linarith, by linarith⟩
  have hstep : ∀ n, 0 < getError Real.sqrt (steps n p) →
      getError Real.sqrt (steps (n + 1) p) < getError Real.sqrt (steps n p) :=
    fun n hn => getError_doStep_lt (steps n p) (h.steps n) hn
  refine ⟨h.weights_valid, fun n => getError_doStep_le (steps n p) (h.steps n), hstep,
    hstep 0 ((getError_pos_iff p).mpr hd0), ?_, getError_steps_tendsto p h⟩
  rintro ⟨wx, wy, wz⟩ n
  apply hstep n
  rw [getError_pos_iff]
  obtain ⟨_, _, hd⟩ := steps_fields p h n
  rw [hd]
  intro e
  simp only [ZEROS, Vec3.mk.injEq] at e
  obtain ⟨e1, e2, e3⟩ := e
  apply hd0
  have px : (1 - p.weights.x) ^ n ≠ 0 := pow_ne_zero n (by linarith)
  have py : (1 - p.weights.y) ^ n ≠ 0 := pow_ne_zero n (by linarith)
  have pz : (1 - p.weights.z) ^ n ≠ 0 := pow_ne_zero n (by linarith)
  cases hv : p.difference
  rw [hv] at e1 e2 e3
  simp only [ZEROS, Vec3.mk.injEq]
  exact ⟨(mul_eq_zero.mp e1).resolve_right px, (mul_eq_zero.mp e2).resolve_right py,
    (mul_eq_zero.mp e3).resolve_right pz⟩

/-- C18: when the weights supplied at construction have a component that is
`<= 0` or `> 1`, all three weights become `1`, and a single `doStep()` then
makes `current` equal to `target` and the error `0`; when all three components
lie in `(0, 1]` the supplied weights are used unchanged. -/
theorem C18_invalid_weights_fall_back_to_ones (options : Options ℝ) (w : Vec3 ℝ)
    (hw : options.weights = some w) :
    (w.x ≤ 0 ∨ w.x > 1 ∨ w.y ≤ 0 ∨ w.y > 1 ∨ w.z ≤ 0 ∨ w.z > 1 →
      (init options).weights = ⟨1, 1, 1⟩ ∧
      (doStep (init options)).2.currentPos = (init options).targetPos ∧
      (doStep (init options)).1 = (init options).targetPos ∧
      getError Real.sqrt (doStep (init options)).2 = 0) ∧
    ((0 < w.x ∧ w.x ≤ 1) ∧ (0 < w.y ∧ w.y ≤ 1) ∧ (0 < w.z ∧ w.z ≤ 1) →
      (init options).weights = w) := by
  have hi : (init options).weights = checkWeights w := by
    simp [init, updateDifference, clampTarget, hw]
  constructor
  · intro hbad
    have h1 : (init options).weights = ONES := by
      rw [hi, checkWeights_of_invalid w hbad]
    obtain ⟨a, b⟩ := doStep_ones (init options) (Reachable.init options).difference_eq h1
    exact ⟨h1, a, a, getError_of_difference_zero _ b⟩
  · intro hgood
    rw [hi, checkWeights_of_valid w hgood]

/-- C18, for the weights `(1/2, 2, 1/2)` and for the weights of `main.js`. -/
theorem C18_invalid_weights_fall_back_to_ones_witness :
    ((1 / 2 : ℝ) ≤ 0 ∨ (1 / 2 : ℝ) > 1 ∨ (2 : ℝ) ≤ 0 ∨ (2 : ℝ) > 1 ∨ (1 / 2 : ℝ) ≤ 0
      ∨ (1 / 2 : ℝ) > 1) ∧
    (init (⟨none, some ⟨1, 0, 0⟩, some ⟨1 / 2, 2, 1 / 2⟩, none, none⟩ : Options ℝ)).weights
      = ⟨1, 1, 1⟩ ∧
    getError Real.sqrt
      (doStep (init (⟨none, some ⟨1, 0, 0⟩, some ⟨1 / 2, 2, 1 / 2⟩, none, none⟩
        : Options ℝ))).2 = 0 ∧
    (init (⟨none, some ⟨1, 0, 0⟩, some ⟨3 / 10, 1 / 10, 1 / 10⟩, none, none⟩
      : Options ℝ)).weights = ⟨3 / 10, 1 / 10, 1 / 10⟩ :=
  have hbad : ((1 / 2 : ℝ) ≤ 0 ∨ (1 / 2 : ℝ) > 1 ∨ (2 : ℝ) ≤ 0 ∨ (2 : ℝ) > 1 ∨ (1 / 2 : ℝ) ≤ 0
      ∨ (1 / 2 : ℝ) > 1) := by norm_num
  have h1 := (C18_invalid_weights_fall_back_to_ones
    ⟨none, some ⟨1, 0, 0⟩, some ⟨1 / 2, 2, 1 / 2⟩, none, none⟩ ⟨1 / 2, 2, 1 / 2⟩ rfl).1 hbad
  ⟨hbad, h1.1, h1.2.2.2,
    (C18_invalid_weights_fall_back_to_ones
      ⟨none, some ⟨1, 0, 0⟩, some ⟨3 / 10, 1 / 10, 1 / 10⟩, none, none⟩
      ⟨3 / 10, 1 / 10, 1 / 10⟩ rfl).2 (by norm_num)⟩

end Position

/-! ## Properties of the country aggregator -/

namespace Countries

theorem foldl_updateCountry_fields (l : List Nat) :
    ∀ c : Counters, (l.foldl updateCountry c).markers = c.markers ∧
      (l.foldl updateCountry c).markerPerCountry = c.markerPerCountry ∧
      (l.foldl updateCountry c).keys = c.keys := by
  induction l with
  | nil => intro c; exact ⟨rfl, rfl, rfl⟩
  | cons i l ih =>
    intro c
    obtain ⟨h1, h2, h3⟩ := ih (updateCountry c i)
    have hu : (updateCountry c i).markers = c.markers ∧
        (updateCountry c i).markerPerCountry = c.markerPerCountry ∧
        (updateCountry c i).keys = c.keys := by
      unfold updateCountry
      split_ifs <;> exact ⟨rfl, rfl, rfl⟩
    simp only [List.foldl_cons]
    exact ⟨h1.trans hu.1, h2.trans hu.2.1, h3.trans hu.2.2⟩

theorem updateCountries_fields (c : Counters) :
    (updateCountries c).markers = c.markers ∧
    (updateCountries c).markerPerCountry = c.markerPerCountry ∧
    (updateCountries c).keys = c.keys :=
  foldl_updateCountry_fields _ c

theorem orZero_of_bounds (v : Int) (h0 : 0 ≤ v) (h1 : v < 2147483648) :
    orZero (some v) = v := by
  simp only [orZero]
  omega

theorem inc_fields (c : Counters) (cc : JSVal) (h : propertyKey cc ≠ "__proto__") :
    (inc c cc).markers = c.markers + 1 ∧
    (inc c cc).markerPerCountry
      = Function.update c.markerPerCountry (propertyKey cc)
          (some (orZero (c.markerPerCountry (propertyKey cc)) + 1)) ∧
    (inc c cc).keys
      = if propertyKey cc ∈ c.keys then c.keys else c.keys ++ [propertyKey cc] := by
  obtain ⟨h1, h2, h3⟩ := updateCountries_fields
    (setProperty { c with markers := c.markers + 1 } (propertyKey cc)
      (orZero (c.markerPerCountry (propertyKey cc)) + 1))
  unfold inc
  simp only
  rw [h1, h2, h3]
  simp [setProperty, h]

theorem inc_proto (c : Counters) (cc : JSVal) (h : propertyKey cc = "__proto__") :
    (inc c cc).markers = c.markers + 1 ∧
    (inc c cc).markerPerCountry = c.markerPerCountry ∧ (inc c cc).keys = c.keys := by
  obtain ⟨h1, h2, h3⟩ := updateCountries_fields
    (setProperty { c with markers := c.markers + 1 } (propertyKey cc)
      (orZero (c.markerPerCountry (propertyKey cc)) + 1))
  unfold inc
  simp only
  rw [h1, h2, h3]
  simp [setProperty, h]

theorem dec_fields_pos (c : Counters) (cc : JSVal) (v : Int)
    (hv : c.markerPerCountry (propertyKey cc) = some v) (hpos : 0 < v)
    (h : propertyKey cc ≠ "__proto__") :
    (dec c cc).markers = c.markers - 1 ∧
    (dec c cc).markerPerCountry
      = Function.update c.markerPerCountry (propertyKey cc) (some (v - 1)) ∧
    (dec c cc).keys
      = if propertyKey cc ∈ c.keys then c.keys else c.keys ++ [propertyKey cc] := by
  obtain ⟨h1, h2, h3⟩ := updateCountries_fields
    (setProperty { c with markers := c.markers - 1 } (propertyKey cc) (v - 1))
  unfold dec
  simp only [hv, gt_iff_lt, hpos, if_true]
  rw [h1, h2, h3]
  simp [setProperty, h]

theorem dec_of_not_pos (c : Counters) (cc : JSVal)
    (h : ∀ v, c.markerPerCountry (propertyKey cc) = some v → v ≤ 0) : dec c cc = c := by
  unfold dec
  cases hv : c.markerPerCountry (propertyKey cc) with
  | none => rfl
  | some v =>
    have := h v hv
    simp only [gt_iff_lt, not_lt.mpr this, if_false]

theorem foldl_setZero (l : List String) (hp : "__proto__" ∉ l) :
    ∀ c : Counters, (∀ key ∈ l, key ∈ c.keys) →
      (l.foldl (fun c key => setProperty c key 0) c).markers = c.markers ∧
      (l.foldl (fun c key => setProperty c key 0) c).keys = c.keys ∧
      (l.foldl (fun c key => setProperty c key 0) c).markerPerCountry
        = fun key => if key ∈ l then some 0 else c.markerPerCountry key := by
  induction l with
  | nil => intro c _; simp
  | cons k l ih =>
    intro c hmem
    have hkp : k ≠ "__proto__" := fun e => hp (by simp [e])
    have hk : k ∈ c.keys := hmem k (by simp)
    have hs : setProperty c k 0
        = { c with markerPerCountry := Function.update c.markerPerCountry k (some 0) } := by
      simp [setProperty, hkp, hk]
    obtain ⟨h1, h2, h3⟩ := ih (fun e => hp (by simp [e])) (setProperty c k 0)
      (fun key hkey => by rw [hs]; exact hmem key (by simp [hkey]))
    simp only [List.foldl_cons]
    refine ⟨h1.trans (by rw [hs]), h2.trans (by rw [hs]), ?_⟩
    rw [h3, hs]
    funext key
    by_cases hkl : key ∈ l
    · simp [hkl]
    · by_cases hkk : key = k
      · subst hkk; simp
      · simp [hkl, hkk, Function.update_noteq hkk]

theorem reset_fields (c : Counters) (hs : Shape c) :
    (reset c).markers = 0 ∧ (reset c).keys = c.keys ∧
    (reset c).markerPerCountry = fun key => if key ∈ c.keys then some 0 else none := by
  obtain ⟨f1, f2, f3⟩ := foldl_setZero c.keys hs.noProto c (fun _ h => h)
  obtain ⟨h1, h2, h3⟩ := updateCountries_fields
    { (c.keys.foldl (fun c key => setProperty c key 0) c) with markers := 0 }
  unfold reset
  simp only
  rw [h1, h2, h3]
  refine ⟨rfl, f2, ?_⟩
  show (c.keys.foldl (fun c key => setProperty c key 0) c).markerPerCountry = _
  rw [f3]
  funext key
  by_cases hk : key ∈ c.keys
  · simp [hk]
  · simp only [hk, if_false]
    cases hv : c.markerPerCountry key with
    | none => rfl
    | some v => exact absurd ((hs.mem_iff key).mpr ⟨v, hv⟩) hk

theorem sum_map_update_not_mem (g : String → Int) (l : List String) (k : String) (a : Int)
    (h : k ∉ l) : (l.map (Function.update g k a)).sum = (l.map g).sum := by
  congr 1
  apply List.map_congr_left
  intro key hkey
  exact Function.update_noteq (fun e => h (by rw [← e]; exact hkey)) _ _

theorem sum_map_update_mem (g : String → Int) (l : List String) (k : String) (a : Int)
    (hn : l.Nodup) (h : k ∈ l) :
    (l.map (Function.update g k a)).sum = (l.map g).sum - g k + a := by
  induction l with
  | nil => simp at h
  | cons x l ih =>
    rw [List.nodup_cons] at hn
    simp only [List.map_cons, List.sum_cons]
    by_cases hx : x = k
    · subst hx
      rw [sum_map_update_not_mem g l x a hn.1, Function.update_same]
      omega
    · have hk : k ∈ l := by
        rcases List.mem_cons.mp h with e | e
        · exact absurd e.symm hx
        · exact e
      rw [ih hn.2 hk, Function.update_noteq hx]
      omega

theorem le_sum_of_mem (g : String → Int) (l : List String) (hnn : ∀ key ∈ l, 0 ≤ g key) :
    0 ≤ (l.map g).sum ∧ ∀ k ∈ l, g k ≤ (l.map g).sum := by
  induction l with
  | nil => simp
  | cons x l ih =>
    obtain ⟨h0, hle⟩ := ih (fun key hkey => hnn key (by simp [hkey]))
    have hx := hnn x (by simp)
    simp only [List.map_cons, List.sum_cons]
    refine ⟨by omega, fun k hk => ?_⟩
    rcases List.mem_cons.mp hk with e | e
    · subst e; omega
    · have := hle k e; omega

theorem getD_update (f : String → Option Int) (k : String) (a : Int) :
    (fun key => (Function.update f k (some a) key).getD 0)
      = Function.update (fun key => (f key).getD 0) k a := by
  funext key
  by_cases h : key = k
  · subst h; simp
  · simp [Function.update_noteq h]

theorem shape_set {c c1 : Counters} (hs : Shape c) (k : String) (a : Int)
    (hk : k ≠ "__proto__")
    (hm : c1.markerPerCountry = Function.update c.markerPerCountry k (some a))
    (hkeys : c1.keys = if k ∈ c.keys then c.keys else c.keys ++ [k]) :
    Shape c1 ∧ counterSum c1 = counterSum c - (c.markerPerCountry k).getD 0 + a := by
  by_cases hin : k ∈ c.keys
  · rw [if_pos hin] at hkeys
    refine ⟨⟨by rw [hkeys]; exact hs.nodup, by rw [hkeys]; exact hs.noProto, ?_⟩, ?_⟩
    · intro key
      rw [hkeys, hm]
      by_cases e : key = k
      · subst e; simp [hin]
      · rw [Function.update_noteq e]; exact hs.mem_iff key
    · unfold counterSum
      rw [hkeys, hm, getD_update, sum_map_update_mem _ _ _ _ hs.nodup hin]
  · rw [if_neg hin] at hkeys
    have hnone : c.markerPerCountry k = none := by
      cases hv : c.markerPerCountry k with
      | none => rfl
      | some v => exact absurd ((hs.mem_iff k).mpr ⟨v, hv⟩) hin
    refine ⟨⟨?_, ?_, ?_⟩, ?_⟩
    · rw [hkeys]
      exact List.Nodup.append hs.nodup (List.nodup_singleton k) (by simp [hin])
    · rw [hkeys]
      simp only [List.mem_append, List.mem_singleton, not_or]
      exact ⟨hs.noProto, fun e => hk e.symm⟩
    · intro key
      rw [hkeys, hm]
      by_cases e : key = k
      · subst e; simp
      · rw [Function.update_noteq e]
        simp only [List.mem_append, List.mem_singleton, e, or_false]
        exact hs.mem_iff key
    · unfold counterSum
      rw [hkeys, hm, getD_update, List.map_append, List.sum_append,
        sum_map_update_not_mem _ _ _ _ hin, hnone]
      simp

theorem counted_bounds {c : Counters} (h : Counted c) :
    0 ≤ c.markers ∧ ∀ key v, c.markerPerCountry key = some v → v ≤ c.markers := by
  have hnn : ∀ key ∈ c.keys, 0 ≤ (fun key => (c.markerPerCountry key).getD 0) key := by
    intro key _
    show 0 ≤ (c.markerPerCountry key).getD 0
    cases hv : c.markerPerCountry key with
    | none => simp
    | some v => simpa using h.nonneg key v hv
  obtain ⟨h0, hle⟩ := le_sum_of_mem _ c.keys hnn
  have hsum := h.sum_eq
  unfold counterSum at hsum
  rw [hsum] at h0 hle
  refine ⟨h0, fun key v hv => ?_⟩
  have := hle key ((h.shape.mem_iff key).mpr ⟨v, hv⟩)
  simpa [hv] using this

theorem counted_inc {c : Counters} (h : Counted c) (cc : JSVal)
    (hk : propertyKey cc ≠ "__proto__") (hb : c.markers < 2147483648) :
    Counted (inc c cc) ∧ (inc c cc).markers = c.markers + 1 := by
  obtain ⟨f1, f2, f3⟩ := inc_fields c cc hk
  obtain ⟨h0, hle⟩ := counted_bounds h
  have hv : orZero (c.markerPerCountry (propertyKey cc))
      = (c.markerPerCountry (propertyKey cc)).getD 0 := by
    cases hv : c.markerPerCountry (propertyKey cc) with
    | none => rfl
    | some v =>
      have a := h.nonneg _ v hv
      have b := hle _ v hv
      simpa using orZero_of_bounds v a (by omega)
  obtain ⟨hs, hsum⟩ := shape_set h.shape (propertyKey cc) _ hk f2 f3
  refine ⟨⟨hs, ?_, ?_⟩, f1⟩
  · intro key v hkv
    rw [f2] at hkv
    by_cases e : key = propertyKey cc
    · subst e
      rw [Function.update_same] at hkv
      have hge : 0 ≤ orZero (c.markerPerCountry (propertyKey cc)) := by
        rw [hv]
        cases hv1 : c.markerPerCountry (propertyKey cc) with
        | none => simp
        | some v1 => simpa using h.nonneg _ v1 hv1
      simp only [Option.some.injEq] at hkv
      omega
    · rw [Function.update_noteq e] at hkv
      exact h.nonneg key v hkv
  · rw [hsum, f1, hv, h.sum_eq]
    omega

theorem counted_dec {c : Counters} (h : Counted c) (cc : JSVal) :
    Counted (dec c cc) ∧ (dec c cc).markers ≤ c.markers := by
  by_cases hp : ∃ v, c.markerPerCountry (propertyKey cc) = some v ∧ 0 < v
  · obtain ⟨v, hv, hpos⟩ := hp
    have hk : propertyKey cc ≠ "__proto__" := by
      intro e
      apply h.shape.noProto
      rw [← e]
      exact (h.shape.mem_iff _).mpr ⟨v, hv⟩
    obtain ⟨f1, f2, f3⟩ := dec_fields_pos c cc v hv hpos hk
    obtain ⟨hs, hsum⟩ := shape_set h.shape (propertyKey cc) _ hk f2 f3
    refine ⟨⟨hs, ?_, ?_⟩, by rw [f1]; omega⟩
    · intro key v1 hkv
      rw [f2] at hkv
      by_cases e : key = propertyKey cc
      · subst e
        rw [Function.update_same] at hkv
        simp only [Option.some.injEq] at hkv
        omega
      · rw [Function.update_noteq e] at hkv
        exact h.nonneg key v1 hkv
    · rw [hsum, f1, hv, h.sum_eq]
      simp only [Option.getD_some]
      omega
  · have hd : dec c cc = c := by
      apply dec_of_not_pos
      intro v hv
      by_contra hc
      exact hp ⟨v, hv, by omega⟩
    rw [hd]
    exact ⟨h, le_refl _⟩

theorem counted_reset {c : Counters} (hs : Shape c) :
    Counted (reset c) ∧ (reset c).markers = 0 ∧
    ∀ key, (reset c).markerPerCountry key = none ∨ (reset c).markerPerCountry key = some 0 := by
  obtain ⟨f1, f2, f3⟩ := reset_fields c hs
  have hval : ∀ key, (reset c).markerPerCountry key = none ∨
      (reset c).markerPerCountry key = some 0 := by
    intro key
    rw [f3]
    by_cases hk : key ∈ c.keys
    · right; simp [hk]
    · left; simp [hk]
  refine ⟨⟨⟨by rw [f2]; exact hs.nodup, by rw [f2]; exact hs.noProto, ?_⟩, ?_, ?_⟩, f1, hval⟩
  · intro key
    rw [f2, f3]
    by_cases hk : key ∈ c.keys
    · simp [hk]
    · simp [hk]
  · intro key v hv
    rcases hval key with e | e
    · rw [e] at hv; exact absurd hv (by simp)
    · rw [e] at hv; simp only [Option.some.injEq] at hv; omega
  · rw [f1]
    unfold counterSum
    apply List.sum_eq_zero
    intro x hx
    obtain ⟨key, _, rfl⟩ := List.mem_map.mp hx
    rcases hval key with e | e <;> simp [e]

theorem shape_empty (interpolator : ℚ → ℚ) (maxSaturation : ℚ) (cpc : Nat → Nat) :
    Shape { markers := 0, markerPerCountry := fun _ => none, keys := [],
            interpolator := interpolator, maxSaturation := maxSaturation, cpc := cpc } :=
  ⟨List.nodup_nil, by simp, by simp⟩

theorem counted_init (M : MathEnv) (options : Options) :
    Counted (init M options) ∧ (init M options).markers = 0 ∧
    ∀ key, (init M options).markerPerCountry key = none ∨
      (init M options).markerPerCountry key = some 0 := by
  unfold init
  exact counted_reset (shape_empty (options.interpolator.getD (defaultInterpolator M))
    (initMaxSaturation options) (fun _ => 0))

theorem counted_run (ops : List Op) :
    ∀ (c : Counters) (n : Nat), Counted c → c.markers ≤ n →
      n + ops.length ≤ 2147483648 → (∀ op ∈ ops, op.plain) →
      Counted (run c ops) ∧ (run c ops).markers ≤ (n + ops.length : Nat) := by
  induction ops with
  | nil =>
    intro c n h hn _ _
    exact ⟨h, by simpa using hn⟩
  | cons op ops ih =>
    intro c n h hn hlen hplain
    simp only [List.length_cons] at hlen
    have hstep : Counted (apply c op) ∧ (apply c op).markers ≤ (n + 1 : Nat) := by
      cases op with
      | inc cc =>
        have hk : propertyKey cc ≠ "__proto__" := hplain (Op.inc cc) (by simp)
        obtain ⟨a, b⟩ := counted_inc h cc hk (by omega)
        exact ⟨a, by simp only [apply]; rw [b]; omega⟩
      | dec cc =>
        obtain ⟨a, b⟩ := counted_dec h cc
        exact ⟨a, by simp only [apply]; omega⟩
      | reset =>
        obtain ⟨a, b, _⟩ := counted_reset h.shape
        exact ⟨a, by simp only [apply]; rw [b]; omega⟩
    obtain ⟨a, b⟩ := ih (apply c op) (n + 1) hstep.1 hstep.2 (by omega)
      (fun o ho => hplain o (by simp [ho]))
    refine ⟨by simpa [run] using a, ?_⟩
    have : (run c (op :: ops)) = run (apply c op) ops := rfl
    rw [this]
    simp only [List.length_cons]
    have e : n + 1 + ops.length = n + (ops.length + 1) := by omega
    rw [← e]
    exact b

theorem shape_apply {c : Counters} (h : Shape c) (op : Op) : Shape (apply c op) := by
  cases op with
  | inc cc =>
    by_cases hk : propertyKey cc = "__proto__"
    · obtain ⟨_, f2, f3⟩ := inc_proto c cc hk
      exact ⟨by simp only [apply]; rw [f3]; exact h.nodup,
        by simp only [apply]; rw [f3]; exact h.noProto,
        fun key => by simp only [apply]; rw [f2, f3]; exact h.mem_iff key⟩
    · obtain ⟨_, f2, f3⟩ := inc_fields c cc hk
      exact (shape_set h (propertyKey cc) _ hk f2 f3).1
  | dec cc =>
    by_cases hp : ∃ v, c.markerPerCountry (propertyKey cc) = some v ∧ 0 < v
    · obtain ⟨v, hv, hpos⟩ := hp
      have hk : propertyKey cc ≠ "__proto__" := by
        intro e
        apply h.noProto
        rw [← e]
        exact (h.mem_iff _).mpr ⟨v, hv⟩
      obtain ⟨_, f2, f3⟩ := dec_fields_pos c cc v hv hpos hk
      exact (shape_set h (propertyKey cc) _ hk f2 f3).1
    · have hd : dec c cc = c := by
        apply dec_of_not_pos
        intro v hv
        by_contra hc
        exact hp ⟨v, hv, by omega⟩
      simp only [apply]
      rw [hd]
      exact h
  | reset => exact (counted_reset h).1.shape

theorem shape_run (ops : List Op) : ∀ c : Counters, Shape c → Shape (run c ops) := by
  induction ops with
  | nil => intro c h; exact h
  | cons op ops ih => intro c h; exact ih (apply c op) (shape_apply h op)

set_option maxRecDepth 8192 in
theorem proto_not_in_code : "__proto__" ∉ code := by decide

theorem getCC_eq (i : Nat) (hi : i < 256) :
    ∃ s, getCC i = .str s ∧ s ≠ "__proto__" ∧ propertyKey (getCC i) = s := by
  have hlen : i < code.length := by rw [code_length]; exact hi
  have hg : code[i]? = some code[i] := List.getElem?_eq_getElem hlen
  have hcc : getCC i = .str code[i] := by
    unfold getCC
    rw [hg]
  refine ⟨code[i], hcc, ?_, ?_⟩
  · intro e
    apply proto_not_in_code
    rw [← e]
    exact List.getElem_mem hlen
  · rw [hcc]
    rfl

theorem inc_inc_dec_of_zeroed (c0 : Counters) (hm : c0.markers = 0)
    (hz : ∀ key, c0.markerPerCountry key = none ∨ c0.markerPerCountry key = some 0)
    (k1 k2 : String) (h1 : k1 ≠ "__proto__") (h2 : k2 ≠ "__proto__") (hne : k1 ≠ k2) :
    (dec (inc (inc c0 (.str k1)) (.str k2)) (.str k1)).markers = 1 ∧
    (dec (inc (inc c0 (.str k1)) (.str k2)) (.str k1)).markerPerCountry k1 = some 0 ∧
    (dec (inc (inc c0 (.str k1)) (.str k2)) (.str k1)).markerPerCountry k2 = some 1 := by
  have hz0 : ∀ key, orZero (c0.markerPerCountry key) = 0 := by
    intro key
    rcases hz key with e | e <;> rw [e] <;> rfl
  obtain ⟨a1, a2, _⟩ := inc_fields c0 (.str k1) h1
  obtain ⟨b1, b2, _⟩ := inc_fields (inc c0 (.str k1)) (.str k2) h2
  simp only [propertyKey] at a2 b2
  rw [hz0] at a2
  have hb : (inc c0 (.str k1)).markerPerCountry k2 = c0.markerPerCountry k2 := by
    rw [a2, Function.update_noteq (Ne.symm hne)]
  rw [hb, hz0] at b2
  have hv : (inc (inc c0 (.str k1)) (.str k2)).markerPerCountry (propertyKey (.str k1))
      = some 1 := by
    simp only [propertyKey]
    rw [b2, Function.update_noteq hne, a2, Function.update_same]
    rfl
  obtain ⟨c1, c2, _⟩ := dec_fields_pos (inc (inc c0 (.str k1)) (.str k2)) (.str k1) 1 hv
    (by norm_num) h1
  simp only [propertyKey] at c2
  refine ⟨?_, ?_, ?_⟩
  · rw [c1, b1, a1, hm]; rfl
  · rw [c2, Function.update_same]; rfl
  · rw [c2, Function.update_noteq (Ne.symm hne), b2, Function.update_same]; rfl

/-- C19: on a fresh aggregator, or one that was just reset, and for two
different country codes `c1`, `c2` of the code table, `inc(c1)`, `inc(c2)`,
`dec(c1)` leave `getAllMarkers() = 1`, the count of `c1` at `0` and the count
of `c2` at `1` (`getMarkers` at their table indices). -/
theorem C19_inc_inc_dec_counts (M : MathEnv) (options : Options) (ops : List Op)
    (c0 : Counters)
    (h0 : c0 = init M options ∨ c0 = reset (run (init M options) ops))
    (i j : Nat) (hi : i < 256) (hj : j < 256) (hne : getCC i ≠ getCC j) :
    getAllMarkers (dec (inc (inc c0 (getCC i)) (getCC j)) (getCC i)) = 1 ∧
    getMarkers (dec (inc (inc c0 (getCC i)) (getCC j)) (getCC i)) i = 0 ∧
    getMarkers (dec (inc (inc c0 (getCC i)) (getCC j)) (getCC i)) j = 1 := by
  have hzero : c0.markers = 0 ∧
      ∀ key, c0.markerPerCountry key = none ∨ c0.markerPerCountry key = some 0 := by
    rcases h0 with e | e
    · rw [e]; exact (counted_init M options).2
    · rw [e]
      exact (counted_reset (shape_run ops _ (counted_init M options).1.shape)).2
  obtain ⟨k1, e1, p1, q1⟩ := getCC_eq i hi
  obtain ⟨k2, e2, p2, q2⟩ := getCC_eq j hj
  have hk : k1 ≠ k2 := by
    intro e
    apply hne
    rw [e1, e2, e]
  obtain ⟨r1, r2, r3⟩ := inc_inc_dec_of_zeroed c0 hzero.1 hzero.2 k1 k2 p1 p2 hk
  simp only [getAllMarkers, getMarkers, q1, q2]
  rw [e1, e2, r1, r2, r3]
  exact ⟨rfl, rfl, rfl⟩

set_option maxRecDepth 8192 in
theorem getCC_237 : getCC 237 = .str "US" := by rfl

set_option maxRecDepth 8192 in
theorem getCC_60 : getCC 60 = .str "DE" := by rfl

/-- C19, for `US` (index `237`) and `DE` (index `60`) on a fresh aggregator. -/
theorem C19_inc_inc_dec_counts_witness :
    237 < 256 ∧ 60 < 256 ∧ getCC 237 ≠ getCC 60 ∧
    getAllMarkers (dec (inc (inc initCounters (getCC 237)) (getCC 60)) (getCC 237)) = 1 ∧
    getMarkers (dec (inc (inc initCounters (getCC 237)) (getCC 60)) (getCC 237)) 237 = 0 ∧
    getMarkers (dec (inc (inc initCounters (getCC 237)) (getCC 60)) (getCC 237)) 60 = 1 :=
  have hne : getCC 237 ≠ getCC 60 := by
    rw [getCC_237, getCC_60]
    decide
  ⟨by decide, by decide, hne,
    C19_inc_inc_dec_counts Markers.exampleMath ⟨none, none⟩ [] initCounters (Or.inl rfl)
      237 60 (by decide) (by decide) hne⟩

theorem run_replicate_succ (c : Counters) (op : Op) (n : Nat) :
    run c (List.replicate (n + 1) op) = apply (run c (List.replicate n op)) op := by
  unfold run
  rw [List.replicate_succ', List.foldl_append]
  rfl

theorem inc_us_repeated (M : MathEnv) (options : Options) (n : Nat) (hn : n ≤ 2147483648) :
    (run (init M options) (List.replicate (n + 1) (Op.inc (.str "US")))).markers = n + 1 ∧
    (run (init M options) (List.replicate (n + 1) (Op.inc (.str "US")))).keys = ["US"] ∧
    (run (init M options) (List.replicate (n + 1) (Op.inc (.str "US")))).markerPerCountry "US"
      = some (if n = 2147483648 then -2147483647 else (n + 1 : Int)) := by
  induction n with
  | zero =>
    obtain ⟨_, hm, hz⟩ := counted_init M options
    have hk0 : (init M options).keys = [] := by
      unfold init
      exact (reset_fields _ (shape_empty _ _ _)).2.1
    obtain ⟨f1, f2, f3⟩ := inc_fields (init M options) (.str "US") (by decide)
    have hz0 : orZero ((init M options).markerPerCountry "US") = 0 := by
      rcases hz "US" with e | e <;> rw [e] <;> rfl
    simp only [propertyKey] at f2 f3
    rw [hz0] at f2
    rw [hk0] at f3
    have hrun : run (init M options) (List.replicate (0 + 1) (Op.inc (.str "US")))
        = inc (init M options) (.str "US") := by
      simp only [run, List.replicate, List.foldl, apply]
    rw [hrun, f1, f2, f3, hm]
    refine ⟨by norm_num, by simp, ?_⟩
    rw [Function.update_same]
    norm_num
  | succ n ih =>
    obtain ⟨g1, g2, g3⟩ := ih (by omega)
    rw [if_neg (by omega)] at g3
    rw [run_replicate_succ]
    obtain ⟨f1, f2, f3⟩ := inc_fields
      (run (init M options) (List.replicate (n + 1) (Op.inc (.str "US")))) (.str "US")
      (by decide)
    simp only [propertyKey] at f2 f3
    rw [g3] at f2
    rw [g2] at f3
    simp only [apply]
    rw [f1, f2, f3, g1]
    refine ⟨by push_cast; ring, by simp, ?_⟩
    rw [Function.update_same]
    by_cases h : n + 1 = 2147483648
    · have h31 : ((n : Int) + 1) = 2147483648 := by omega
      have hwrap : orZero (some 2147483648) + 1 = -2147483647 := by
        simp only [orZero]
        norm_num
      rw [if_pos h, h31, hwrap]
    · rw [if_neg h, orZero_of_bounds _ (by omega) (by omega)]
      push_cast
      rfl

theorem inc_us_count (M : MathEnv) (options : Options) (m : Nat) (h1 : 1 ≤ m)
    (h2 : m ≤ 2147483649) :
    (run (init M options) (List.replicate m (Op.inc (.str "US")))).markers = m ∧
    (run (init M options) (List.replicate m (Op.inc (.str "US")))).keys = ["US"] ∧
    (run (init M options) (List.replicate m (Op.inc (.str "US")))).markerPerCountry "US"
      = some (if m = 2147483649 then -2147483647 else (m : Int)) := by
  obtain ⟨n, rfl⟩ : ∃ n, m = n + 1 := ⟨m - 1, by omega⟩
  obtain ⟨a, b, c⟩ := inc_us_repeated M options n (by omega)
  refine ⟨?_, b, ?_⟩
  · rw [a]; push_cast; rfl
  · rw [c]
    by_cases h : n = 2147483648
    · rw [if_pos h, if_pos (by omega)]
    · rw [if_neg h, if_neg (by omega)]
      push_cast
      rfl

theorem getMarkers_us_wrapped (c : Counters)
    (h : c.markerPerCountry "US" = some 2147483648) : getMarkers c 237 = -2147483648 := by
  unfold getMarkers
  rw [getCC_237]
  simp only [propertyKey]
  rw [h]
  simp only [orZero]
  norm_num

theorem counterSum_single (c : Counters) (key : String) (v : Int) (hk : c.keys = [key])
    (h : c.markerPerCountry key = some v) : counterSum c = v := by
  unfold counterSum
  rw [hk]
  simp [h]

/-- C20, as stated, fails in two ways.  On a fresh aggregator a call
`inc("__proto__")` raises the total to `1` while no counter is stored, so the
counters add up to `0`.  And `2^31` calls `inc("US")` make `getMarkers` report
`-2^31` for `US` (index `237`); one more call stores the counter `-2147483647`
while the total is `2147483649`. -/
theorem C20_total_can_differ_from_counters :
    (getAllMarkers (run (init Markers.exampleMath ⟨none, none⟩)
        [Op.inc (.str "__proto__")]) = 1 ∧
      counterSum (run (init Markers.exampleMath ⟨none, none⟩)
        [Op.inc (.str "__proto__")]) = 0) ∧
    (getCC 237 = .str "US" ∧
      getMarkers (run (init Markers.exampleMath ⟨none, none⟩)
        (List.replicate 2147483648 (Op.inc (.str "US")))) 237 = -2147483648) ∧
    ((run (init Markers.exampleMath ⟨none, none⟩)
        (List.replicate 2147483649 (Op.inc (.str "US")))).markerPerCountry "US"
        = some (-2147483647) ∧
      getAllMarkers (run (init Markers.exampleMath ⟨none, none⟩)
        (List.replicate 2147483649 (Op.inc (.str "US")))) = 2147483649 ∧
      counterSum (run (init Markers.exampleMath ⟨none, none⟩)
        (List.replicate 2147483649 (Op.inc (.str "US")))) = -2147483647) := by
  refine ⟨?_, ?_, ?_⟩
  · obtain ⟨hc, hm, _⟩ := counted_init Markers.exampleMath ⟨none, none⟩
    have hk0 : (init Markers.exampleMath ⟨none, none⟩).keys = [] := by
      unfold init
      exact (reset_fields _ (shape_empty _ _ _)).2.1
    obtain ⟨f1, f2, f3⟩ := inc_proto (init Markers.exampleMath ⟨none, none⟩)
      (.str "__proto__") rfl
    have hrun : run (init Markers.exampleMath ⟨none, none⟩) [Op.inc (.str "__proto__")]
        = inc (init Markers.exampleMath ⟨none, none⟩) (.str "__proto__") := by
      simp only [run, List.foldl, apply]
    rw [hrun]
    refine ⟨by rw [getAllMarkers, f1, hm]; norm_num, ?_⟩
    unfold counterSum
    rw [f3, hk0]
    simp
  · obtain ⟨_, _, h3⟩ := inc_us_count Markers.exampleMath ⟨none, none⟩ 2147483648
      (by norm_num) (by norm_num)
    generalize run (init Markers.exampleMath ⟨none, none⟩)
      (List.replicate 2147483648 (Op.inc (.str "US"))) = c at h3 ⊢
    rw [if_neg (by norm_num)] at h3
    exact ⟨getCC_237, getMarkers_us_wrapped c (by rw [h3]; norm_num)⟩
  · obtain ⟨h1, h2, h3⟩ := inc_us_count Markers.exampleMath ⟨none, none⟩ 2147483649
      (by norm_num) (by norm_num)
    generalize run (init Markers.exampleMath ⟨none, none⟩)
      (List.replicate 2147483649 (Op.inc (.str "US"))) = c at h1 h2 h3 ⊢
    rw [if_pos rfl] at h3
    refine ⟨h3, ?_, counterSum_single c _ _ h2 h3⟩
    rw [getAllMarkers, h1]
    norm_num

/-- C20, amended: after construction and after every sequence of fewer than
`2^31` calls of `inc`, `dec` and `reset` in which `inc` is not called with the
name `__proto__`, the counters stored in `markerPerCountry` add up to the
total `getAllMarkers()`, every counter is at least `0` (as stored and as
`getMarkers` reports it), and the total is at least `0`. -/
theorem C20_counters_add_up_to_total (M : MathEnv) (options : Options) (ops : List Op)
    (hlen : ops.length < 2147483648) (hplain : ∀ op ∈ ops, op.plain) :
    counterSum (run (init M options) ops) = getAllMarkers (run (init M options) ops) ∧
    (∀ key v, (run (init M options) ops).markerPerCountry key = some v → 0 ≤ v) ∧
    (∀ index, 0 ≤ getMarkers (run (init M options) ops) index) ∧
    0 ≤ getAllMarkers (run (init M options) ops) := by
  obtain ⟨hc, hm, _⟩ := counted_init M options
  obtain ⟨h, hb⟩ := counted_run ops (init M options) 0 hc (by rw [hm]; rfl) (by omega) hplain
  obtain ⟨h0, hle⟩ := counted_bounds h
  refine ⟨h.sum_eq, h.nonneg, fun index => ?_, h0⟩
  unfold getMarkers
  cases hv : (run (init M options) ops).markerPerCountry (propertyKey (getCC index)) with
  | none => exact le_refl _
  | some v =>
    have a := h.nonneg _ v hv
    have b := hle _ v hv
    rw [orZero_of_bounds v a (by omega)]
    exact a

/-- C20 amended, for `inc(US)`, `inc(DE)`, `dec(US)`, `dec(US)`, `reset()`,
`inc(XX)` on a fresh aggregator. -/
theorem C20_counters_add_up_to_total_witness :
    [Op.inc (.str "US"), Op.inc (.str "DE"), Op.dec (.str "US"), Op.dec (.str "US"),
      Op.reset, Op.inc (.str "XX")].length < 2147483648 ∧
    (∀ op ∈ [Op.inc (.str "US"), Op.inc (.str "DE"), Op.dec (.str "US"), Op.dec (.str "US"),
      Op.reset, Op.inc (.str "XX")], op.plain) ∧
    counterSum (run initCounters [Op.inc (.str "US"), Op.inc (.str "DE"),
        Op.dec (.str "US"), Op.dec (.str "US"), Op.reset, Op.inc (.str "XX")])
      = getAllMarkers (run initCounters [Op.inc (.str "US"), Op.inc (.str "DE"),
        Op.dec (.str "US"), Op.dec (.str "US"), Op.reset, Op.inc (.str "XX")]) :=
  have hplain : ∀ op ∈ [Op.inc (.str "US"), Op.inc (.str "DE"), Op.dec (.str "US"),
      Op.dec (.str "US"), Op.reset, Op.inc (.str "XX")], op.plain := by
    intro op hop
    simp only [List.mem_cons, List.mem_singleton, List.mem_nil_iff, or_false] at hop
    rcases hop with e | e | e | e | e | e <;> rw [e] <;> simp [Op.plain, propertyKey]
  ⟨by decide, hplain,
    (C20_counters_add_up_to_total Markers.exampleMath ⟨none, none⟩ _ (by decide) hplain).1⟩

theorem updateCountry_params (c : Counters) (i : Nat) :
    (updateCountry c i).markers = c.markers ∧
    (updateCountry c i).markerPerCountry = c.markerPerCountry ∧
    (updateCountry c i).interpolator = c.interpolator ∧
    (updateCountry c i).maxSaturation = c.maxSaturation := by
  unfold updateCountry
  split_ifs <;> exact ⟨rfl, rfl, rfl, rfl⟩

theorem getColor_updateCountry_other (c : Counters) (i j : Nat) (h : j ≠ i) :
    getColor (updateCountry c i) j = getColor c j := by
  have h0 : ∀ k, k < 3 → ∀ l, l < 3 → j * 3 + k ≠ i * 3 + l := by
    intro k hk l hl; omega
  unfold updateCountry getColor setColor bytes
  split_ifs <;>
    simp only [Function.update_noteq (h0 0 (by omega) 0 (by omega)),
      Function.update_noteq (h0 0 (by omega) 1 (by omega)),
      Function.update_noteq (h0 0 (by omega) 2 (by omega)),
      Function.update_noteq (h0 1 (by omega) 0 (by omega)),
      Function.update_noteq (h0 1 (by omega) 1 (by omega)),
      Function.update_noteq (h0 1 (by omega) 2 (by omega)),
      Function.update_noteq (h0 2 (by omega) 0 (by omega)),
      Function.update_noteq (h0 2 (by omega) 1 (by omega)),
      Function.update_noteq (h0 2 (by omega) 2 (by omega))]

theorem rowColor_eq (c : Counters) (i : Nat) :
    rowColor c i =
      if c.markers ≤ 0 then
        (toUint8 c.maxSaturation, toUint8 c.maxSaturation, toUint8 c.maxSaturation)
      else
        (toUint8 c.maxSaturation,
          toUint8 (c.interpolator ((getMarkers c i : ℚ) / (c.markers : ℚ)) * c.maxSaturation),
          toUint8 (c.interpolator ((getMarkers c i : ℚ) / (c.markers : ℚ)) * c.maxSaturation)) := by
  have h01 : i * 3 + 0 ≠ i * 3 + 1 := by omega
  have h02 : i * 3 + 0 ≠ i * 3 + 2 := by omega
  have h12 : i * 3 + 1 ≠ i * 3 + 2 := by omega
  unfold rowColor updateCountry getColor setColor bytes getMarkers
  split_ifs <;>
    simp only [Function.update_same, Function.update_noteq h01, Function.update_noteq h02,
      Function.update_noteq h12]

theorem rowColor_congr (c d : Counters) (i : Nat) (h1 : d.markers = c.markers)
    (h2 : d.markerPerCountry = c.markerPerCountry) (h3 : d.interpolator = c.interpolator)
    (h4 : d.maxSaturation = c.maxSaturation) : rowColor d i = rowColor c i := by
  rw [rowColor_eq, rowColor_eq]
  unfold getMarkers
  rw [h1, h2, h3, h4]

theorem foldl_updateCountry_colors (n : Nat) (c : Counters) :
    ((List.range n).foldl updateCountry c).markers = c.markers ∧
    ((List.range n).foldl updateCountry c).markerPerCountry = c.markerPerCountry ∧
    ((List.range n).foldl updateCountry c).interpolator = c.interpolator ∧
    ((List.range n).foldl updateCountry c).maxSaturation = c.maxSaturation ∧
    ∀ i, i < n → getColor ((List.range n).foldl updateCountry c) i = rowColor c i := by
  induction n with
  | zero => exact ⟨rfl, rfl, rfl, rfl, fun i hi => absurd hi (by omega)⟩
  | succ n ih =>
    obtain ⟨a1, a2, a3, a4, a5⟩ := ih
    obtain ⟨b1, b2, b3, b4⟩ := updateCountry_params ((List.range n).foldl updateCountry c) n
    rw [List.range_succ, List.foldl_append]
    simp only [List.foldl_cons, List.foldl_nil]
    refine ⟨b1.trans a1, b2.trans a2, b3.trans a3, b4.trans a4, fun i hi => ?_⟩
    by_cases e : i = n
    · subst e
      exact rowColor_congr c _ i a1 a2 a3 a4
    · rw [getColor_updateCountry_other _ _ _ e]
      exact a5 i (by omega)

theorem updateCountries_params (c : Counters) :
    (updateCountries c).interpolator = c.interpolator ∧
    (updateCountries c).maxSaturation = c.maxSaturation := by
  obtain ⟨_, _, a3, a4, _⟩ := foldl_updateCountry_colors code.length c
  exact ⟨a3, a4⟩

theorem updateCountries_table (c : Counters) : TableOK (updateCountries c) := by
  obtain ⟨a1, a2, a3, a4, a5⟩ := foldl_updateCountry_colors code.length c
  intro i hi
  have h := a5 i (by rw [code_length]; exact hi)
  unfold updateCountries
  rw [h]
  exact (rowColor_congr c _ i a1 a2 a3 a4).symm

theorem setProperty_params (c : Counters) (key : String) (value : Int) :
    (setProperty c key value).interpolator = c.interpolator ∧
    (setProperty c key value).maxSaturation = c.maxSaturation := by
  unfold setProperty
  split_ifs <;> exact ⟨rfl, rfl⟩

theorem foldl_setProperty_params (l : List String) :
    ∀ c : Counters, (l.foldl (fun c key => setProperty c key 0) c).interpolator = c.interpolator ∧
      (l.foldl (fun c key => setProperty c key 0) c).maxSaturation = c.maxSaturation := by
  induction l with
  | nil => intro c; exact ⟨rfl, rfl⟩
  | cons k l ih =>
    intro c
    obtain ⟨h1, h2⟩ := ih (setProperty c k 0)
    simp only [List.foldl_cons]
    rw [h1, h2]
    exact setProperty_params c k 0

theorem inc_unfold (c : Counters) (cc : JSVal) :
    inc c cc = updateCountries (setProperty { c with markers := c.markers + 1 } (propertyKey cc)
      (orZero (c.markerPerCountry (propertyKey cc)) + 1)) := by
  unfold inc
  simp only

theorem dec_unfold_pos (c : Counters) (cc : JSVal) (v : Int)
    (hv : c.markerPerCountry (propertyKey cc) = some v) (hpos : 0 < v) :
    dec c cc = updateCountries (setProperty { c with markers := c.markers - 1 } (propertyKey cc)
      (v - 1)) := by
  unfold dec
  simp only [hv, gt_iff_lt, hpos, if_true]

theorem reset_unfold (c : Counters) :
    reset c = updateCountries
      { (c.keys.foldl (fun c key => setProperty c key 0) c) with markers := 0 } := by
  unfold reset
  simp only

theorem apply_table (c : Counters) (op : Op) (h : TableOK c) :
    TableOK (apply c op) ∧ (apply c op).interpolator = c.interpolator ∧
    (apply c op).maxSaturation = c.maxSaturation := by
  cases op with
  | inc cc =>
    simp only [apply]
    rw [inc_unfold]
    refine ⟨updateCountries_table _, ?_⟩
    rw [(updateCountries_params _).1, (updateCountries_params _).2]
    exact setProperty_params _ _ _
  | dec cc =>
    simp only [apply]
    by_cases hp : ∃ v, c.markerPerCountry (propertyKey cc) = some v ∧ 0 < v
    · obtain ⟨v, hv, hpos⟩ := hp
      rw [dec_unfold_pos c cc v hv hpos]
      refine ⟨updateCountries_table _, ?_⟩
      rw [(updateCountries_params _).1, (updateCountries_params _).2]
      exact setProperty_params _ _ _
    · have hd : dec c cc = c := by
        apply dec_of_not_pos
        intro v hv
        by_contra hc
        exact hp ⟨v, hv, by omega⟩
      rw [hd]
      exact ⟨h, rfl, rfl⟩
  | reset =>
    simp only [apply]
    rw [reset_unfold]
    refine ⟨updateCountries_table _, ?_⟩
    rw [(updateCountries_params _).1, (updateCountries_params _).2]
    exact foldl_setProperty_params c.keys c

theorem run_table (ops : List Op) :
    ∀ c : Counters, TableOK c → TableOK (run c ops) ∧
      (run c ops).interpolator = c.interpolator ∧
      (run c ops).maxSaturation = c.maxSaturation := by
  induction ops with
  | nil => intro c h; exact ⟨h, rfl, rfl⟩
  | cons op ops ih =>
    intro c h
    obtain ⟨a1, a2, a3⟩ := apply_table c op h
    obtain ⟨b1, b2, b3⟩ := ih (apply c op) a1
    exact ⟨b1, b2.trans a2, b3.trans a3⟩

theorem init_table (M : MathEnv) (options : Options) :
    TableOK (init M options) ∧
    (init M options).interpolator = options.interpolator.getD (defaultInterpolator M) ∧
    (init M options).maxSaturation = initMaxSaturation options := by
  unfold init
  rw [reset_unfold]
  refine ⟨updateCountries_table _, ?_⟩
  rw [(updateCountries_params _).1, (updateCountries_params _).2]
  exact ⟨rfl, rfl⟩

theorem max_getD_update (f : String → Option Int) (k : String) (a : Int) :
    (fun key => max ((Function.update f k (some a) key).getD 0) 0)
      = Function.update (fun key => max ((f key).getD 0) 0) k (max a 0) := by
  funext key
  by_cases h : key = k
  · subst h; simp
  · simp [Function.update_noteq h]

theorem positiveSum_set {c c1 : Counters} (hs : Shape c) (k : String) (a : Int)
    (hm : c1.markerPerCountry = Function.update c.markerPerCountry k (some a))
    (hkeys : c1.keys = if k ∈ c.keys then c.keys else c.keys ++ [k]) :
    positiveSum c1 = positiveSum c - max ((c.markerPerCountry k).getD 0) 0 + max a 0 := by
  by_cases hin : k ∈ c.keys
  · rw [if_pos hin] at hkeys
    unfold positiveSum
    rw [hkeys, hm, max_getD_update, sum_map_update_mem _ _ _ _ hs.nodup hin]
  · rw [if_neg hin] at hkeys
    have hnone : c.markerPerCountry k = none := by
      cases hv : c.markerPerCountry k with
      | none => rfl
      | some v => exact absurd ((hs.mem_iff k).mpr ⟨v, hv⟩) hin
    unfold positiveSum
    rw [hkeys, hm, max_getD_update, List.map_append, List.sum_append,
      sum_map_update_not_mem _ _ _ _ hin, hnone]
    simp

theorem positiveSum_nonneg (c : Counters) : 0 ≤ positiveSum c := by
  unfold positiveSum
  apply List.sum_nonneg
  intro x hx
  obtain ⟨key, _, rfl⟩ := List.mem_map.mp hx
  exact le_max_right _ _

theorem orZero_le (o : Option Int) (h : ∀ v, o = some v → -2147483648 ≤ v) :
    -2147483648 ≤ orZero o ∧ orZero o ≤ max (o.getD 0) 0 := by
  cases o with
  | none => simp [orZero]
  | some v =>
    have := h v rfl
    simp only [orZero, Option.getD_some]
    omega

theorem bounded_apply {c : Counters} (h : Bounded c) (op : Op) : Bounded (apply c op) := by
  have hs := shape_apply h.shape op
  cases op with
  | inc cc =>
    by_cases hk : propertyKey cc = "__proto__"
    · obtain ⟨f1, f2, f3⟩ := inc_proto c cc hk
      refine ⟨hs, ?_, ?_⟩
      · intro key v hv
        simp only [apply] at hv
        rw [f2] at hv
        exact h.lower key v hv
      · have e : positiveSum (apply c (Op.inc cc)) = positiveSum c := by
          unfold positiveSum
          simp only [apply]
          rw [f2, f3]
        rw [e]
        simp only [apply]
        rw [f1]
        have := h.sum_le
        omega
    · obtain ⟨f1, f2, f3⟩ := inc_fields c cc hk
      obtain ⟨o1, o2⟩ := orZero_le (c.markerPerCountry (propertyKey cc)) (h.lower _)
      refine ⟨hs, ?_, ?_⟩
      · intro key v hv
        simp only [apply] at hv
        rw [f2] at hv
        by_cases e : key = propertyKey cc
        · subst e
          rw [Function.update_same] at hv
          simp only [Option.some.injEq] at hv
          omega
        · rw [Function.update_noteq e] at hv
          exact h.lower key v hv
      · have e := positiveSum_set h.shape (propertyKey cc) _ f2 f3
        simp only [apply]
        rw [e, f1]
        have := h.sum_le
        omega
  | dec cc =>
    by_cases hp : ∃ v, c.markerPerCountry (propertyKey cc) = some v ∧ 0 < v
    · obtain ⟨v, hv, hpos⟩ := hp
      have hk : propertyKey cc ≠ "__proto__" := by
        intro e
        apply h.shape.noProto
        rw [← e]
        exact (h.shape.mem_iff _).mpr ⟨v, hv⟩
      obtain ⟨f1, f2, f3⟩ := dec_fields_pos c cc v hv hpos hk
      refine ⟨hs, ?_, ?_⟩
      · intro key v1 hv1
        simp only [apply] at hv1
        rw [f2] at hv1
        by_cases e : key = propertyKey cc
        · subst e
          rw [Function.update_same] at hv1
          simp only [Option.some.injEq] at hv1
          omega
        · rw [Function.update_noteq e] at hv1
          exact h.lower key v1 hv1
      · have e := positiveSum_set h.shape (propertyKey cc) _ f2 f3
        simp only [apply]
        rw [e, f1, hv]
        have := h.sum_le
        simp only [Option.getD_some]
        omega
    · have hd : dec c cc = c := by
        apply dec_of_not_pos
        intro v hv
        by_contra hc
        exact hp ⟨v, hv, by omega⟩
      simp only [apply]
      rw [hd]
      exact h
  | reset =>
    obtain ⟨f1, f2, f3⟩ := reset_fields c h.shape
    refine ⟨hs, ?_, ?_⟩
    · intro key v hv
      simp only [apply] at hv
      rw [f3] at hv
      by_cases hk : key ∈ c.keys
      · simp only [hk, if_true, Option.some.injEq] at hv
        omega
      · simp [hk] at hv
    · simp only [apply]
      rw [f1]
      unfold positiveSum
      apply le_of_eq
      apply List.sum_eq_zero
      intro x hx
      obtain ⟨key, _, rfl⟩ := List.mem_map.mp hx
      rw [f3]
      by_cases hk : key ∈ c.keys <;> simp [hk]

theorem bounded_run (ops : List Op) : ∀ c : Counters, Bounded c → Bounded (run c ops) := by
  induction ops with
  | nil => intro c h; exact h
  | cons op ops ih => intro c h; exact ih (apply c op) (bounded_apply h op)

theorem bounded_init (M : MathEnv) (options : Options) : Bounded (init M options) := by
  obtain ⟨hc, hm, hz⟩ := counted_init M options
  refine ⟨hc.shape, ?_, ?_⟩
  · intro key v hv
    have := hc.nonneg key v hv
    omega
  · rw [hm]
    unfold positiveSum
    apply le_of_eq
    apply List.sum_eq_zero
    intro x hx
    obtain ⟨key, _, rfl⟩ := List.mem_map.mp hx
    rcases hz key with e | e <;> simp [e]

theorem markers_nonneg (M : MathEnv) (options : Options) (ops : List Op) :
    0 ≤ (run (init M options) ops).markers := by
  have h := bounded_run ops _ (bounded_init M options)
  have := positiveSum_nonneg (run (init M options) ops)
  have := h.sum_le
  omega

theorem run_params (M : MathEnv) (options : Options) (ops : List Op) :
    TableOK (run (init M options) ops) ∧
    (run (init M options) ops).interpolator
      = options.interpolator.getD (defaultInterpolator M) ∧
    (run (init M options) ops).maxSaturation = initMaxSaturation options := by
  obtain ⟨a1, a2, a3⟩ := init_table M options
  obtain ⟨b1, b2, b3⟩ := run_table ops (init M options) a1
  exact ⟨b1, b2.trans a2, b3.trans a3⟩

theorem toUint8_zero : toUint8 0 = 0 := by
  decide

/-- C21: `dec(cc)` on a country whose counter is zero or was never
incremented leaves the whole state as it is (counters, total and colour
table); on a country whose counter is positive it lowers that counter and the
total by exactly one and leaves every other counter as it is. -/
theorem C21_dec_is_guarded (M : MathEnv) (options : Options) (ops : List Op) (cc : JSVal) :
    ((∀ v, (run (init M options) ops).markerPerCountry (propertyKey cc) = some v → v ≤ 0) →
      dec (run (init M options) ops) cc = run (init M options) ops) ∧
    (∀ v, (run (init M options) ops).markerPerCountry (propertyKey cc) = some v → 0 < v →
      getAllMarkers (dec (run (init M options) ops) cc)
        = getAllMarkers (run (init M options) ops) - 1 ∧
      (dec (run (init M options) ops) cc).markerPerCountry (propertyKey cc) = some (v - 1) ∧
      ∀ key, key ≠ propertyKey cc →
        (dec (run (init M options) ops) cc).markerPerCountry key
          = (run (init M options) ops).markerPerCountry key) := by
  have hs : Shape (run (init M options) ops) :=
    shape_run ops _ (counted_init M options).1.shape
  generalize run (init M options) ops = c at hs ⊢
  refine ⟨dec_of_not_pos c cc, fun v hv hpos => ?_⟩
  have hk : propertyKey cc ≠ "__proto__" := by
    intro e
    apply hs.noProto
    rw [← e]
    exact (hs.mem_iff _).mpr ⟨v, hv⟩
  obtain ⟨f1, f2, _⟩ := dec_fields_pos c cc v hv hpos hk
  refine ⟨f1, ?_, fun key hkey => ?_⟩
  · rw [f2, Function.update_same]
  · rw [f2, Function.update_noteq hkey]

theorem inc_us_once (M : MathEnv) (options : Options) :
    (run (init M options) [Op.inc (.str "US")]).markers = 1 ∧
    (run (init M options) [Op.inc (.str "US")]).markerPerCountry "US" = some 1 ∧
    ∀ key, key ≠ "US" →
      (run (init M options) [Op.inc (.str "US")]).markerPerCountry key = none ∨
      (run (init M options) [Op.inc (.str "US")]).markerPerCountry key = some 0 := by
  obtain ⟨_, hm, hz⟩ := counted_init M options
  obtain ⟨f1, f2, _⟩ := inc_fields (init M options) (.str "US") (by decide)
  have hz0 : orZero ((init M options).markerPerCountry "US") = 0 := by
    rcases hz "US" with e | e <;> rw [e] <;> rfl
  simp only [propertyKey] at f2
  rw [hz0] at f2
  have hrun : run (init M options) [Op.inc (.str "US")] = inc (init M options) (.str "US") := by
    simp only [run, List.foldl, apply]
  rw [hrun, f1, f2, hm]
  refine ⟨by norm_num, ?_, fun key hkey => ?_⟩
  · rw [Function.update_same]; rfl
  · rw [Function.update_noteq hkey]
    exact hz key

/-- C21, after one `inc("US")` on a fresh aggregator: `dec("DE")` changes
nothing, and `dec("US")` lowers the counter of `US` and the total from `1` to
`0`. -/
theorem C21_dec_is_guarded_witness :
    dec (run (init Markers.exampleMath ⟨none, none⟩) [Op.inc (.str "US")]) (.str "DE")
      = run (init Markers.exampleMath ⟨none, none⟩) [Op.inc (.str "US")] ∧
    getAllMarkers (dec (run (init Markers.exampleMath ⟨none, none⟩) [Op.inc (.str "US")])
        (.str "US"))
      = getAllMarkers (run (init Markers.exampleMath ⟨none, none⟩) [Op.inc (.str "US")]) - 1 ∧
    (dec (run (init Markers.exampleMath ⟨none, none⟩) [Op.inc (.str "US")])
        (.str "US")).markerPerCountry (propertyKey (.str "US")) = some (1 - 1) :=
  have h := inc_us_once Markers.exampleMath ⟨none, none⟩
  have hde : ∀ v, (run (init Markers.exampleMath ⟨none, none⟩)
      [Op.inc (.str "US")]).markerPerCountry (propertyKey (.str "DE")) = some v → v ≤ 0 := by
    intro v hv
    simp only [propertyKey] at hv
    rcases h.2.2 "DE" (by decide) with e | e
    · rw [e] at hv
      exact absurd hv (by simp)
    · rw [e] at hv
      simp only [Option.some.injEq] at hv
      omega
  have hv : (run (init Markers.exampleMath ⟨none, none⟩)
      [Op.inc (.str "US")]).markerPerCountry (propertyKey (.str "US")) = some 1 := by
    simp only [propertyKey]
    exact h.2.1
  have hus := (C21_dec_is_guarded Markers.exampleMath ⟨none, none⟩ [Op.inc (.str "US")]
    (.str "US")).2 1 hv (by norm_num)
  ⟨(C21_dec_is_guarded Markers.exampleMath ⟨none, none⟩ [Op.inc (.str "US")]
      (.str "DE")).1 hde, hus.1, hus.2.1⟩

/-- C22, as stated, fails for `m = 0`: a configured `maxSaturation` of `0`
counts as not supplied, and the effective value is `255`, whereas the clamped
value is `0`. -/
theorem C22_zero_saturation_becomes_255 :
    (init Markers.exampleMath ⟨none, some 0⟩).maxSaturation = 255 ∧
    specMaxSaturation 0 = 0 := by
  refine ⟨?_, by simp [specMaxSaturation]⟩
  rw [(init_table _ _).2.2]
  simp [initMaxSaturation]

/-- C22 amended: for every configured `maxSaturation` value `m` other than
`0`, the effective `maxSaturation` (after construction and after every
sequence of calls) is `m` clamped to the range from `0` to `255`; for `m = 0`
it is `255`, as when no value is configured. -/
theorem C22_maxSaturation_clamped_unless_zero (M : MathEnv) (f : Option (ℚ → ℚ)) (m : ℚ)
    (ops : List Op) :
    (run (init M ⟨f, some m⟩) ops).maxSaturation
      = if m = 0 then 255 else specMaxSaturation m := by
  rw [(run_params M ⟨f, some m⟩ ops).2.2]
  unfold initMaxSaturation specMaxSaturation
  simp only
  by_cases h0 : m = 0
  · simp [h0]
  · simp only [h0, if_false]
    by_cases h1 : m > 255
    · have : ¬ m < 0 := by linarith
      simp [h1, this]
    · by_cases h2 : m < 0
      · simp [h1, h2]
      · simp [h1, h2]

theorem toUint8_255 : toUint8 (initMaxSaturation ⟨none, none⟩) = 255 := by
  decide

/-- C23: after construction and after every sequence of `inc`, `dec` and
`reset`, the colour table holds at every index `i` below `256` the neutral
colour if the total is zero and else red at `maxSaturation` with green and
blue at the interpolation of `count / total` times `maxSaturation`, each as a
byte.  With the default interpolation (and a cube root that is `1` at `1` and
`0` at `0`) a country that holds all markers has green and blue at `0`, and a
country with count `0` has the neutral colour. -/
theorem C23_colour_table_follows_counters (M : MathEnv) (options : Options) (ops : List Op)
    (i : Nat) (hi : i < 256) :
    getColor (run (init M options) ops) i = specColor (run (init M options) ops) i ∧
    (options.interpolator = none → M.pow 1 (1 / 3) = 1 →
      0 < getAllMarkers (run (init M options) ops) →
      getMarkers (run (init M options) ops) i = getAllMarkers (run (init M options) ops) →
      getColor (run (init M options) ops) i = (toUint8 (initMaxSaturation options), 0, 0)) ∧
    (options.interpolator = none → M.pow 0 (1 / 3) = 0 →
      getMarkers (run (init M options) ops) i = 0 →
      getColor (run (init M options) ops) i
        = (toUint8 (initMaxSaturation options), toUint8 (initMaxSaturation options),
            toUint8 (initMaxSaturation options))) := by
  obtain ⟨ht, hf, hm⟩ := run_params M options ops
  have h0 := markers_nonneg M options ops
  generalize run (init M options) ops = c at ht hf hm h0 ⊢
  have hc : getColor c i = specColor c i := by
    rw [ht i hi, rowColor_eq]
    unfold specColor getAllMarkers
    by_cases hz : c.markers = 0
    · rw [if_pos (le_of_eq hz), if_pos hz]
    · rw [if_neg (by omega), if_neg hz]
  refine ⟨hc, fun hd hp hpos hall => ?_, fun hd hp hzero => ?_⟩
  · rw [hc]
    unfold specColor
    have hne : getAllMarkers c ≠ 0 := by omega
    have hq : ((getAllMarkers c : Int) : ℚ) ≠ 0 := by exact_mod_cast hne
    rw [if_neg hne, hall, div_self hq, hf, hd, hm]
    simp only [Option.getD_none, defaultInterpolator, hp, sub_self, zero_mul, toUint8_zero]
  · rw [hc]
    unfold specColor
    by_cases hz : getAllMarkers c = 0
    · rw [if_pos hz, hm]
    · rw [if_neg hz, hzero, hf, hd, hm]
      simp only [Option.getD_none, defaultInterpolator, Int.cast_zero, zero_div, hp, sub_zero,
        one_mul]

/-- C23, after one `inc("US")` on a fresh aggregator with the default
options: `US` (index `237`) has the colour `(255, 0, 0)`, and `DE` (index
`60`), whose count is `0`, has the neutral colour `(255, 255, 255)`. -/
theorem C23_colour_table_follows_counters_witness :
    237 < 256 ∧ 60 < 256 ∧
    getColor (run (init Markers.exampleMath ⟨none, none⟩) [Op.inc (.str "US")]) 237
      = (255, 0, 0) ∧
    getColor (run (init Markers.exampleMath ⟨none, none⟩) [Op.inc (.str "US")]) 60
      = (255, 255, 255) :=
  have h := inc_us_once Markers.exampleMath ⟨none, none⟩
  have hus : getMarkers (run (init Markers.exampleMath ⟨none, none⟩) [Op.inc (.str "US")]) 237
      = 1 := by
    unfold getMarkers
    rw [getCC_237]
    simp only [propertyKey]
    rw [h.2.1]
    rfl
  have hde : getMarkers (run (init Markers.exampleMath ⟨none, none⟩) [Op.inc (.str "US")]) 60
      = 0 := by
    unfold getMarkers
    rw [getCC_60]
    simp only [propertyKey]
    rcases h.2.2 "DE" (by decide) with e | e <;> rw [e] <;> rfl
  have hall : getAllMarkers (run (init Markers.exampleMath ⟨none, none⟩) [Op.inc (.str "US")])
      = 1 := h.1
  have c1 := (C23_colour_table_follows_counters Markers.exampleMath ⟨none, none⟩
    [Op.inc (.str "US")] 237 (by decide)).2.1 rfl (by norm_num [Markers.exampleMath])
    (by rw [hall]; decide)
    (by rw [hus, hall])
  have c2 := (C23_colour_table_follows_counters Markers.exampleMath ⟨none, none⟩
    [Op.inc (.str "US")] 60 (by decide)).2.2 rfl (by simp [Markers.exampleMath]) hde
  ⟨by decide, by decide, by rw [c1, toUint8_255], by rw [c2, toUint8_255]⟩

end Countries

/-! ## Properties of the update throttler -/

namespace Update

theorem settled_init (g : Globals) (t : Nat) : Settled (init g t) :=
  Or.inl ⟨rfl, rfl, rfl⟩

theorem settled_step {s : Globals × Throttler} (h : Settled s) (e : Event) :
    Settled (step s e) := by
  obtain ⟨g, u⟩ := s
  rcases h with ⟨hb, hq, ht⟩ | ⟨hb, T, ht⟩
  · simp only at hb hq ht
    cases e with
    | execute now =>
      right
      simp [step, execute, hb, updateFunction, startTimeout, ht]
    | expire =>
      left
      simp [step, expire, ht, hb, hq]
  · simp only at hb ht
    cases e with
    | execute now =>
      right
      simp [step, execute, hb, ht]
    | expire =>
      by_cases hq : g.enqueued = true
      · right
        simp only [step, expire, ht, hq, if_true]
        refine ⟨?_, ?_⟩
        · by_cases hx : T.execute = true <;> simp [hx, updateFunction, startTimeout, hb]
        · by_cases hx : T.execute = true <;> simp [hx, updateFunction, startTimeout]
      · left
        simp only [Bool.not_eq_true] at hq
        simp only [step, expire, ht, hq]
        by_cases hx : T.execute = true <;> simp [hx, updateFunction, hq]

theorem settled_run (events : List Event) :
    ∀ s : Globals × Throttler, Settled s → Settled (run s events) := by
  induction events with
  | nil => intro s h; exact h
  | cons e es ih => intro s h; exact ih (step s e) (settled_step h e)

/-- Calls of `execute` on a blocked throttler only set `enqueued`. -/
theorem run_execute_blocked (times : List Nat) (g : Globals) (u : Throttler)
    (hb : u.blocked = true) :
    run (g, u) (times.map Event.execute)
      = (if times = [] then g else { g with enqueued := true }, u) := by
  induction times generalizing g with
  | nil => rfl
  | cons now rest ih =>
    have h1 : step (g, u) (Event.execute now) = ({ g with enqueued := true }, u) := by
      simp [step, execute, hb]
    simp only [List.map_cons, run, List.foldl_cons, h1]
    have := ih { g with enqueued := true }
    simp only [run] at this
    rw [this]
    by_cases hr : rest = [] <;> simp [hr]


theorem interval_step (s : Globals × Throttler) (e : Event) :
    (step s e).2.timeoutInterval = s.2.timeoutInterval := by
  obtain ⟨g, u⟩ := s
  cases e with
  | execute now =>
    simp only [step, execute]
    split_ifs <;> rfl
  | expire =>
    simp only [step, expire]
    cases u.timeouts with
    | nil => rfl
    | cons T rest =>
      simp only
      split_ifs <;> rfl

theorem interval_run (events : List Event) :
    ∀ s : Globals × Throttler, (run s events).2.timeoutInterval = s.2.timeoutInterval := by
  induction events with
  | nil => intro s; rfl
  | cons e es ih =>
    intro s
    exact (ih (step s e)).trans (interval_step s e)

theorem run_append (s : Globals × Throttler) (l1 l2 : List Event) :
    run s (l1 ++ l2) = run (run s l1) l2 := by
  simp only [run, List.foldl_append]

/-- After calls of `execute` on a blocked throttler with one pending timeout,
two expiries call `updateFunction` once for the queued calls, and before that
once more if the pending timeout was itself set for a queued call; then the
throttler is idle. -/
theorem run_blocked_then_expire (g : Globals) (u : Throttler) (T : Timeout)
    (times : List Nat) (hne : times ≠ []) (hb : u.blocked = true) (ht : u.timeouts = [T]) :
    (run (g, u) (times.map Event.execute ++ [Event.expire])).2.calls
      = u.calls ++ (if T.execute then [T.due] else []) ∧
    (run (g, u) (times.map Event.execute ++ [Event.expire])).2.timeouts
      = [⟨T.due + u.timeoutInterval, true⟩] ∧
    (run (g, u) (times.map Event.execute ++ [Event.expire])).2.blocked = true ∧
    (run (g, u) (times.map Event.execute ++ [Event.expire, Event.expire])).2.calls
      = u.calls ++ (if T.execute then [T.due] else []) ++ [T.due + u.timeoutInterval] ∧
    (run (g, u) (times.map Event.execute ++ [Event.expire, Event.expire])).2.timeouts = [] ∧
    (run (g, u) (times.map Event.execute ++ [Event.expire, Event.expire])).2.blocked = false ∧
    (run (g, u) (times.map Event.execute ++ [Event.expire, Event.expire])).1.enqueued
      = false := by
  rw [run_append, run_append, run_execute_blocked times g u hb, if_neg hne]
  by_cases hx : T.execute = true
  · simp [run, step, expire, ht, hx, updateFunction, startTimeout, hb]
  · simp [run, step, expire, ht, hx, updateFunction, startTimeout, hb]


/-- C24, as stated, fails: with the interval `100` and two calls of `execute`
at the times `0` and `10`, the first expiry (time `100`) calls nothing and
only sets a new timeout, due at `200`; the second call of `updateFunction`
happens at the second expiry, at the time `200`. -/
theorem C24_trailing_call_waits_for_second_expiry :
    (run (init ⟨false⟩ 100) [.execute 0, .execute 10, .expire]).2.calls = [0] ∧
    (run (init ⟨false⟩ 100) [.execute 0, .execute 10, .expire]).2.timeouts = [⟨200, true⟩] ∧
    (run (init ⟨false⟩ 100) [.execute 0, .execute 10, .expire, .expire]).2.calls
      = [0, 200] := by
  decide

/-- C24 amended: for the interval `t` and `N ≥ 2` calls of `execute` on a new
throttler at the times `0, t/10, 2t/10, ...`, all before `t`, the update
function is called exactly twice: in the first call of `execute` (time `0`)
and at the second expiry (time `2t`).  The other calls of `execute` and the
first expiry (time `t`) call nothing; after the second expiry the throttler is
idle. -/
theorem C24_coalesced_calls_run_at_second_expiry (g : Globals) (t N : Nat) (hN : 2 ≤ N)
    (hin : (N - 1) * (t / 10) < t) :
    (∀ k, k < N → k * (t / 10) < t) ∧
    (run (init g t) ((List.range N).map (fun k => Event.execute (k * (t / 10))))).2.calls
      = [0] ∧
    (run (init g t) ((List.range N).map (fun k => Event.execute (k * (t / 10))))).2.timeouts
      = [⟨t, false⟩] ∧
    (run (init g t) ((List.range N).map (fun k => Event.execute (k * (t / 10)))
      ++ [Event.expire])).2.calls = [0] ∧
    (run (init g t) ((List.range N).map (fun k => Event.execute (k * (t / 10)))
      ++ [Event.expire])).2.timeouts = [⟨2 * t, true⟩] ∧
    (run (init g t) ((List.range N).map (fun k => Event.execute (k * (t / 10)))
      ++ [Event.expire, Event.expire])).2.calls = [0, 2 * t] ∧
    (run (init g t) ((List.range N).map (fun k => Event.execute (k * (t / 10)))
      ++ [Event.expire, Event.expire])).2.timeouts = [] ∧
    (run (init g t) ((List.range N).map (fun k => Event.execute (k * (t / 10)))
      ++ [Event.expire, Event.expire])).2.blocked = false := by
  obtain ⟨n, rfl⟩ : ∃ n, N = n + 2 := ⟨N - 2, by omega⟩
  have htimes : (List.range (n + 2)).map (fun k => Event.execute (k * (t / 10)))
      = Event.execute 0
        :: ((List.range (n + 1)).map (fun k => (k + 1) * (t / 10))).map Event.execute := by
    rw [List.range_succ_eq_map]
    simp [List.map_map, Function.comp_def]
  have hfirst : step (init g t) (Event.execute 0)
      = (⟨false⟩,
        { timeoutInterval := t, blocked := true, timeouts := [⟨t, false⟩], calls := [0] }) := by
    simp [step, init, execute, updateFunction, startTimeout]
  have hne : (List.range (n + 1)).map (fun k => (k + 1) * (t / 10)) ≠ [] := by
    simp
  have hrun : ∀ l : List Event,
      run (init g t) ((List.range (n + 2)).map (fun k => Event.execute (k * (t / 10))) ++ l)
        = run (⟨false⟩,
            { timeoutInterval := t, blocked := true, timeouts := [⟨t, false⟩], calls := [0] })
          (((List.range (n + 1)).map (fun k => (k + 1) * (t / 10))).map Event.execute ++ l) := by
    intro l
    rw [htimes]
    simp only [run, List.cons_append, List.foldl_cons, hfirst]
  obtain ⟨a1, a2, _, a4, a5, a6, _⟩ := run_blocked_then_expire ⟨false⟩
    { timeoutInterval := t, blocked := true, timeouts := [⟨t, false⟩], calls := [0] }
    ⟨t, false⟩ _ hne rfl rfl
  have h0 := hrun []
  simp only [List.append_nil] at h0
  refine ⟨fun k hk => ?_, ?_, ?_, ?_, ?_, ?_, ?_, ?_⟩
  · have : k * (t / 10) ≤ (n + 2 - 1) * (t / 10) := Nat.mul_le_mul_right _ (by omega)
    omega
  · rw [h0, run_execute_blocked _ _ _ rfl]
  · rw [h0, run_execute_blocked _ _ _ rfl]
  · rw [hrun, a1]; rfl
  · rw [hrun, a2]; simp [two_mul]
  · rw [hrun, a4]; simp [two_mul]
  · rw [hrun, a5]
  · rw [hrun, a6]

/-- C24 amended, for the interval `100` and three calls at `0`, `10`, `20`. -/
theorem C24_coalesced_calls_run_at_second_expiry_witness :
    2 ≤ 3 ∧ (3 - 1) * (100 / 10) < 100 ∧
    (run (init ⟨false⟩ 100) ((List.range 3).map (fun k => Event.execute (k * (100 / 10)))
      ++ [Event.expire, Event.expire])).2.calls = [0, 2 * 100] :=
  ⟨by decide, by decide,
    (C24_coalesced_calls_run_at_second_expiry ⟨false⟩ 100 3 (by decide) (by decide)).2.2.2.2.2.1⟩

/-- C25 fails in the code: with the interval `100`, calls of `execute` at `0`
and `50` lead to the trailing call of `updateFunction` at the second expiry
(time `200`), which leaves the throttler unblocked at once; a call of
`execute` at the time `201` then calls `updateFunction` again, one time unit
after the previous call and with no expiry in between. -/
theorem C25_update_runs_twice_within_one_interval :
    (run (init ⟨false⟩ 100) [.execute 0, .execute 50, .expire, .expire]).2.calls = [0, 200] ∧
    (run (init ⟨false⟩ 100) [.execute 0, .execute 50, .expire, .expire]).2.blocked = false ∧
    (run (init ⟨false⟩ 100) [.execute 0, .execute 50, .expire, .expire]).2.timeouts = [] ∧
    invokes (run (init ⟨false⟩ 100) [.execute 0, .execute 50, .expire]) .expire = true ∧
    invokes (run (init ⟨false⟩ 100) [.execute 0, .execute 50, .expire, .expire])
      (.execute 201) = true ∧
    (run (init ⟨false⟩ 100) [.execute 0, .execute 50, .expire, .expire, .execute 201]).2.calls
      = [0, 200, 201] := by
  decide

/-- C26, as stated, fails: with the interval `100`, after `execute` at `0`
the calls at `50` and `150` both arrive while the throttler is blocked (the
first expiry is at `100`); no further call arrives, and `updateFunction` is
called twice more, at the expiries at `200` and `300`. -/
theorem C26_two_trailing_calls :
    (run (init ⟨false⟩ 100) [.execute 0, .execute 50, .expire]).2.blocked = true ∧
    (run (init ⟨false⟩ 100) [.execute 0, .execute 50, .expire, .execute 150]).2.calls
      = [0] ∧
    (run (init ⟨false⟩ 100)
      [.execute 0, .execute 50, .expire, .execute 150, .expire, .expire]).2.calls
      = [0, 200, 300] := by
  decide

/-- C26 amended: if one or more calls of `execute` arrive while a single
throttler is blocked and then no further call arrives, two expiries follow.
The update function is called exactly once more if the pending timeout was set
by `execute`, and exactly twice more if it was set by an expiry for calls
queued before; then no timeout is pending and the throttler is idle (not
blocked, nothing queued), so that the next `execute` calls the update
function at once. -/
theorem C26_trailing_call_then_idle (g : Globals) (t : Nat) (events : List Event)
    (times : List Nat) (next : Nat)
    (hb : (run (init g t) events).2.blocked = true) (hne : times ≠ []) :
    ∃ timeout, (run (init g t) events).2.timeouts = [timeout] ∧
      (run (run (init g t) events)
          (times.map Event.execute ++ [Event.expire, Event.expire])).2.calls
        = (run (init g t) events).2.calls ++ (if timeout.execute then [timeout.due] else [])
          ++ [timeout.due + t] ∧
      (run (run (init g t) events)
          (times.map Event.execute ++ [Event.expire, Event.expire])).2.timeouts = [] ∧
      (run (run (init g t) events)
          (times.map Event.execute ++ [Event.expire, Event.expire])).2.blocked = false ∧
      (run (run (init g t) events)
          (times.map Event.execute ++ [Event.expire, Event.expire])).1.enqueued = false ∧
      (step (run (run (init g t) events)
          (times.map Event.execute ++ [Event.expire, Event.expire])) (Event.execute next)).2.calls
        = (run (run (init g t) events)
          (times.map Event.execute ++ [Event.expire, Event.expire])).2.calls ++ [next] := by
  have hs := settled_run events _ (settled_init g t)
  have hi : (run (init g t) events).2.timeoutInterval = t := interval_run events _
  generalize run (init g t) events = s at hs hi hb ⊢
  obtain ⟨g1, u⟩ := s
  simp only at hb hi
  rcases hs with ⟨hb0, _, _⟩ | ⟨_, T, ht⟩
  · simp only at hb0
    rw [hb0] at hb
    exact absurd hb (by simp)
  · simp only at ht
    obtain ⟨_, _, _, a4, a5, a6, a7⟩ := run_blocked_then_expire g1 u T times hne hb ht
    rw [hi] at a4
    refine ⟨T, ht, a4, a5, a6, a7, ?_⟩
    simp only [step, execute, a6, Bool.not_false, if_true, updateFunction, startTimeout]

/-- C26 amended, for the interval `100`: after `execute` at `0`, the calls at
`50` and `60` arrive while the throttler is blocked; one more call of the
update function follows, at `200`. -/
theorem C26_trailing_call_then_idle_witness :
    (run (init ⟨false⟩ 100) [.execute 0]).2.blocked = true ∧ [50, 60] ≠ [] ∧
    (run (run (init ⟨false⟩ 100) [.execute 0])
      ([50, 60].map Event.execute ++ [Event.expire, Event.expire])).2.calls = [0, 200] := by
  obtain ⟨timeout, h1, h2, _⟩ := C26_trailing_call_then_idle ⟨false⟩ 100 [.execute 0]
    [50, 60] 300 (by decide) (by decide)
  have h0 : (run (init ⟨false⟩ 100) [.execute 0]).2.timeouts = [⟨100, false⟩] := by decide
  rw [h0] at h1
  have ht : timeout = ⟨100, false⟩ := by
    simpa using h1.symm
  subst ht
  exact ⟨by decide, by decide, h2⟩

/-- C27 fails in the code: the two throttlers share the variable `enqueued`.
After `pickBufferUpdate.execute()` at `0` and `mapUpdate.execute()` at `250`
and `260`, the call queued for `mapUpdate` is taken by the expiry of
`pickBufferUpdate` at `300`: `mapUpdate` becomes idle at `350` without its
trailing call, and `pickBufferUpdate` calls its update function at `600`,
which it does not do without the calls on `mapUpdate`.  Constructing an
instance clears a call that is queued for another one, too. -/
theorem C27_throttlers_share_enqueued :
    (System.run (System.init ⟨false⟩)
      [(.pickBufferUpdate, .execute 0), (.mapUpdate, .execute 250),
        (.mapUpdate, .execute 260)]).globals.enqueued = true ∧
    (System.run (System.init ⟨false⟩)
      [(.pickBufferUpdate, .execute 0), (.mapUpdate, .execute 250),
        (.mapUpdate, .execute 260), (.pickBufferUpdate, .expire)]).globals.enqueued = false ∧
    (System.run (System.init ⟨false⟩)
      [(.pickBufferUpdate, .execute 0), (.mapUpdate, .execute 250),
        (.mapUpdate, .execute 260), (.pickBufferUpdate, .expire), (.mapUpdate, .expire),
        (.pickBufferUpdate, .expire)]).pickBufferUpdate.calls = [0, 600] ∧
    (System.run (System.init ⟨false⟩)
      [(.pickBufferUpdate, .execute 0), (.mapUpdate, .execute 250),
        (.mapUpdate, .execute 260), (.pickBufferUpdate, .expire), (.mapUpdate, .expire),
        (.pickBufferUpdate, .expire)]).mapUpdate.calls = [250] ∧
    (System.run (System.init ⟨false⟩)
      [(.pickBufferUpdate, .execute 0), (.mapUpdate, .execute 250),
        (.mapUpdate, .execute 260), (.pickBufferUpdate, .expire), (.mapUpdate, .expire),
        (.pickBufferUpdate, .expire)]).mapUpdate.blocked = false ∧
    (System.run (System.init ⟨false⟩)
      [(.pickBufferUpdate, .execute 0), (.pickBufferUpdate, .expire),
        (.pickBufferUpdate, .expire)]).pickBufferUpdate.calls = [0] ∧
    (run (init ⟨false⟩ 100) [.execute 250, .execute 260, .expire, .expire]).2.calls
      = [250, 450] ∧
    (run (init ⟨false⟩ 300) [.execute 0, .execute 10]).1.enqueued = true ∧
    (init (run (init ⟨false⟩ 300) [.execute 0, .execute 10]).1 100).1.enqueued = false := by
  decide

end Update

/-! ## Properties of the marker registry: history and handles -/

namespace Markers

theorem slotInUse_removeState (s : Markers) (key j : Nat) :
    slotInUse (removeState s key) j = if j = key then false else slotInUse s j := by
  unfold slotInUse removeState
  by_cases h : j = key
  · subst h
    simp [inUse, unusedPosition]
  · simp [Function.update_noteq h, h]

theorem ordered_init (options : MarkerOptions) (hu : usable options) :
    (Stamped.init options).Ordered :=
  ⟨WF_init options hu, fun j _ h => by simp [Stamped.init, slotInUse_init] at h,
    fun j b h => by simp [Stamped.init] at h,
    fun i j bi bj _ _ h => by simp [Stamped.init] at h⟩

theorem ordered_step (M : MathEnv) {t t1 : Stamped} (h : t.Ordered) (call : Call)
    (hstep : Stamped.step M t call = some t1) : t1.Ordered := by
  cases call with
  | add c =>
    have hadd := add_eq M h.wf c record []
    simp only [Stamped.step, hadd, Option.some.injEq] at hstep
    subst hstep
    obtain ⟨hmax, hnext⟩ := addState_fields M t.state c
    have hn := h.wf.next_lt
    refine ⟨WF_addState M h.wf c, ?_, ?_, ?_⟩
    · intro j hj hin
      simp only at hj hin ⊢
      by_cases e : j = t.state.nextMarker
      · subst e
        exact ⟨t.clock, Function.update_same _ _ _⟩
      · rw [Function.update_noteq e]
        rw [slotInUse_addState, if_neg e] at hin
        exact h.written j (by rw [hmax] at hj; exact hj) hin
    · intro j b hb
      simp only at hb ⊢
      by_cases e : j = t.state.nextMarker
      · subst e
        rw [Function.update_same] at hb
        simp only [Option.some.injEq] at hb
        omega
      · rw [Function.update_noteq e] at hb
        have := h.past j b hb
        omega
    · intro i j bi bj hi hj hbi hbj hd
      simp only at hi hj hbi hbj hd
      rw [hmax] at hi hj hd
      rw [hnext, cursor_succ hn] at hd
      by_cases ei : i = t.state.nextMarker
      · exfalso
        subst ei
        unfold distance at hd
        split_ifs at hd <;> omega
      · rw [Function.update_noteq ei] at hbi
        by_cases ej : j = t.state.nextMarker
        · subst ej
          rw [Function.update_same] at hbj
          simp only [Option.some.injEq] at hbj
          have := h.past i bi hbi
          omega
        · rw [Function.update_noteq ej] at hbj
          apply h.order i j bi bj hi hj hbi hbj
          unfold distance at hd ⊢
          split_ifs at hd ⊢ <;> omega
  | remove key =>
    cases hr : remove t.state key with
    | none => simp [Stamped.step, hr] at hstep
    | some s1 =>
      simp only [Stamped.step, hr, Option.some.injEq] at hstep
      subst hstep
      have hs1 := remove_some hr
      subst hs1
      refine ⟨WF_removeState h.wf key, ?_, ?_, ?_⟩
      · intro j hj hin
        simp only at hj hin ⊢
        rw [slotInUse_removeState] at hin
        by_cases e : j = key
        · simp [e] at hin
        · rw [if_neg e] at hin
          exact h.written j hj hin
      · intro j b hb
        have := h.past j b hb
        simp only
        omega
      · intro i j bi bj hi hj hbi hbj hd
        exact h.order i j bi bj hi hj hbi hbj hd
  | reset =>
    have hr := reset_eq h.wf
    simp only [Stamped.step, hr, Option.some.injEq] at hstep
    subst hstep
    refine ⟨WF_resetState h.wf, ?_, ?_, ?_⟩
    · intro j hj hin
      simp only at hj hin
      rw [slotInUse_resetState t.state j hj] at hin
      exact absurd hin (by simp)
    · intro j b hb
      have := h.past j b hb
      simp only
      omega
    · intro i j bi bj hi hj hbi hbj hd
      exact h.order i j bi bj hi hj hbi hbj hd

theorem ordered_run (M : MathEnv) (calls : List Call) :
    ∀ t t1 : Stamped, t.Ordered → Stamped.run M t calls = some t1 → t1.Ordered := by
  induction calls with
  | nil =>
    intro t t1 h hrun
    simp only [Stamped.run, Option.some.injEq] at hrun
    subst hrun
    exact h
  | cons call calls ih =>
    intro t t1 h hrun
    cases hs : Stamped.step M t call with
    | none => simp [Stamped.run, hs] at hrun
    | some t2 =>
      simp only [Stamped.run, hs] at hrun
      exact ih t2 t1 (ordered_step M h call hs) hrun

theorem step_add (M : MathEnv) {t : Stamped} (h : WF t.state) (c : AddCall) :
    Stamped.step M t (.add c)
      = some { state := addState M t.state c, clock := t.clock + 1,
               born := Function.update t.born t.state.nextMarker (some t.clock) } := by
  simp only [Stamped.step, add_eq M h c record []]

/-- C29: whenever `add` invokes the overflow callback, the marker it evicts is
the oldest live marker.  In every state that calls of `add`, `remove` and
`reset` lead to, a call of `add` that invokes the callback writes the slot at
the ring cursor, which is in use and whose country code the callback
receives, and every other slot in use was written by a later call of `add`
than that slot. -/
theorem C29_evicted_marker_is_oldest (M : MathEnv) (options : MarkerOptions)
    (hu : usable options) (calls : List Call) (t : Stamped)
    (hrun : Stamped.run M (Stamped.init options) calls = some t)
    (c : AddCall) (key : Nat) (s1 : Markers) (log : List JSVal)
    (hadd : add M t.state c.cc c.latitude c.longitude c.radius c.sourceLabel record []
      = some (key, s1, log))
    (hov : log ≠ []) :
    key = t.state.nextMarker ∧ slotInUse t.state key = true ∧
    log = [t.state.countryCode key] ∧
    ∃ b, t.born key = some b ∧
      ∀ j, j < t.state.maxMarker → j ≠ key → slotInUse t.state j = true →
        ∃ bj, t.born j = some bj ∧ b < bj := by
  have h := ordered_run M calls _ t (ordered_init options hu) hrun
  rw [add_eq M h.wf c record []] at hadd
  simp only [Option.some.injEq, Prod.mk.injEq] at hadd
  obtain ⟨hkey, _, hlog⟩ := hadd
  subst hkey
  have hn := h.wf.next_lt
  by_cases hin : slotInUse t.state t.state.nextMarker = true
  · rw [if_pos hin] at hlog
    obtain ⟨b, hb⟩ := h.written _ hn hin
    refine ⟨rfl, hin, hlog.symm, b, hb, fun j hj hne hjin => ?_⟩
    obtain ⟨bj, hbj⟩ := h.written j hj hjin
    refine ⟨bj, hbj, h.order _ j b bj hn hj hb hbj ?_⟩
    unfold distance
    split_ifs <;> omega
  · rw [if_neg hin] at hlog
    exact absurd hlog.symm hov

/-- C29, at capacity `2`: after the adds for `A` (call `0`) and `B` (call
`1`), the add for `C` evicts the marker of `A` in slot `0`, which is older
than the marker in slot `1`. -/
theorem C29_evicted_marker_is_oldest_witness :
    usable ⟨some 2, none⟩ ∧
    ∃ t log,
      Stamped.run exampleMath (Stamped.init ⟨some 2, none⟩)
        [.add (exampleCall "A" "L1"), .add (exampleCall "B" "L2")] = some t ∧
      log ≠ [] ∧ log = [t.state.countryCode 0] ∧ t.state.countryCode 0 = .str "A" ∧
      ∃ b, t.born 0 = some b ∧
        ∀ j, j < t.state.maxMarker → j ≠ 0 → slotInUse t.state j = true →
          ∃ bj, t.born j = some bj ∧ b < bj := by
  have hu : usable ⟨some 2, none⟩ := by decide
  have hw0 : WF (Markers.init ⟨some 2, none⟩) := WF_init _ hu
  have hw1 := WF_addState exampleMath hw0 (exampleCall "A" "L1")
  have hw2 := WF_addState exampleMath hw1 (exampleCall "B" "L2")
  have h1 : Stamped.step exampleMath (Stamped.init ⟨some 2, none⟩) (.add (exampleCall "A" "L1"))
      = some ⟨addState exampleMath (Markers.init ⟨some 2, none⟩) (exampleCall "A" "L1"), 1,
          Function.update (fun _ => none) 0 (some 0)⟩ :=
    @step_add exampleMath (Stamped.init ⟨some 2, none⟩) hw0 (exampleCall "A" "L1")
  have h2 : Stamped.step exampleMath
      ⟨addState exampleMath (Markers.init ⟨some 2, none⟩) (exampleCall "A" "L1"), 1,
        Function.update (fun _ => none) 0 (some 0)⟩ (.add (exampleCall "B" "L2"))
      = some ⟨addState exampleMath
          (addState exampleMath (Markers.init ⟨some 2, none⟩) (exampleCall "A" "L1"))
          (exampleCall "B" "L2"), 2,
          Function.update (Function.update (fun _ => none) 0 (some 0)) 1 (some 1)⟩ :=
    @step_add exampleMath
      ⟨addState exampleMath (Markers.init ⟨some 2, none⟩) (exampleCall "A" "L1"), 1,
        Function.update (fun _ => none) 0 (some 0)⟩ hw1 (exampleCall "B" "L2")
  have hrun : Stamped.run exampleMath (Stamped.init ⟨some 2, none⟩)
      [.add (exampleCall "A" "L1"), .add (exampleCall "B" "L2")]
      = some ⟨addState exampleMath
          (addState exampleMath (Markers.init ⟨some 2, none⟩) (exampleCall "A" "L1"))
          (exampleCall "B" "L2"), 2,
          Function.update (Function.update (fun _ => none) 0 (some 0)) 1 (some 1)⟩ := by
    simp only [Stamped.run, h1, h2]
  have hin : slotInUse (addState exampleMath
      (addState exampleMath (Markers.init ⟨some 2, none⟩) (exampleCall "A" "L1"))
      (exampleCall "B" "L2")) 0 = true := by
    rw [slotInUse_addState, if_neg (by decide), slotInUse_addState, if_pos (by rfl)]
    exact inUse_convert exampleMath (exampleCall "A" "L1") (by rfl)
  have hadd := add_eq exampleMath hw2 (exampleCall "C" "L3") record []
  have hnext : (addState exampleMath
      (addState exampleMath (Markers.init ⟨some 2, none⟩) (exampleCall "A" "L1"))
      (exampleCall "B" "L2")).nextMarker = 0 := by rfl
  rw [hnext, if_pos hin] at hadd
  obtain ⟨_, _, h3, h4⟩ := C29_evicted_marker_is_oldest exampleMath ⟨some 2, none⟩ hu
    [.add (exampleCall "A" "L1"), .add (exampleCall "B" "L2")] _ hrun
    (exampleCall "C" "L3") 0 _ _ hadd (by simp [record])
  exact ⟨hu, _, _, hrun, by simp [record], h3, by rfl, h4⟩

/-- C30: handles are reused after the wrap-around.  On a fresh registry of
capacity `C`, call `C + 1` of `add` returns the handle `0` that the first call
returned; afterwards `getLabel(0)` and `getCC(0)` return the label and the
country code of call `C + 1`, slot `0` holds its position, and `remove(0)`
unsets that marker. -/
theorem C30_handle_reused_after_wraparound {σ : Type} (M : MathEnv) (options : MarkerOptions)
    (hu : usable options) (first last : AddCall) (middle : List AddCall)
    (hlen : middle.length + 1 = (init options).maxMarker)
    (onOverflow : JSVal → σ → σ) (w : σ) :
    ∃ ks s2 w2 s3,
      addAll M (init options) (first :: middle ++ [last]) onOverflow w = some (ks, s2, w2) ∧
      ks[0]? = some 0 ∧ ks[middle.length + 1]? = some 0 ∧
      getLabel s2 0 = last.sourceLabel ∧ getCC s2 0 = last.cc ∧
      s2.marker 0 = some (convert M last.latitude last.longitude last.radius) ∧
      remove s2 0 = some s3 ∧ s3.marker 0 = some unusedPosition ∧
      slotInUse s3 0 = false ∧ getCC s3 0 = .undefined := by
  have hwf := WF_init options hu
  have h0 : (init options).nextMarker = 0 := rfl
  have hC := hwf.next_lt
  rw [h0] at hC
  obtain ⟨ks, s1, w1, h1, hwf1, hmax, hnext, hklen, hkeys, _⟩ :=
    addAll_spec M onOverflow (first :: middle) (init options) w hwf
  rw [h0] at hnext hkeys
  simp only [List.length_cons] at hnext hklen hkeys
  have hs1n : s1.nextMarker = 0 := by
    rw [hnext, Nat.zero_add, hlen, Nat.mod_self]
  have hlast := add_eq M hwf1 last onOverflow w1
  rw [hs1n] at hlast
  have hsingle : addAll M s1 [last] onOverflow w1
      = some ([0], addState M s1 last,
          if slotInUse s1 0 = true then onOverflow (s1.countryCode 0) w1 else w1) := by
    simp only [addAll, hlast]
  have hall := addAll_append M onOverflow (first :: middle) [last] _ _ _ _ _ _ _ _ h1 hsingle
  obtain ⟨a1, a2, a3⟩ := addState_slot M s1 last
  rw [hs1n] at a1 a2 a3
  have hwf2 : WF (addState M s1 last) := WF_addState M hwf1 last
  have hC2 : 0 < (addState M s1 last).maxMarker := by
    rw [(addState_fields M s1 last).1, hmax]
    exact hC
  have hrem := remove_eq hwf2 hC2
  have hk0 : ks[0]? = some 0 := by
    have := hkeys 0 (by omega)
    simpa using this
  refine ⟨ks ++ [0], addState M s1 last, _, removeState (addState M s1 last) 0, hall, ?_, ?_,
    a2, a3, a1, hrem, ?_, ?_, ?_⟩
  · rw [List.getElem?_append_left (by omega)]
    exact hk0
  · rw [List.getElem?_append_right (by omega), hklen]
    simp
  · simp [removeState]
  · simp [slotInUse, removeState, inUse, unusedPosition]
  · simp [getCC, removeState]

/-- C30, at capacity `2`: after the adds for `A`, `B`, `C` the handle `0` of
`A` names the marker of `C`. -/
theorem C30_handle_reused_after_wraparound_witness :
    usable ⟨some 2, none⟩ ∧
    [exampleCall "B" "L2"].length + 1 = (init ⟨some 2, none⟩).maxMarker ∧
    ∃ ks s2 w2 s3,
      addAll exampleMath (init ⟨some 2, none⟩)
        (exampleCall "A" "L1" :: [exampleCall "B" "L2"] ++ [exampleCall "C" "L3"]) record []
        = some (ks, s2, w2) ∧
      ks[0]? = some 0 ∧ ks[[exampleCall "B" "L2"].length + 1]? = some 0 ∧
      getLabel s2 0 = (exampleCall "C" "L3").sourceLabel ∧
      getCC s2 0 = (exampleCall "C" "L3").cc ∧
      s2.marker 0 = some (convert exampleMath (exampleCall "C" "L3").latitude
        (exampleCall "C" "L3").longitude (exampleCall "C" "L3").radius) ∧
      remove s2 0 = some s3 ∧ s3.marker 0 = some unusedPosition ∧
      slotInUse s3 0 = false ∧ getCC s3 0 = .undefined :=
  ⟨by decide, by decide,
    C30_handle_reused_after_wraparound exampleMath ⟨some 2, none⟩ (by decide)
      (exampleCall "A" "L1") (exampleCall "C" "L3") [exampleCall "B" "L2"] (by decide)
      record []⟩

end Markers

/-! ## Properties of the controller -/

namespace Main

theorem countP_range_update (p q : Nat → Bool) (a : Nat) (h : ∀ i, i ≠ a → q i = p i) :
    ∀ n, a < n →
      (List.range n).countP q + (if p a = true then 1 else 0)
        = (List.range n).countP p + (if q a = true then 1 else 0) := by
  have hsame : ∀ n, n ≤ a → (List.range n).countP q = (List.range n).countP p := by
    intro n hn
    apply List.countP_congr
    intro i hi
    rw [List.mem_range] at hi
    rw [h i (by omega)]
  intro n
  induction n with
  | zero => intro ha; omega
  | succ n ih =>
    intro ha
    rw [List.range_succ, List.countP_append, List.countP_append]
    simp only [List.countP_cons, List.countP_nil, Nat.zero_add]
    by_cases e : a = n
    · subst e
      rw [hsame a (le_refl _)]
      omega
    · have := ih (by omega)
      rw [h n (fun e1 => e e1.symm)]
      omega

theorem keyCount_le (s : Markers) (key : String) : keyCount s key ≤ s.maxMarker := by
  unfold keyCount
  exact (List.countP_le_length _).trans (by rw [List.length_range])

theorem keyCount_pos (s : Markers) (i : Nat) (hi : i < s.maxMarker)
    (hin : Markers.slotInUse s i = true) :
    0 < keyCount s (Countries.propertyKey (s.countryCode i)) := by
  unfold keyCount
  rw [List.countP_pos_iff]
  exact ⟨i, List.mem_range.mpr hi, by simp [hin]⟩

theorem keyCount_eq_zero (s : Markers) (key : String)
    (h : ∀ i, i < s.maxMarker → Markers.slotInUse s i = true →
      Countries.propertyKey (s.countryCode i) ≠ key) : keyCount s key = 0 := by
  unfold keyCount
  rw [List.countP_eq_zero]
  intro i hi
  rw [List.mem_range] at hi
  by_cases hin : Markers.slotInUse s i = true
  · simp [hin, h i hi hin]
  · simp [hin]


theorem keyCount_update (s s1 : Markers) (a : Nat) (hmax : s1.maxMarker = s.maxMarker)
    (ha : a < s.maxMarker)
    (hother : ∀ i, i ≠ a → Markers.slotInUse s1 i = Markers.slotInUse s i ∧
      s1.countryCode i = s.countryCode i) (key : String) :
    keyCount s1 key
        + (if (Markers.slotInUse s a
            && decide (Countries.propertyKey (s.countryCode a) = key)) = true then 1 else 0)
      = keyCount s key
        + (if (Markers.slotInUse s1 a
            && decide (Countries.propertyKey (s1.countryCode a) = key)) = true then 1 else 0) := by
  unfold keyCount
  rw [hmax]
  exact countP_range_update
    (fun i => Markers.slotInUse s i && decide (Countries.propertyKey (s.countryCode i) = key))
    (fun i => Markers.slotInUse s1 i && decide (Countries.propertyKey (s1.countryCode i) = key))
    a (fun i hi => by simp only [(hother i hi).1, (hother i hi).2]) _ ha

theorem inUseCount_update (s s1 : Markers) (a : Nat) (hmax : s1.maxMarker = s.maxMarker)
    (ha : a < s.maxMarker)
    (hother : ∀ i, i ≠ a → Markers.slotInUse s1 i = Markers.slotInUse s i) :
    inUseCount s1 + (if Markers.slotInUse s a = true then 1 else 0)
      = inUseCount s + (if Markers.slotInUse s1 a = true then 1 else 0) := by
  unfold inUseCount
  rw [hmax]
  exact countP_range_update (Markers.slotInUse s) (Markers.slotInUse s1) a hother _ ha

theorem inUseCount_pos (s : Markers) (i : Nat) (hi : i < s.maxMarker)
    (hin : Markers.slotInUse s i = true) : 0 < inUseCount s := by
  unfold inUseCount
  rw [List.countP_pos_iff]
  exact ⟨i, List.mem_range.mpr hi, hin⟩

theorem inUseCount_eq_zero (s : Markers)
    (h : ∀ i, i < s.maxMarker → Markers.slotInUse s i = false) : inUseCount s = 0 := by
  unfold inUseCount
  rw [List.countP_eq_zero]
  intro i hi
  rw [List.mem_range] at hi
  simp [h i hi]

set_option maxRecDepth 8192 in
theorem undefined_not_in_code : "undefined" ∉ Countries.code := by decide

theorem orZero_eq_getD (o : Option Int) (h0 : 0 ≤ o.getD 0) (h1 : o.getD 0 < 2147483648) :
    Countries.orZero o = o.getD 0 := by
  cases o with
  | none => rfl
  | some v =>
    simp only [Option.getD_some] at h0 h1 ⊢
    exact Countries.orZero_of_bounds v h0 h1

theorem inc_counts {c : Countries.Counters} (hs : Countries.Shape c) (key : String)
    (hk : key ≠ "__proto__") (h0 : 0 ≤ (c.markerPerCountry key).getD 0)
    (h1 : (c.markerPerCountry key).getD 0 < 2147483648) :
    Countries.Shape (Countries.inc c (.str key)) ∧
    (Countries.inc c (.str key)).markers = c.markers + 1 ∧
    ∀ k, ((Countries.inc c (.str key)).markerPerCountry k).getD 0
      = (c.markerPerCountry k).getD 0 + (if key = k then 1 else 0) := by
  obtain ⟨f1, f2, f3⟩ := Countries.inc_fields c (.str key) hk
  simp only [Countries.propertyKey] at f2 f3
  refine ⟨(Countries.shape_set hs key _ hk f2 f3).1, f1, fun k => ?_⟩
  rw [f2, orZero_eq_getD _ h0 h1]
  by_cases e : key = k
  · subst e
    simp
  · rw [Function.update_noteq (fun e1 => e e1.symm), if_neg e]
    simp

theorem dec_counts {c : Countries.Counters} (hs : Countries.Shape c) (cc : JSVal)
    (hpos : 0 < (c.markerPerCountry (Countries.propertyKey cc)).getD 0) :
    Countries.Shape (Countries.dec c cc) ∧
    (Countries.dec c cc).markers = c.markers - 1 ∧
    ∀ k, ((Countries.dec c cc).markerPerCountry k).getD 0
      = (c.markerPerCountry k).getD 0 - (if Countries.propertyKey cc = k then 1 else 0) := by
  cases hv : c.markerPerCountry (Countries.propertyKey cc) with
  | none => simp [hv] at hpos
  | some v =>
    rw [hv] at hpos
    simp only [Option.getD_some] at hpos
    have hk : Countries.propertyKey cc ≠ "__proto__" := by
      intro e
      apply hs.noProto
      rw [← e]
      exact (hs.mem_iff _).mpr ⟨v, hv⟩
    obtain ⟨f1, f2, f3⟩ := Countries.dec_fields_pos c cc v hv hpos hk
    refine ⟨(Countries.shape_set hs _ _ hk f2 f3).1, f1, fun k => ?_⟩
    rw [f2]
    by_cases e : Countries.propertyKey cc = k
    · subst e
      simp [hv]
    · rw [Function.update_noteq (fun e1 => e e1.symm), if_neg e]
      simp

theorem dec_counts_zero (c : Countries.Counters) (cc : JSVal)
    (h : (c.markerPerCountry (Countries.propertyKey cc)).getD 0 ≤ 0) :
    Countries.dec c cc = c := by
  apply Countries.dec_of_not_pos
  intro v hv
  rw [hv] at h
  simpa using h

theorem reset_counts {c : Countries.Counters} (hs : Countries.Shape c) :
    Countries.Shape (Countries.reset c) ∧ (Countries.reset c).markers = 0 ∧
    ∀ k, ((Countries.reset c).markerPerCountry k).getD 0 = 0 := by
  obtain ⟨a, b, hz⟩ := Countries.counted_reset hs
  refine ⟨a.shape, b, fun k => ?_⟩
  rcases hz k with e | e <;> simp [e]

theorem dec_occupant {g : Controller} (h : Consistent g) (i : Nat) (hi : i < g.view.maxMarker)
    (hin : Markers.slotInUse g.view i = true) :
    Countries.Shape (Countries.dec g.countries (g.view.countryCode i)) ∧
    (Countries.dec g.countries (g.view.countryCode i)).markers = g.countries.markers - 1 ∧
    ∀ k, ((Countries.dec g.countries (g.view.countryCode i)).markerPerCountry k).getD 0
      = (keyCount g.view k : Int)
        - (if Countries.propertyKey (g.view.countryCode i) = k then 1 else 0) := by
  have hpos := keyCount_pos g.view i hi hin
  obtain ⟨a, b, c⟩ := dec_counts h.shape (g.view.countryCode i)
    (by rw [h.counts]; exact_mod_cast hpos)
  refine ⟨a, b, fun k => ?_⟩
  rw [c k, h.counts]

theorem dec_unused {g : Controller} (h : Consistent g) (i : Nat) (hi : i < g.view.maxMarker)
    (hun : Markers.slotInUse g.view i = false) :
    Countries.dec g.countries (g.view.countryCode i) = g.countries := by
  apply dec_counts_zero
  rw [h.counts]
  have hz : keyCount g.view (Countries.propertyKey (g.view.countryCode i)) = 0 := by
    apply keyCount_eq_zero
    intro j hj hjin
    rcases h.idle with hl | ⟨_, hr, _⟩
    · rw [hl i hi hun]
      obtain ⟨s, hs, hcc⟩ := h.coded j hj hjin
      rw [hcc]
      simp only [Countries.propertyKey]
      intro e
      apply undefined_not_in_code
      rw [← e]
      exact hs
    · rw [hr j hj] at hjin
      exact absurd hjin (by simp)
  rw [hz]
  simp


theorem dec_slot {g : Controller} (h : Consistent g) (i : Nat) (hi : i < g.view.maxMarker) :
    Countries.Shape (Countries.dec g.countries (g.view.countryCode i)) ∧
    (Countries.dec g.countries (g.view.countryCode i)).markers
      = g.countries.markers - ((if Markers.slotInUse g.view i = true then 1 else 0 : Nat) : Int) ∧
    ∀ k, ((Countries.dec g.countries (g.view.countryCode i)).markerPerCountry k).getD 0
      = (keyCount g.view k : Int)
        - ((if (Markers.slotInUse g.view i
            && decide (Countries.propertyKey (g.view.countryCode i) = k)) = true
            then 1 else 0 : Nat) : Int) := by
  by_cases hin : Markers.slotInUse g.view i = true
  · obtain ⟨a, b, c⟩ := dec_occupant h i hi hin
    refine ⟨a, ?_, fun k => ?_⟩
    · rw [b, if_pos hin]
      rfl
    · rw [c k, hin]
      by_cases e : Countries.propertyKey (g.view.countryCode i) = k <;> simp [e]
  · simp only [Bool.not_eq_true] at hin
    rw [dec_unused h i hi hin, hin]
    refine ⟨h.shape, by simp, fun k => ?_⟩
    rw [h.counts]
    simp

theorem consistent_onLoad (M : MathEnv) (viewOptions : MarkerOptions)
    (hu : Markers.usable viewOptions) (g : Update.Globals) :
    Consistent (onLoad M viewOptions g) := by
  obtain ⟨hc, hm, hz⟩ := Countries.counted_init M ⟨none, none⟩
  unfold onLoad
  generalize Countries.init M ⟨none, none⟩ = c0 at hc hm hz ⊢
  have hun : ∀ i, i < (Markers.init viewOptions).maxMarker →
      Markers.slotInUse (Markers.init viewOptions) i = false :=
    fun i _ => Markers.slotInUse_init viewOptions i
  have hk : ∀ key, keyCount (Markers.init viewOptions) key = 0 := by
    intro key
    apply keyCount_eq_zero
    intro i hi hin
    rw [hun i hi] at hin
    exact absurd hin (by simp)
  refine ⟨?_, ?_, ?_, ?_, ?_, ?_, ?_⟩
  · exact Markers.WF_init viewOptions hu
  · have := (Markers.initMaxMarker_bounds viewOptions).2
    show (Markers.initMaxMarker viewOptions).toNat ≤ 16777216
    omega
  · exact hc.shape
  · intro i hi hin
    dsimp only at hi hin
    rw [hun i hi] at hin
    exact absurd hin (by simp)
  · right
    refine ⟨rfl, hun, fun i h0 _ => ?_⟩
    show (if i = 0 then JSVal.num _ else JSVal.undefined) = JSVal.undefined
    rw [if_neg (by omega)]
  · intro key
    dsimp only
    rw [hk key]
    rcases hz key with e | e <;> simp [e]
  · dsimp only
    rw [inUseCount_eq_zero _ hun]
    exact hm

theorem consistent_addMarker (M : MathEnv) {g : Controller} (h : Consistent g) (now : Nat)
    (cc : JSVal) (latitude longitude : JSNum) (sourceLabel : JSVal)
    (hadm : (Call.addMarker cc latitude longitude sourceLabel).admissible g.view.maxMarker) :
    ∃ g1, step M g now (.addMarker cc latitude longitude sourceLabel) = some g1 ∧
      Consistent g1 ∧ g1.view.maxMarker = g.view.maxMarker := by
  obtain ⟨⟨s, hs, rfl⟩, hlat, hlon⟩ := hadm
  have hn := h.wf.next_lt
  have hfin : (Markers.AddCall.mk (.str s) latitude (longitude.sub viewOffset)
      (viewRadius.mul viewMarkerScale) sourceLabel).finite = true := by
    cases latitude <;> cases longitude <;>
      simp_all [Markers.AddCall.finite, JSNum.isFinite, JSNum.sub, viewOffset, viewRadius,
        viewMarkerScale, JSNum.mul]
  have hadd : Markers.add M g.view (.str s) latitude (longitude.sub viewOffset)
      (viewRadius.mul viewMarkerScale) sourceLabel (fun cc c => Countries.dec c cc) g.countries
      = some (g.view.nextMarker,
          Markers.addState M g.view ⟨.str s, latitude, longitude.sub viewOffset,
            viewRadius.mul viewMarkerScale, sourceLabel⟩,
          if Markers.slotInUse g.view g.view.nextMarker = true then
            Countries.dec g.countries (g.view.countryCode g.view.nextMarker)
          else g.countries) :=
    Markers.add_eq M h.wf ⟨.str s, latitude, longitude.sub viewOffset,
      viewRadius.mul viewMarkerScale, sourceLabel⟩ (fun cc c => Countries.dec c cc) g.countries
  have hc1 : (if Markers.slotInUse g.view g.view.nextMarker = true then
        Countries.dec g.countries (g.view.countryCode g.view.nextMarker)
      else g.countries)
      = Countries.dec g.countries (g.view.countryCode g.view.nextMarker) := by
    split_ifs with hin
    · rfl
    · simp only [Bool.not_eq_true] at hin
      exact (dec_unused h _ hn hin).symm
  rw [hc1] at hadd
  obtain ⟨d1, d2, d3⟩ := dec_slot h g.view.nextMarker hn
  have hproto : s ≠ "__proto__" := fun e => Countries.proto_not_in_code (by rw [← e]; exact hs)
  have hle := keyCount_le g.view s
  have hcap := h.cap
  have hb := d3 s
  have hpos : (if (Markers.slotInUse g.view g.view.nextMarker
      && decide (Countries.propertyKey (g.view.countryCode g.view.nextMarker) = s)) = true
      then 1 else 0 : Nat) ≤ keyCount g.view s := by
    split_ifs with hc
    · simp only [Bool.and_eq_true, decide_eq_true_eq] at hc
      have := keyCount_pos g.view _ hn hc.1
      rw [hc.2] at this
      exact this
    · exact Nat.zero_le _
  obtain ⟨i1, i2, i3⟩ := inc_counts d1 s hproto (by rw [hb]; omega) (by rw [hb]; omega)
  -- the registry after the call
  obtain ⟨hmax, _⟩ := Markers.addState_fields M g.view
    ⟨.str s, latitude, longitude.sub viewOffset, viewRadius.mul viewMarkerScale, sourceLabel⟩
  have hslot := Markers.slotInUse_addState M g.view
    ⟨.str s, latitude, longitude.sub viewOffset, viewRadius.mul viewMarkerScale, sourceLabel⟩
  have hnew : Markers.slotInUse (Markers.addState M g.view
      ⟨.str s, latitude, longitude.sub viewOffset, viewRadius.mul viewMarkerScale,
        sourceLabel⟩) g.view.nextMarker = true := by
    rw [hslot, if_pos rfl]
    exact Markers.inUse_convert M _ hfin
  have hccn := (Markers.addState_slot M g.view
    ⟨.str s, latitude, longitude.sub viewOffset, viewRadius.mul viewMarkerScale,
      sourceLabel⟩).2.2
  have hother : ∀ i, i ≠ g.view.nextMarker →
      Markers.slotInUse (Markers.addState M g.view
        ⟨.str s, latitude, longitude.sub viewOffset, viewRadius.mul viewMarkerScale,
          sourceLabel⟩) i = Markers.slotInUse g.view i ∧
      (Markers.addState M g.view
        ⟨.str s, latitude, longitude.sub viewOffset, viewRadius.mul viewMarkerScale,
          sourceLabel⟩).countryCode i = g.view.countryCode i := by
    intro i hi
    exact ⟨by rw [hslot, if_neg hi], (Markers.addState_other M g.view _ hi).2.2⟩
  have hstep : step M g now (.addMarker (.str s) latitude longitude sourceLabel)
      = some
        { view := Markers.addState M g.view ⟨.str s, latitude, longitude.sub viewOffset,
            viewRadius.mul viewMarkerScale, sourceLabel⟩
          countries := Countries.inc
            (Countries.dec g.countries (g.view.countryCode g.view.nextMarker)) (.str s)
          updates := executeBoth g.updates now } := by
    simp only [step, addMarker, viewAddMarker, hadd]
  generalize Countries.inc
    (Countries.dec g.countries (g.view.countryCode g.view.nextMarker)) (.str s) = c2
    at hstep i1 i2 i3
  refine ⟨_, hstep, ⟨?_, ?_, ?_, ?_, ?_, ?_, ?_⟩, hmax⟩
  · exact Markers.WF_addState M h.wf _
  · dsimp only
    rw [hmax]
    exact hcap
  · exact i1
  · intro i hi hin
    simp only at hi hin ⊢
    by_cases e : i = g.view.nextMarker
    · subst e
      exact ⟨s, hs, hccn⟩
    · rw [(hother i e).1] at hin
      rw [(hother i e).2]
      exact h.coded i (by rw [hmax] at hi; exact hi) hin
  · left
    intro i hi hun
    simp only at hi hun ⊢
    have e : i ≠ g.view.nextMarker := by
      intro e
      rw [e, hnew] at hun
      exact absurd hun (by simp)
    rw [(hother i e).1] at hun
    rw [(hother i e).2]
    rw [hmax] at hi
    rcases h.idle with hl | ⟨h0, hr, hz⟩
    · exact hl i hi hun
    · exact hz i (by rw [h0] at e; omega) hi
  · intro key
    dsimp only
    have hu := keyCount_update g.view _ g.view.nextMarker hmax hn hother key
    rw [hnew, hccn] at hu
    rw [i3 key, d3 key]
    have hind : (if (true && decide (Countries.propertyKey (JSVal.str s) = key)) = true
        then 1 else 0 : Nat) = if s = key then 1 else 0 := by
      simp [Countries.propertyKey]
    rw [hind] at hu
    have hpk : (if (Markers.slotInUse g.view g.view.nextMarker
        && decide (Countries.propertyKey (g.view.countryCode g.view.nextMarker) = key)) = true
        then 1 else 0 : Nat) ≤ keyCount g.view key := by
      split_ifs with hc
      · simp only [Bool.and_eq_true, decide_eq_true_eq] at hc
        have := keyCount_pos g.view _ hn hc.1
        rw [hc.2] at this
        exact this
      · exact Nat.zero_le _
    by_cases e : s = key
    · rw [if_pos e] at hu ⊢
      omega
    · rw [if_neg e] at hu ⊢
      omega
  · dsimp only
    have hu := inUseCount_update g.view _ g.view.nextMarker hmax hn (fun i hi => (hother i hi).1)
    rw [hnew, if_pos rfl] at hu
    rw [i2, d2, h.total]
    have hp : (if Markers.slotInUse g.view g.view.nextMarker = true then 1 else 0 : Nat)
        ≤ inUseCount g.view := by
      split_ifs with hc
      · exact inUseCount_pos g.view _ hn hc
      · exact Nat.zero_le _
    omega


theorem consistent_removeMarker (M : MathEnv) {g : Controller} (h : Consistent g) (now : Nat)
    (key : Nat) (hk : key < g.view.maxMarker) :
    ∃ g1, step M g now (.removeMarker key) = some g1 ∧
      Consistent g1 ∧ g1.view.maxMarker = g.view.maxMarker := by
  have hrem := Markers.remove_eq h.wf hk
  obtain ⟨d1, d2, d3⟩ := dec_slot h key hk
  have hstep : step M g now (.removeMarker key)
      = some
        { view := Markers.removeState g.view key
          countries := Countries.dec g.countries (g.view.countryCode key)
          updates := executeBoth g.updates now } := by
    simp only [step, removeMarker, hrem, Markers.getCC]
  generalize Countries.dec g.countries (g.view.countryCode key) = c1 at hstep d1 d2 d3
  have hslot := Markers.slotInUse_removeState g.view key
  have hnew : Markers.slotInUse (Markers.removeState g.view key) key = false := by
    rw [hslot, if_pos rfl]
  have hccn : (Markers.removeState g.view key).countryCode key = .undefined := by
    simp [Markers.removeState]
  have hother : ∀ i, i ≠ key →
      Markers.slotInUse (Markers.removeState g.view key) i = Markers.slotInUse g.view i ∧
      (Markers.removeState g.view key).countryCode i = g.view.countryCode i := by
    intro i hi
    exact ⟨by rw [hslot, if_neg hi], by simp [Markers.removeState, Function.update_noteq hi]⟩
  have hmax : (Markers.removeState g.view key).maxMarker = g.view.maxMarker := rfl
  refine ⟨_, hstep, ⟨?_, ?_, ?_, ?_, ?_, ?_, ?_⟩, hmax⟩
  · exact Markers.WF_removeState h.wf key
  · exact h.cap
  · exact d1
  · intro i hi hin
    dsimp only at hi hin ⊢
    have e : i ≠ key := by
      intro e
      rw [e, hnew] at hin
      exact absurd hin (by simp)
    rw [(hother i e).1] at hin
    rw [(hother i e).2]
    exact h.coded i hi hin
  · dsimp only
    rcases h.idle with hl | ⟨h0, hr, hz⟩
    · left
      intro i hi hun
      by_cases e : i = key
      · rw [e]
        exact hccn
      · rw [(hother i e).1] at hun
        rw [(hother i e).2]
        exact hl i hi hun
    · right
      refine ⟨h0, fun i hi => ?_, fun i hi0 hi => ?_⟩
      · by_cases e : i = key
        · rw [e]
          exact hnew
        · rw [(hother i e).1]
          exact hr i hi
      · by_cases e : i = key
        · rw [e]
          exact hccn
        · rw [(hother i e).2]
          exact hz i hi0 hi
  · intro k
    dsimp only
    have hu := keyCount_update g.view _ key hmax hk hother k
    rw [hnew] at hu
    simp only [Bool.false_and, Bool.false_eq_true, if_false, Nat.add_zero] at hu
    rw [d3 k]
    omega
  · dsimp only
    have hu := inUseCount_update g.view _ key hmax hk (fun i hi => (hother i hi).1)
    rw [hnew] at hu
    simp only [Bool.false_eq_true, if_false, Nat.add_zero] at hu
    rw [d2, h.total]
    omega

theorem consistent_reset (M : MathEnv) {g : Controller} (h : Consistent g) (now : Nat) :
    ∃ g1, step M g now .reset = some g1 ∧
      Consistent g1 ∧ g1.view.maxMarker = g.view.maxMarker := by
  have hres := Markers.reset_eq h.wf
  obtain ⟨r1, r2, r3⟩ := reset_counts h.shape
  have hstep : step M g now .reset
      = some
        { view := Markers.resetState g.view g.view.maxMarker
          countries := Countries.reset g.countries
          updates := executeBoth g.updates now } := by
    simp only [step, reset, hres]
  generalize Countries.reset g.countries = c1 at hstep r1 r2 r3
  have hmax : (Markers.resetState g.view g.view.maxMarker).maxMarker = g.view.maxMarker := rfl
  have hun : ∀ i, i < (Markers.resetState g.view g.view.maxMarker).maxMarker →
      Markers.slotInUse (Markers.resetState g.view g.view.maxMarker) i = false :=
    fun i hi => Markers.slotInUse_resetState g.view i hi
  refine ⟨_, hstep, ⟨?_, ?_, ?_, ?_, ?_, ?_, ?_⟩, hmax⟩
  · exact Markers.WF_resetState h.wf
  · exact h.cap
  · exact r1
  · intro i hi hin
    dsimp only at hi hin
    rw [hun i hi] at hin
    exact absurd hin (by simp)
  · left
    intro i hi _
    dsimp only at hi ⊢
    have hi1 : i < g.view.maxMarker := hi
    simp [Markers.resetState, hi1]
  · intro k
    dsimp only
    rw [r3 k, keyCount_eq_zero]
    · rfl
    · intro i hi hin
      rw [hun i hi] at hin
      exact absurd hin (by simp)
  · dsimp only
    rw [r2, inUseCount_eq_zero _ hun]
    rfl

theorem consistent_run (M : MathEnv) (calls : List (Nat × Call)) :
    ∀ g : Controller, Consistent g → (∀ p, p ∈ calls → p.2.admissible g.view.maxMarker) →
      ∃ g1, run M g calls = some g1 ∧ Consistent g1 ∧ g1.view.maxMarker = g.view.maxMarker := by
  induction calls with
  | nil => intro g h _; exact ⟨g, rfl, h, rfl⟩
  | cons p calls ih =>
    intro g h hadm
    obtain ⟨now, call⟩ := p
    have hp : call.admissible g.view.maxMarker := hadm (now, call) (by simp)
    have hstep : ∃ g1, step M g now call = some g1 ∧ Consistent g1 ∧
        g1.view.maxMarker = g.view.maxMarker := by
      cases call with
      | addMarker cc latitude longitude sourceLabel =>
        exact consistent_addMarker M h now cc latitude longitude sourceLabel hp
      | removeMarker key => exact consistent_removeMarker M h now key hp
      | reset => exact consistent_reset M h now
    obtain ⟨g1, e1, c1, m1⟩ := hstep
    obtain ⟨g2, e2, c2, m2⟩ := ih g1 c1 (fun q hq => by
      rw [m1]
      exact hadm q (by simp [hq]))
    exact ⟨g2, by simp only [run, e1, e2], c2, m2.trans m1⟩

theorem codeCount_eq_keyCount {g : Controller} (h : Consistent g) (s : String) :
    codeCount g.view (.str s) = keyCount g.view s := by
  unfold codeCount keyCount
  apply List.countP_congr
  intro i hi
  rw [List.mem_range] at hi
  by_cases hin : Markers.slotInUse g.view i = true
  · obtain ⟨s1, _, hcc⟩ := h.coded i hi hin
    simp [hin, hcc, Countries.propertyKey]
  · simp [hin]

/-- C28: after every sequence of calls of `addMarker`, `removeMarker` and
`reset` on the globe (country codes of the code table, finite coordinates,
keys of `removeMarker` below the capacity) every call returns, and then
`countries.getAllMarkers()` is the number of marker slots in use and, at every
index of the code table, `countries.getMarkers` is the number of slots in use
that carry that code. -/
theorem C28_counters_match_markers (M : MathEnv) (viewOptions : MarkerOptions)
    (hu : Markers.usable viewOptions) (g0 : Update.Globals) (calls : List (Nat × Call))
    (hadm : ∀ p, p ∈ calls → p.2.admissible (Markers.init viewOptions).maxMarker) :
    ∃ g, run M (onLoad M viewOptions g0) calls = some g ∧
      Countries.getAllMarkers g.countries = (inUseCount g.view : Int) ∧
      ∀ i, i < 256 →
        Countries.getMarkers g.countries i = (codeCount g.view (Countries.getCC i) : Int) := by
  obtain ⟨g, hrun, h, _⟩ := consistent_run M calls (onLoad M viewOptions g0)
    (consistent_onLoad M viewOptions hu g0) hadm
  refine ⟨g, hrun, h.total, fun i hi => ?_⟩
  obtain ⟨s, hs, _, hkey⟩ := Countries.getCC_eq i hi
  have hle := keyCount_le g.view s
  have hcap := h.cap
  unfold Countries.getMarkers
  rw [hkey, hs, codeCount_eq_keyCount h s,
    orZero_eq_getD _ (by rw [h.counts]; omega) (by rw [h.counts]; omega), h.counts]


set_option maxRecDepth 8192 in
theorem us_de_in_code : "US" ∈ Countries.code ∧ "DE" ∈ Countries.code := by decide

/-- C28, at capacity `2`: adds for `US`, `DE` and `US` (the third evicts the
first), then `removeMarker(1)` twice (the second on a slot that is already
unused). -/
theorem C28_counters_match_markers_witness :
    Markers.usable ⟨some 2, none⟩ ∧
    (∀ p, p ∈ exampleCalls → p.2.admissible (Markers.init ⟨some 2, none⟩).maxMarker) ∧
    ∃ g, run Markers.exampleMath (onLoad Markers.exampleMath ⟨some 2, none⟩ ⟨false⟩)
        exampleCalls = some g ∧
      Countries.getAllMarkers g.countries = (inUseCount g.view : Int) ∧
      ∀ i, i < 256 →
        Countries.getMarkers g.countries i = (codeCount g.view (Countries.getCC i) : Int) :=
  have hadm : ∀ p, p ∈ exampleCalls →
      p.2.admissible (Markers.init ⟨some 2, none⟩).maxMarker := by
    intro p hp
    simp only [exampleCalls, List.mem_cons, List.mem_singleton, List.mem_nil_iff,
      or_false] at hp
    rcases hp with e | e | e | e | e <;> rw [e]
    · exact ⟨⟨"US", us_de_in_code.1, rfl⟩, rfl, rfl⟩
    · exact ⟨⟨"DE", us_de_in_code.2, rfl⟩, rfl, rfl⟩
    · exact ⟨⟨"US", us_de_in_code.1, rfl⟩, rfl, rfl⟩
    · show 1 < (Markers.init ⟨some 2, none⟩).maxMarker
      decide
    · show 1 < (Markers.init ⟨some 2, none⟩).maxMarker
      decide
  ⟨by decide, hadm,
    C28_counters_match_markers Markers.exampleMath ⟨some 2, none⟩ (by decide) ⟨false⟩
      exampleCalls hadm⟩

end Main

/-! ## Properties of double arithmetic -/

namespace Float64

theorem roundHalfEven_cases {K : Type} [LinearOrderedField K] [FloorRing K] (m : K) :
    (roundHalfEven m = ⌊m⌋ ∧ m - (⌊m⌋ : Int) ≤ 1 / 2) ∨
    (roundHalfEven m = ⌊m⌋ + 1 ∧ 1 / 2 ≤ m - (⌊m⌋ : Int)) := by
  unfold roundHalfEven
  split_ifs with h1 h2 h3
  · exact Or.inl ⟨rfl, le_of_lt h1⟩
  · exact Or.inr ⟨rfl, le_of_lt h2⟩
  · exact Or.inl ⟨rfl, not_lt.mp h2⟩
  · exact Or.inr ⟨rfl, not_lt.mp h1⟩

theorem roundHalfEven_nearest {K : Type} [LinearOrderedField K] [FloorRing K] (m : K) (k : Int) :
    |(roundHalfEven m : K) - m| ≤ |(k : K) - m| := by
  have hf0 : ((⌊m⌋ : Int) : K) ≤ m := Int.floor_le m
  have hf1 : m < ((⌊m⌋ : Int) : K) + 1 := Int.lt_floor_add_one m
  rcases le_or_lt k ⌊m⌋ with hk | hk
  · have hk1 : (k : K) ≤ ((⌊m⌋ : Int) : K) := by exact_mod_cast hk
    rw [abs_of_nonpos (by linarith : (k : K) - m ≤ 0)]
    rcases roundHalfEven_cases m with ⟨hr, h⟩ | ⟨hr, h⟩
    · rw [hr, abs_of_nonpos (by linarith)]
      linarith
    · rw [hr]
      push_cast
      rw [abs_of_nonneg (by linarith)]
      linarith
  · have hk1 : ((⌊m⌋ : Int) : K) + 1 ≤ (k : K) := by exact_mod_cast hk
    rw [abs_of_nonneg (by linarith : 0 ≤ (k : K) - m)]
    rcases roundHalfEven_cases m with ⟨hr, h⟩ | ⟨hr, h⟩
    · rw [hr, abs_of_nonpos (by linarith)]
      linarith
    · rw [hr]
      push_cast
      rw [abs_of_nonneg (by linarith)]
      linarith

theorem roundHalfEven_intCast {K : Type} [LinearOrderedField K] [FloorRing K] (k : Int) : roundHalfEven (k : K) = k := by
  have h := roundHalfEven_nearest (k : K) k
  rw [sub_self, abs_zero] at h
  have h0 : (roundHalfEven (k : K) : K) - k = 0 := abs_eq_zero.mp (le_antisymm h (abs_nonneg _))
  have : (roundHalfEven (k : K) : K) = (k : K) := by linarith
  exact_mod_cast this

theorem roundHalfEven_mono {K : Type} [LinearOrderedField K] [FloorRing K] {a b : K} (h : a ≤ b) : roundHalfEven a ≤ roundHalfEven b := by
  have hfl : ⌊a⌋ ≤ ⌊b⌋ := Int.floor_mono h
  rcases lt_or_eq_of_le hfl with hlt | heq
  · have h1 : roundHalfEven a ≤ ⌊a⌋ + 1 := by
      rcases roundHalfEven_cases a with ⟨hr, _⟩ | ⟨hr, _⟩ <;> omega
    have h2 : ⌊b⌋ ≤ roundHalfEven b := by
      rcases roundHalfEven_cases b with ⟨hr, _⟩ | ⟨hr, _⟩ <;> omega
    omega
  · unfold roundHalfEven
    rw [heq]
    split_ifs <;> first | omega | (exfalso; linarith)

theorem roundHalfEven_le {K : Type} [LinearOrderedField K] [FloorRing K] {m : K} {n : Int} (h : m ≤ n) : roundHalfEven m ≤ n := by
  have := roundHalfEven_mono h
  rwa [roundHalfEven_intCast] at this

theorem le_roundHalfEven {K : Type} [LinearOrderedField K] [FloorRing K] {m : K} {n : Int} (h : (n : K) ≤ m) : n ≤ roundHalfEven m := by
  have := roundHalfEven_mono h
  rwa [roundHalfEven_intCast] at this

theorem two_zpow_pos {K : Type} [LinearOrderedField K] (e : Int) : (0 : K) < (2 : K) ^ e := zpow_pos (by norm_num) e

theorem two_zpow_le {K : Type} [LinearOrderedField K] {a b : Int} (h : a ≤ b) : (2 : K) ^ a ≤ (2 : K) ^ b :=
  zpow_le_zpow_right₀ (by norm_num) h

theorem binade {K : Type} [LinearOrderedField K] [FloorRing K] {x : K} (hx : 0 < x) :
    (2 : K) ^ Int.log 2 x ≤ x ∧ x < (2 : K) ^ (Int.log 2 x + 1) := by
  have h1 := @Int.zpow_log_le_self K _ _ 2 x (by norm_num) hx
  have h2 := @Int.lt_zpow_succ_log_self K _ _ 2 (by norm_num) x
  simp only [Nat.cast_ofNat] at h1 h2
  exact ⟨h1, h2⟩

theorem log_eq {K : Type} [LinearOrderedField K] [FloorRing K] {x : K} {e : Int} (h1 : (2 : K) ^ e ≤ x) (h2 : x < (2 : K) ^ (e + 1)) :
    Int.log 2 x = e := by
  have hx : 0 < x := lt_of_lt_of_le (two_zpow_pos e) h1
  have a := (@Int.zpow_le_iff_le_log K _ _ 2 (by norm_num) e x hx).mp (by simpa using h1)
  have b := (@Int.lt_zpow_iff_log_lt K _ _ 2 (by norm_num) (e + 1) x hx).mp
    (by simpa using h2)
  omega


theorem roundHalfEven_abs_le {K : Type} [LinearOrderedField K] [FloorRing K] (m : K) :
    |(roundHalfEven m : K) - m| ≤ 1 / 2 := by
  have hf0 : ((⌊m⌋ : Int) : K) ≤ m := Int.floor_le m
  have hf1 : m < ((⌊m⌋ : Int) : K) + 1 := Int.lt_floor_add_one m
  rcases roundHalfEven_cases m with ⟨hr, h⟩ | ⟨hr, h⟩
  · rw [hr, abs_of_nonpos (by linarith)]
    linarith
  · rw [hr]
    push_cast
    rw [abs_of_nonneg (by linarith)]
    linarith

theorem ulp_pos {K : Type} [LinearOrderedField K] [FloorRing K] (x : K) : 0 < ulp x :=
  two_zpow_pos _

theorem ulp_of_log {K : Type} [LinearOrderedField K] [FloorRing K] {x : K} {e : Int}
    (h : Int.log 2 x = e) : ulp x = (2 : K) ^ (e - 52) := by
  unfold ulp
  rw [h]

theorem low_mul (K : Type) [LinearOrderedField K] (e : Int) :
    ((4503599627370496 : Int) : K) * (2 : K) ^ (e - 52) = (2 : K) ^ e := by
  rw [zpow_sub₀ (by norm_num : (2 : K) ≠ 0)]
  have h : (2 : K) ^ (52 : Int) = 4503599627370496 := by norm_num
  rw [h]
  push_cast
  field_simp

theorem high_mul (K : Type) [LinearOrderedField K] (e : Int) :
    ((9007199254740992 : Int) : K) * (2 : K) ^ (e - 52) = (2 : K) ^ (e + 1) := by
  rw [zpow_sub₀ (by norm_num : (2 : K) ≠ 0), zpow_add₀ (by norm_num : (2 : K) ≠ 0)]
  have h : (2 : K) ^ (52 : Int) = 4503599627370496 := by norm_num
  rw [h]
  push_cast
  field_simp
  ring

/-- The scaled significand of a positive number lies between `2^52` and
`2^53`, and so does its rounding. -/
theorem significand_bounds {K : Type} [LinearOrderedField K] [FloorRing K] {x : K}
    (hx : 0 < x) :
    ((4503599627370496 : Int) : K) ≤ x / ulp x ∧ x / ulp x < ((9007199254740992 : Int) : K) ∧
    4503599627370496 ≤ roundHalfEven (x / ulp x) ∧
    roundHalfEven (x / ulp x) ≤ 9007199254740992 := by
  obtain ⟨h1, h2⟩ := binade hx
  have hu := ulp_pos x
  have a : ((4503599627370496 : Int) : K) ≤ x / ulp x := by
    rw [le_div_iff₀ hu]
    unfold ulp
    rw [low_mul]
    exact h1
  have b : x / ulp x < ((9007199254740992 : Int) : K) := by
    rw [div_lt_iff₀ hu]
    unfold ulp
    rw [high_mul]
    exact h2
  exact ⟨a, b, le_roundHalfEven a, roundHalfEven_le (le_of_lt b)⟩

theorem roundPos_bounds {K : Type} [LinearOrderedField K] [FloorRing K] {x : K} (hx : 0 < x) :
    (2 : K) ^ Int.log 2 x ≤ roundPos x ∧ roundPos x ≤ (2 : K) ^ (Int.log 2 x + 1) := by
  obtain ⟨_, _, c, d⟩ := significand_bounds hx
  have hu := ulp_pos x
  have c1 : ((4503599627370496 : Int) : K) ≤ (roundHalfEven (x / ulp x) : K) := by
    exact_mod_cast c
  have d1 : (roundHalfEven (x / ulp x) : K) ≤ ((9007199254740992 : Int) : K) := by
    exact_mod_cast d
  constructor
  · rw [← low_mul K (Int.log 2 x)]
    exact mul_le_mul_of_nonneg_right c1 (le_of_lt hu)
  · rw [← high_mul K (Int.log 2 x)]
    exact mul_le_mul_of_nonneg_right d1 (le_of_lt hu)

theorem roundPos_pos {K : Type} [LinearOrderedField K] [FloorRing K] {x : K} (hx : 0 < x) :
    0 < roundPos x :=
  lt_of_lt_of_le (two_zpow_pos _) (roundPos_bounds hx).1

/-- The rounding of a positive number is at least as near to it as every
multiple of the unit in the last place. -/
theorem roundPos_nearest_multiple {K : Type} [LinearOrderedField K] [FloorRing K] (x : K)
    (k : Int) : |roundPos x - x| ≤ |(k : K) * ulp x - x| := by
  have hu := ulp_pos x
  have h := roundHalfEven_nearest (x / ulp x) k
  have e1 : roundPos x - x = ((roundHalfEven (x / ulp x) : K) - x / ulp x) * ulp x := by
    unfold roundPos
    field_simp
  have e2 : (k : K) * ulp x - x = ((k : K) - x / ulp x) * ulp x := by
    field_simp
  rw [e1, e2, abs_mul, abs_mul, abs_of_pos hu]
  exact mul_le_mul_of_nonneg_right h (le_of_lt hu)

theorem roundPos_half {K : Type} [LinearOrderedField K] [FloorRing K] {x : K} (hx : 0 < x) :
    |roundPos x - x| ≤ x / 2 := by
  have hu := ulp_pos x
  have h := roundHalfEven_abs_le (x / ulp x)
  have e1 : roundPos x - x = ((roundHalfEven (x / ulp x) : K) - x / ulp x) * ulp x := by
    unfold roundPos
    field_simp
  have hle : ulp x ≤ x := by
    unfold ulp
    exact (two_zpow_le (by omega)).trans (binade hx).1
  rw [e1, abs_mul, abs_of_pos hu]
  calc |(roundHalfEven (x / ulp x) : K) - x / ulp x| * ulp x
      ≤ 1 / 2 * ulp x := mul_le_mul_of_nonneg_right h (le_of_lt hu)
    _ ≤ 1 / 2 * x := by linarith
    _ = x / 2 := by ring

/-- A number with a significand of 53 bits is a double. -/
theorem roundPos_of_significand {K : Type} [LinearOrderedField K] [FloorRing K] (k e : Int)
    (h1 : 4503599627370496 ≤ k) (h2 : k < 9007199254740992) :
    roundPos ((k : K) * (2 : K) ^ (e - 52)) = (k : K) * (2 : K) ^ (e - 52) := by
  have hp := two_zpow_pos (K := K) (e - 52)
  have k1 : ((4503599627370496 : Int) : K) ≤ (k : K) := by exact_mod_cast h1
  have k2 : (k : K) < ((9007199254740992 : Int) : K) := by exact_mod_cast h2
  have hlog : Int.log 2 ((k : K) * (2 : K) ^ (e - 52)) = e := by
    apply log_eq
    · rw [← low_mul K e]
      exact mul_le_mul_of_nonneg_right k1 (le_of_lt hp)
    · rw [← high_mul K e]
      exact mul_lt_mul_of_pos_right k2 hp
  unfold roundPos
  rw [ulp_of_log hlog, mul_div_assoc, div_self (ne_of_gt hp), mul_one, roundHalfEven_intCast]

theorem roundPos_roundPos {K : Type} [LinearOrderedField K] [FloorRing K] {x : K}
    (hx : 0 < x) : roundPos (roundPos x) = roundPos x := by
  obtain ⟨_, _, c, d⟩ := significand_bounds hx
  rcases lt_or_eq_of_le d with hlt | heq
  · have := roundPos_of_significand (K := K) (roundHalfEven (x / ulp x)) (Int.log 2 x) c hlt
    unfold roundPos at this ⊢
    unfold ulp at this ⊢
    exact this
  · have e1 : roundPos x = ((4503599627370496 : Int) : K) * (2 : K) ^ (Int.log 2 x + 1 - 52) := by
      unfold roundPos
      rw [heq, low_mul]
      unfold ulp
      rw [high_mul]
    rw [e1]
    exact roundPos_of_significand _ _ (by norm_num) (by norm_num)

theorem roundPos_mono {K : Type} [LinearOrderedField K] [FloorRing K] {x y : K} (hx : 0 < x)
    (h : x ≤ y) : roundPos x ≤ roundPos y := by
  have hy : 0 < y := lt_of_lt_of_le hx h
  have hlog : Int.log 2 x ≤ Int.log 2 y := Int.log_mono_right hx h
  rcases lt_or_eq_of_le hlog with hlt | heq
  · calc roundPos x ≤ (2 : K) ^ (Int.log 2 x + 1) := (roundPos_bounds hx).2
      _ ≤ (2 : K) ^ Int.log 2 y := two_zpow_le (by omega)
      _ ≤ roundPos y := (roundPos_bounds hy).1
  · have hu : ulp x = ulp y := by
      unfold ulp
      rw [heq]
    have hpos := ulp_pos y
    unfold roundPos
    rw [hu]
    apply mul_le_mul_of_nonneg_right _ (le_of_lt hpos)
    have : roundHalfEven (x / ulp y) ≤ roundHalfEven (y / ulp y) :=
      roundHalfEven_mono (div_le_div_of_nonneg_right h (le_of_lt hpos))
    exact_mod_cast this


theorem toDouble_of_pos {K : Type} [LinearOrderedField K] [FloorRing K] {x : K} (hx : 0 < x) :
    toDouble x = roundPos x := by
  unfold toDouble
  rw [if_pos hx]

theorem toDouble_of_neg {K : Type} [LinearOrderedField K] [FloorRing K] {x : K} (hx : x < 0) :
    toDouble x = -roundPos (-x) := by
  unfold toDouble
  rw [if_neg (not_lt.mpr (le_of_lt hx)), if_pos hx]

theorem toDouble_zero {K : Type} [LinearOrderedField K] [FloorRing K] : toDouble (0 : K) = 0 := by
  unfold toDouble
  simp

theorem toDouble_neg {K : Type} [LinearOrderedField K] [FloorRing K] (x : K) :
    toDouble (-x) = -toDouble x := by
  rcases lt_trichotomy x 0 with h | h | h
  · rw [toDouble_of_neg h, toDouble_of_pos (neg_pos.mpr h), neg_neg]
  · rw [h, neg_zero, toDouble_zero, neg_zero]
  · rw [toDouble_of_pos h, toDouble_of_neg (neg_neg_of_pos h), neg_neg]

theorem toDouble_pos {K : Type} [LinearOrderedField K] [FloorRing K] {x : K} (hx : 0 < x) :
    0 < toDouble x := by
  rw [toDouble_of_pos hx]
  exact roundPos_pos hx

theorem toDouble_mono {K : Type} [LinearOrderedField K] [FloorRing K] {x y : K} (h : x ≤ y) :
    toDouble x ≤ toDouble y := by
  rcases lt_trichotomy x 0 with hx | hx | hx
  · rcases lt_trichotomy y 0 with hy | hy | hy
    · rw [toDouble_of_neg hx, toDouble_of_neg hy]
      exact neg_le_neg (roundPos_mono (neg_pos.mpr hy) (neg_le_neg h))
    · rw [hy, toDouble_zero, toDouble_of_neg hx]
      exact le_of_lt (neg_neg_of_pos (roundPos_pos (neg_pos.mpr hx)))
    · rw [toDouble_of_neg hx]
      exact le_of_lt (lt_trans (neg_neg_of_pos (roundPos_pos (neg_pos.mpr hx))) (toDouble_pos hy))
  · have hy : 0 ≤ y := by rw [← hx]; exact h
    rw [hx, toDouble_zero]
    rcases lt_or_eq_of_le hy with hy | hy
    · exact le_of_lt (toDouble_pos hy)
    · rw [← hy, toDouble_zero]
  · rw [toDouble_of_pos hx, toDouble_of_pos (lt_of_lt_of_le hx h)]
    exact roundPos_mono hx h

theorem toDouble_toDouble {K : Type} [LinearOrderedField K] [FloorRing K] (x : K) :
    toDouble (toDouble x) = toDouble x := by
  rcases lt_trichotomy x 0 with h | h | h
  · rw [toDouble_of_neg h, toDouble_neg, toDouble_of_pos (roundPos_pos (neg_pos.mpr h)),
      roundPos_roundPos (neg_pos.mpr h)]
  · rw [h, toDouble_zero, toDouble_zero]
  · rw [toDouble_of_pos h, toDouble_of_pos (roundPos_pos h), roundPos_roundPos h]

theorem toDouble_half {K : Type} [LinearOrderedField K] [FloorRing K] (x : K) :
    |toDouble x - x| ≤ |x| / 2 := by
  rcases lt_trichotomy x 0 with h | h | h
  · rw [toDouble_of_neg h, abs_of_neg h]
    have := roundPos_half (neg_pos.mpr h)
    rw [show -roundPos (-x) - x = -(roundPos (-x) - -x) by ring, abs_neg]
    exact this
  · rw [h, toDouble_zero]
    simp
  · rw [toDouble_of_pos h, abs_of_pos h]
    exact roundPos_half h

theorem roundPos_nearest {K : Type} [LinearOrderedField K] [FloorRing K] {x : K} (hx : 0 < x)
    (f : K) (hf : toDouble f = f) : |roundPos x - x| ≤ |f - x| := by
  obtain ⟨h1, h2⟩ := binade hx
  rcases le_or_lt f ((2 : K) ^ Int.log 2 x) with hlow | hlow
  · have h := roundPos_nearest_multiple x 4503599627370496
    unfold ulp at h
    rw [low_mul, abs_of_nonpos (by linarith : (2 : K) ^ Int.log 2 x - x ≤ 0)] at h
    rw [abs_of_nonpos (by linarith : f - x ≤ 0)]
    linarith
  · rcases le_or_lt ((2 : K) ^ (Int.log 2 x + 1)) f with hhigh | hhigh
    · have h := roundPos_nearest_multiple x 9007199254740992
      unfold ulp at h
      rw [high_mul, abs_of_nonneg (by linarith : 0 ≤ (2 : K) ^ (Int.log 2 x + 1) - x)] at h
      rw [abs_of_nonneg (by linarith : 0 ≤ f - x)]
      linarith
    · have hf0 : 0 < f := lt_trans (two_zpow_pos _) hlow
      have hlog : Int.log 2 f = Int.log 2 x := log_eq (le_of_lt hlow) hhigh
      have hu : ulp f = ulp x := by
        unfold ulp
        rw [hlog]
      rw [toDouble_of_pos hf0] at hf
      have hm : f = (roundHalfEven (f / ulp f) : K) * ulp x := by
        unfold roundPos at hf
        rw [hu] at hf
        rw [hu]
        exact hf.symm
      have h := roundPos_nearest_multiple x (roundHalfEven (f / ulp f))
      rw [← hm] at h
      exact h

/-- Rounding goes to a nearest double: no double is nearer to `x` than the
rounding of `x`. -/
theorem toDouble_nearest {K : Type} [LinearOrderedField K] [FloorRing K] (x f : K)
    (hf : toDouble f = f) : |toDouble x - x| ≤ |f - x| := by
  rcases lt_trichotomy x 0 with h | h | h
  · rw [toDouble_of_neg h]
    have hf1 : toDouble (-f) = -f := by rw [toDouble_neg, hf]
    have := roundPos_nearest (neg_pos.mpr h) (-f) hf1
    rw [show -roundPos (-x) - x = -(roundPos (-x) - -x) by ring, abs_neg,
      show f - x = -(-f - -x) by ring, abs_neg]
    exact this
  · rw [h, toDouble_zero, sub_self, abs_zero]
    exact abs_nonneg _
  · rw [toDouble_of_pos h]
    exact roundPos_nearest h f hf

end Float64

/-! ## Properties of the position in double arithmetic -/

namespace Position

theorem toDouble_nonneg {K : Type} [LinearOrderedField K] [FloorRing K] {x : K} (h : 0 ≤ x) :
    0 ≤ Float64.toDouble x := by
  have := Float64.toDouble_mono h
  rwa [Float64.toDouble_zero] at this

theorem abs_toDouble_le {K : Type} [LinearOrderedField K] [FloorRing K] {a b : K}
    (h : |a| ≤ |b|) : |Float64.toDouble a| ≤ |Float64.toDouble b| := by
  have key : ∀ x : K, |Float64.toDouble x| = Float64.toDouble |x| := by
    intro x
    rcases le_or_lt 0 x with hx | hx
    · rw [abs_of_nonneg hx, abs_of_nonneg (toDouble_nonneg hx)]
    · rw [abs_of_neg hx, Float64.toDouble_neg, abs_of_nonpos]
      have := toDouble_nonneg (le_of_lt (neg_pos.mpr hx))
      rw [Float64.toDouble_neg] at this
      linarith
  rw [key a, key b]
  exact Float64.toDouble_mono h

/-- One component of `doStep` in double arithmetic, for a target not below the
current value: the new current value is a double, and the new difference is
not larger than the old one. -/
theorem component_step_up {K : Type} [LinearOrderedField K] [FloorRing K] (c t w : K)
    (hc : Float64.toDouble c = c) (ht : Float64.toDouble t = t) (hw0 : 0 < w) (hw1 : w ≤ 1)
    (hct : c ≤ t) :
    |t - Float64.toDouble (c + Float64.toDouble (Float64.toDouble (t - c) * w))| ≤ |t - c| := by
  have hd0 : 0 ≤ Float64.toDouble (t - c) := toDouble_nonneg (by linarith)
  have hp0 : 0 ≤ Float64.toDouble (Float64.toDouble (t - c) * w) :=
    toDouble_nonneg (mul_nonneg hd0 (le_of_lt hw0))
  have hp1 : Float64.toDouble (Float64.toDouble (t - c) * w) ≤ Float64.toDouble (t - c) := by
    have : Float64.toDouble (t - c) * w ≤ Float64.toDouble (t - c) := by
      calc Float64.toDouble (t - c) * w ≤ Float64.toDouble (t - c) * 1 :=
            mul_le_mul_of_nonneg_left hw1 hd0
        _ = Float64.toDouble (t - c) := mul_one _
    have := Float64.toDouble_mono this
    rwa [Float64.toDouble_toDouble] at this
  have hlow : c ≤ Float64.toDouble (c + Float64.toDouble (Float64.toDouble (t - c) * w)) := by
    have := Float64.toDouble_mono
      (by linarith : c ≤ c + Float64.toDouble (Float64.toDouble (t - c) * w))
    rwa [hc] at this
  have hhalf := Float64.toDouble_half (t - c)
  rw [abs_of_nonneg (by linarith : 0 ≤ t - c)] at hhalf ⊢
  have hde := abs_le.mp hhalf
  rw [abs_le]
  constructor
  · rcases le_or_lt (c + Float64.toDouble (Float64.toDouble (t - c) * w)) t with hs | hs
    · have := Float64.toDouble_mono hs
      rw [ht] at this
      linarith
    · have hn := Float64.toDouble_nearest
        (c + Float64.toDouble (Float64.toDouble (t - c) * w)) t ht
      rw [abs_of_neg (by linarith : t - (c + Float64.toDouble (Float64.toDouble (t - c) * w)) < 0)]
        at hn
      have := (abs_le.mp hn).2
      linarith
  · linarith

/-- One component of `doStep` in double arithmetic: the new difference is not
larger than the old one. -/
theorem component_step {K : Type} [LinearOrderedField K] [FloorRing K] (c t w : K)
    (hc : Float64.toDouble c = c) (ht : Float64.toDouble t = t) (hw0 : 0 < w) (hw1 : w ≤ 1) :
    |t - Float64.toDouble (c + Float64.toDouble (Float64.toDouble (t - c) * w))| ≤ |t - c| := by
  rcases le_total c t with h | h
  · exact component_step_up c t w hc ht hw0 hw1 h
  · have hc1 : Float64.toDouble (-c) = -c := by rw [Float64.toDouble_neg, hc]
    have ht1 : Float64.toDouble (-t) = -t := by rw [Float64.toDouble_neg, ht]
    have := component_step_up (-c) (-t) w hc1 ht1 hw0 hw1 (by linarith)
    have e1 : -t - -c = -(t - c) := by ring
    rw [e1, Float64.toDouble_neg, neg_mul, Float64.toDouble_neg, ← neg_add, Float64.toDouble_neg,
      abs_neg] at this
    have e2 : -t - -Float64.toDouble (c + Float64.toDouble (Float64.toDouble (t - c) * w))
        = -(t - Float64.toDouble (c + Float64.toDouble (Float64.toDouble (t - c) * w))) := by
      ring
    rw [e2, abs_neg] at this
    exact this

end Position

namespace Position

theorem lengthDouble_mono {K : Type} [LinearOrderedField K] [FloorRing K] (sqrt : K → K)
    (hs : ∀ x y, x ≤ y → sqrt x ≤ sqrt y) (a b : Vec3 K)
    (hx : |a.x| ≤ |b.x|) (hy : |a.y| ≤ |b.y|) (hz : |a.z| ≤ |b.z|) :
    a.lengthDouble sqrt ≤ b.lengthDouble sqrt := by
  unfold Vec3.lengthDouble
  apply Float64.toDouble_mono
  apply hs
  apply Float64.toDouble_mono
  apply add_le_add
  · apply Float64.toDouble_mono
    apply add_le_add
    · exact Float64.toDouble_mono (abs_le_iff_mul_self_le.mp hx)
    · exact Float64.toDouble_mono (abs_le_iff_mul_self_le.mp hy)
  · exact Float64.toDouble_mono (abs_le_iff_mul_self_le.mp hz)

theorem lengthDouble_nonneg {K : Type} [LinearOrderedField K] [FloorRing K] (sqrt : K → K)
    (h0 : ∀ x, 0 ≤ sqrt x) (v : Vec3 K) : 0 ≤ v.lengthDouble sqrt :=
  toDouble_nonneg (h0 _)

theorem getErrorDouble_nonneg {K : Type} [LinearOrderedField K] [FloorRing K] (sqrt : K → K)
    (h0 : ∀ x, 0 ≤ sqrt x) (p : Position K) : 0 ≤ getErrorDouble sqrt p := by
  unfold getErrorDouble
  apply toDouble_nonneg
  apply div_nonneg (lengthDouble_nonneg sqrt h0 _)
  split_ifs
  · exact zero_le_one
  · exact lengthDouble_nonneg sqrt h0 _

theorem doStepDouble_fields {K : Type} [LinearOrderedField K] [FloorRing K] (p : Position K) :
    (doStepDouble p).2.targetPos = p.targetPos ∧ (doStepDouble p).2.weights = p.weights ∧
    (doStepDouble p).2.currentPos
      = p.currentPos.addDouble (Vec3.multiplyDouble p.difference p.weights) ∧
    (doStepDouble p).2.difference
      = Vec3.subVectorsDouble p.targetPos
          (p.currentPos.addDouble (Vec3.multiplyDouble p.difference p.weights)) :=
  ⟨rfl, rfl, rfl, rfl⟩

theorem inDoubles_doStep {K : Type} [LinearOrderedField K] [FloorRing K] {p : Position K}
    (h : InDoubles p) : InDoubles (doStepDouble p).2 :=
  ⟨⟨Float64.toDouble_toDouble _, Float64.toDouble_toDouble _, Float64.toDouble_toDouble _⟩,
    h.target, h.weights, rfl⟩

theorem inDoubles_steps {K : Type} [LinearOrderedField K] [FloorRing K] {p : Position K}
    (h : InDoubles p) (n : Nat) : InDoubles (stepsDouble n p) := by
  induction n with
  | zero => exact h
  | succ n ih => exact inDoubles_doStep ih

theorem stepsDouble_target {K : Type} [LinearOrderedField K] [FloorRing K] (p : Position K)
    (n : Nat) : (stepsDouble n p).targetPos = p.targetPos := by
  induction n with
  | zero => rfl
  | succ n ih => exact ih

/-- In double arithmetic a call of `doStep` does not make any component of the
difference larger. -/
theorem difference_doStepDouble {K : Type} [LinearOrderedField K] [FloorRing K]
    {p : Position K} (h : InDoubles p) :
    |(doStepDouble p).2.difference.x| ≤ |p.difference.x| ∧
    |(doStepDouble p).2.difference.y| ≤ |p.difference.y| ∧
    |(doStepDouble p).2.difference.z| ≤ |p.difference.z| := by
  obtain ⟨⟨wx0, wx1⟩, ⟨wy0, wy1⟩, ⟨wz0, wz1⟩⟩ := h.weights
  obtain ⟨cx, cy, cz⟩ := h.current
  obtain ⟨tx, ty, tz⟩ := h.target
  have hd := h.difference
  simp only [doStepDouble, updateDifferenceDouble, Vec3.subVectorsDouble, Vec3.addDouble,
    Vec3.multiplyDouble]
  rw [hd]
  simp only [Vec3.subVectorsDouble]
  exact ⟨abs_toDouble_le (component_step _ _ _ cx tx wx0 wx1),
    abs_toDouble_le (component_step _ _ _ cy ty wy0 wy1),
    abs_toDouble_le (component_step _ _ _ cz tz wz0 wz1)⟩

theorem getErrorDouble_doStep_le {K : Type} [LinearOrderedField K] [FloorRing K]
    (sqrt : K → K) (hs : ∀ x y, x ≤ y → sqrt x ≤ sqrt y) (h0 : ∀ x, 0 ≤ sqrt x)
    {p : Position K} (h : InDoubles p) :
    getErrorDouble sqrt (doStepDouble p).2 ≤ getErrorDouble sqrt p := by
  obtain ⟨dx, dy, dz⟩ := difference_doStepDouble h
  have hl := lengthDouble_mono sqrt hs _ _ dx dy dz
  unfold getErrorDouble
  apply Float64.toDouble_mono
  rw [(doStepDouble_fields p).1]
  apply div_le_div_of_nonneg_right hl
  split_ifs
  · exact zero_le_one
  · exact lengthDouble_nonneg sqrt h0 _

end Position

namespace Float64

theorem toDouble_two_zpow {K : Type} [LinearOrderedField K] [FloorRing K] (e : Int) :
    toDouble ((2 : K) ^ e) = (2 : K) ^ e := by
  rw [toDouble_of_pos (two_zpow_pos e)]
  have h := roundPos_of_significand (K := K) 4503599627370496 e (by norm_num) (by norm_num)
  rw [low_mul] at h
  exact h

theorem toDouble_one {K : Type} [LinearOrderedField K] [FloorRing K] :
    toDouble (1 : K) = 1 := by
  have h := toDouble_two_zpow (K := K) 0
  simpa using h

/-- The double next to `1`, which is `1 + 2^-52`, is a double. -/
theorem toDouble_one_add_ulp {K : Type} [LinearOrderedField K] [FloorRing K] :
    toDouble (1 + 1 / 4503599627370496 : K) = 1 + 1 / 4503599627370496 := by
  have e : (1 + 1 / 4503599627370496 : K)
      = ((4503599627370497 : Int) : K) * (2 : K) ^ ((0 : Int) - 52) := by
    norm_num
  have hp : (0 : K) < ((4503599627370497 : Int) : K) * (2 : K) ^ ((0 : Int) - 52) :=
    mul_pos (by norm_num) (two_zpow_pos _)
  rw [e, toDouble_of_pos hp]
  exact roundPos_of_significand _ _ (by norm_num) (by norm_num)

theorem toDouble_quarter_ulp {K : Type} [LinearOrderedField K] [FloorRing K] :
    toDouble (1 / 4503599627370496 * (1 / 4) : K) = 1 / 18014398509481984 := by
  have e : (1 / 4503599627370496 * (1 / 4) : K) = (2 : K) ^ (-54 : Int) := by norm_num
  have e1 : (1 / 18014398509481984 : K) = (2 : K) ^ (-54 : Int) := by norm_num
  rw [e, e1]
  exact toDouble_two_zpow _

theorem toDouble_ulp {K : Type} [LinearOrderedField K] [FloorRing K] :
    toDouble (1 / 4503599627370496 : K) = 1 / 4503599627370496 := by
  have e : (1 / 4503599627370496 : K) = (2 : K) ^ (-52 : Int) := by norm_num
  rw [e]
  exact toDouble_two_zpow _

/-- The sum `1 + 2^-54` is rounded to `1`. -/
theorem toDouble_one_add_quarter_ulp {K : Type} [LinearOrderedField K] [FloorRing K] :
    toDouble (1 + 1 / 18014398509481984 : K) = 1 := by
  have hx : (0 : K) < 1 + 1 / 18014398509481984 := by norm_num
  have hlog : Int.log 2 (1 + 1 / 18014398509481984 : K) = 0 := by
    apply log_eq <;> norm_num
  have hm : (1 + 1 / 18014398509481984 : K) / (2 : K) ^ ((0 : Int) - 52)
      = 4503599627370496 + 1 / 4 := by
    norm_num
  have hfl : ⌊(4503599627370496 + 1 / 4 : K)⌋ = 4503599627370496 := by
    rw [Int.floor_eq_iff]
    constructor <;> norm_num
  have hr : roundHalfEven (4503599627370496 + 1 / 4 : K) = 4503599627370496 := by
    unfold roundHalfEven
    rw [hfl, if_pos (by norm_num)]
  rw [toDouble_of_pos hx]
  unfold roundPos
  rw [ulp_of_log hlog, hm, hr]
  norm_num

end Float64

namespace Position

theorem inDoubles_initDouble {K : Type} [LinearOrderedField K] [FloorRing K]
    (options : Options K) (hc : isDoubleVector (init options).currentPos)
    (ht : isDoubleVector (init options).targetPos) : InDoubles (initDouble options) :=
  ⟨hc, ht, checkWeights_valid _, rfl⟩

theorem getErrorDouble_steps_le (p : Position ℝ) (h : InDoubles p) (n : Nat) :
    getErrorDouble Real.sqrt (stepsDouble (n + 1) p)
      ≤ getErrorDouble Real.sqrt (stepsDouble n p) :=
  getErrorDouble_doStep_le Real.sqrt (fun _ _ hxy => Real.sqrt_le_sqrt hxy) Real.sqrt_nonneg
    (inDoubles_steps h n)

/-- C13, amended: in double arithmetic, for every state whose weights lie in
`(0, 1]` and every fixed target, the errors that `getError()` returns after
`0, 1, 2, ...` calls of `doStep()` never increase and are never negative, so
that the error stays `0` once it is `0` (overflow apart: the exponent of a
double is taken as unbounded). -/
theorem C13_error_never_increases (p : Position ℝ) (h : InDoubles p) :
    (∀ n, getErrorDouble Real.sqrt (stepsDouble (n + 1) p)
      ≤ getErrorDouble Real.sqrt (stepsDouble n p)) ∧
    (∀ n, 0 ≤ getErrorDouble Real.sqrt (stepsDouble n p)) ∧
    (∀ n, getErrorDouble Real.sqrt (stepsDouble n p) = 0 →
      ∀ m, n ≤ m → getErrorDouble Real.sqrt (stepsDouble m p) = 0) := by
  have hle := getErrorDouble_steps_le p h
  have h0 : ∀ n, 0 ≤ getErrorDouble Real.sqrt (stepsDouble n p) :=
    fun n => getErrorDouble_nonneg Real.sqrt Real.sqrt_nonneg _
  refine ⟨hle, h0, fun n hn m hm => ?_⟩
  induction m, hm using Nat.le_induction with
  | base => exact hn
  | succ m _ ih => exact le_antisymm ((hle m).trans (le_of_eq ih)) (h0 (m + 1))

end Position

namespace Position

theorem doStepDouble_eq_self {K : Type} [LinearOrderedField K] [FloorRing K] (p : Position K)
    (h1 : p.currentPos.addDouble (Vec3.multiplyDouble p.difference p.weights) = p.currentPos)
    (h2 : Vec3.subVectorsDouble p.targetPos p.currentPos = p.difference) :
    (doStepDouble p).2 = p := by
  unfold doStepDouble updateDifferenceDouble
  simp only
  rw [h1, h2]

theorem stepsDouble_eq_self {K : Type} [LinearOrderedField K] [FloorRing K] (p : Position K)
    (h : (doStepDouble p).2 = p) (n : Nat) : stepsDouble n p = p := by
  induction n with
  | zero => rfl
  | succ n ih =>
    show (doStepDouble (stepsDouble n p)).2 = p
    rw [ih, h]

theorem lengthDouble_pos (v : Vec3 ℝ) (hx : v.x ≠ 0) : 0 < v.lengthDouble Real.sqrt := by
  unfold Vec3.lengthDouble
  apply Float64.toDouble_pos
  apply Real.sqrt_pos.mpr
  apply Float64.toDouble_pos
  have h1 : 0 < Float64.toDouble (v.x * v.x) := Float64.toDouble_pos (mul_self_pos.mpr hx)
  have h2 : 0 ≤ Float64.toDouble (v.y * v.y) := toDouble_nonneg (mul_self_nonneg _)
  have h3 : 0 ≤ Float64.toDouble (v.z * v.z) := toDouble_nonneg (mul_self_nonneg _)
  have h4 : 0 < Float64.toDouble (Float64.toDouble (v.x * v.x) + Float64.toDouble (v.y * v.y)) :=
    Float64.toDouble_pos (by linarith)
  linarith

theorem getErrorDouble_pos (p : Position ℝ) (hx : p.difference.x ≠ 0) :
    0 < getErrorDouble Real.sqrt p := by
  unfold getErrorDouble
  apply Float64.toDouble_pos
  apply div_pos (lengthDouble_pos _ hx)
  split_ifs with h
  · exact zero_lt_one
  · exact lt_of_le_of_ne (lengthDouble_nonneg Real.sqrt Real.sqrt_nonneg _) (Ne.symm h)

theorem getErrorDouble_of_difference_zero (p : Position ℝ) (h : p.difference = ⟨0, 0, 0⟩) :
    getErrorDouble Real.sqrt p = 0 := by
  unfold getErrorDouble Vec3.lengthDouble
  rw [h]
  simp [Float64.toDouble_zero]

theorem unit_fields :
    (initDouble (unitOptions : Options ℝ)).currentPos = ⟨0, 0, 0⟩ ∧
    (initDouble (unitOptions : Options ℝ)).targetPos = ⟨1, 0, 0⟩ ∧
    (initDouble (unitOptions : Options ℝ)).weights = ⟨1, 1, 1⟩ ∧
    (initDouble (unitOptions : Options ℝ)).difference = ⟨1, 0, 0⟩ := by
  have hc : (init (unitOptions : Options ℝ)).currentPos = ⟨0, 0, 0⟩ := by
    simp [init, unitOptions, updateDifference, clampTarget, ZEROS]
  have ht : (init (unitOptions : Options ℝ)).targetPos = ⟨1, 0, 0⟩ := by
    simp [init, unitOptions, updateDifference, clampTarget, Vec3.clamp, Vec3.clampComponent,
      MIN, MAX]
  have hw : (init (unitOptions : Options ℝ)).weights = ⟨1, 1, 1⟩ := by
    norm_num [init, unitOptions, updateDifference, clampTarget, checkWeights]
  refine ⟨hc, ht, hw, ?_⟩
  show Vec3.subVectorsDouble (init (unitOptions : Options ℝ)).targetPos
    (init (unitOptions : Options ℝ)).currentPos = _
  rw [hc, ht]
  simp [Vec3.subVectorsDouble, Float64.toDouble_zero, Float64.toDouble_one]

theorem stall_fields :
    (initDouble (stallOptions : Options ℝ)).currentPos = ⟨1, 0, 0⟩ ∧
    (initDouble (stallOptions : Options ℝ)).targetPos = ⟨1 + 1 / 4503599627370496, 0, 0⟩ ∧
    (initDouble (stallOptions : Options ℝ)).weights = ⟨1 / 4, 1 / 4, 1 / 4⟩ ∧
    (initDouble (stallOptions : Options ℝ)).difference = ⟨1 / 4503599627370496, 0, 0⟩ := by
  have hc : (init (stallOptions : Options ℝ)).currentPos = ⟨1, 0, 0⟩ := by
    simp [init, stallOptions, updateDifference, clampTarget]
  have ht : (init (stallOptions : Options ℝ)).targetPos
      = ⟨1 + 1 / 4503599627370496, 0, 0⟩ := by
    simp [init, stallOptions, updateDifference, clampTarget, Vec3.clamp, Vec3.clampComponent,
      MIN, MAX]
  have hw : (init (stallOptions : Options ℝ)).weights = ⟨1 / 4, 1 / 4, 1 / 4⟩ :=
    checkWeights_of_valid _ (by norm_num [validWeights, stallOptions])
  refine ⟨hc, ht, hw, ?_⟩
  show Vec3.subVectorsDouble (init (stallOptions : Options ℝ)).targetPos
    (init (stallOptions : Options ℝ)).currentPos = _
  rw [hc, ht]
  simp only [Vec3.subVectorsDouble, add_sub_cancel_left, sub_self, Float64.toDouble_zero,
    Float64.toDouble_ulp]

/-- C13, as stated, fails in two ways.  With the weights `(1, 1, 1)`, at rest
at the origin with the target `(1, 0, 0)`, the first `doStep()` reaches the
target: the errors after the first and after the second call are both `0`,
and the second is not strictly smaller.  And in double arithmetic the sequence
can stall above `0`: with the current position `(1, 0, 0)`, the target
`(1 + 2^-52, 0, 0)` and the weights `(1/4, 1/4, 1/4)` the sum
`current + difference * weights` is rounded to `current`, so that `doStep()`
leaves the state as it is and every call of `getError()` returns the same
positive error. -/
theorem C13_error_stays_zero_or_stalls :
    ((initDouble (unitOptions : Options ℝ)).targetPos
        ≠ (initDouble (unitOptions : Options ℝ)).currentPos ∧
      validWeights (initDouble (unitOptions : Options ℝ)).weights ∧
      getErrorDouble Real.sqrt (stepsDouble 1 (initDouble unitOptions)) = 0 ∧
      getErrorDouble Real.sqrt (stepsDouble 2 (initDouble unitOptions)) = 0 ∧
      ¬ getErrorDouble Real.sqrt (stepsDouble 2 (initDouble unitOptions))
        < getErrorDouble Real.sqrt (stepsDouble 1 (initDouble unitOptions))) ∧
    ((initDouble (stallOptions : Options ℝ)).targetPos
        ≠ (initDouble (stallOptions : Options ℝ)).currentPos ∧
      validWeights (initDouble (stallOptions : Options ℝ)).weights ∧
      (doStepDouble (initDouble (stallOptions : Options ℝ))).2 = initDouble stallOptions ∧
      0 < getErrorDouble Real.sqrt (initDouble stallOptions) ∧
      ∀ n, getErrorDouble Real.sqrt (stepsDouble n (initDouble stallOptions))
        = getErrorDouble Real.sqrt (initDouble stallOptions)) := by
  obtain ⟨uc, ut, uw, ud⟩ := unit_fields
  obtain ⟨sc, st, sw, sd⟩ := stall_fields
  constructor
  · have h1 : (stepsDouble 1 (initDouble (unitOptions : Options ℝ))).difference
        = ⟨0, 0, 0⟩ := by
      show Vec3.subVectorsDouble (initDouble (unitOptions : Options ℝ)).targetPos
        ((initDouble (unitOptions : Options ℝ)).currentPos.addDouble
          (Vec3.multiplyDouble (initDouble (unitOptions : Options ℝ)).difference
            (initDouble (unitOptions : Options ℝ)).weights)) = _
      rw [uc, ut, uw, ud]
      simp [Vec3.subVectorsDouble, Vec3.addDouble, Vec3.multiplyDouble, Float64.toDouble_zero,
        Float64.toDouble_one]
    have e1 := getErrorDouble_of_difference_zero _ h1
    have hin : InDoubles (initDouble (unitOptions : Options ℝ)) :=
      ⟨by rw [uc]; simp [isDoubleVector, Float64.toDouble_zero],
        by rw [ut]; simp [isDoubleVector, Float64.toDouble_zero, Float64.toDouble_one],
        checkWeights_valid _, rfl⟩
    have e2 : getErrorDouble Real.sqrt (stepsDouble 2 (initDouble (unitOptions : Options ℝ)))
        = 0 :=
      le_antisymm ((getErrorDouble_steps_le _ hin 1).trans (le_of_eq e1))
        (getErrorDouble_nonneg Real.sqrt Real.sqrt_nonneg _)
    refine ⟨?_, checkWeights_valid _, e1, e2, ?_⟩
    · rw [uc, ut]
      intro h
      have := congrArg Vec3.x h
      norm_num at this
    · rw [e1, e2]
      exact lt_irrefl 0
  · have hstep : (doStepDouble (initDouble (stallOptions : Options ℝ))).2
        = initDouble stallOptions := by
      apply doStepDouble_eq_self
      · rw [sc, sw, sd]
        simp only [Vec3.addDouble, Vec3.multiplyDouble, zero_mul, add_zero,
          Float64.toDouble_zero, Float64.toDouble_quarter_ulp,
          Float64.toDouble_one_add_quarter_ulp]
      · rw [sc, st, sd]
        simp only [Vec3.subVectorsDouble, add_sub_cancel_left, sub_self, Float64.toDouble_zero,
          Float64.toDouble_ulp]
    refine ⟨?_, checkWeights_valid _, hstep, ?_, fun n => ?_⟩
    · rw [sc, st]
      intro h
      have := congrArg Vec3.x h
      norm_num at this
    · apply getErrorDouble_pos
      rw [sd]
      norm_num
    · rw [stepsDouble_eq_self _ hstep n]

/-- C13 amended, for the weights `(1/4, 1/4, 1/4)` from `(1, 0, 0)` towards
the target `(1 + 2^-52, 0, 0)`. -/
theorem C13_error_never_increases_witness :
    InDoubles (initDouble (stallOptions : Options ℝ)) ∧
    ∀ n, getErrorDouble Real.sqrt (stepsDouble (n + 1) (initDouble stallOptions))
      ≤ getErrorDouble Real.sqrt (stepsDouble n (initDouble stallOptions)) :=
  have hin : InDoubles (initDouble (stallOptions : Options ℝ)) :=
    ⟨by rw [stall_fields.1]; simp [isDoubleVector, Float64.toDouble_zero, Float64.toDouble_one],
      by
        rw [stall_fields.2.1]
        exact ⟨Float64.toDouble_one_add_ulp, Float64.toDouble_zero, Float64.toDouble_zero⟩,
      checkWeights_valid _, rfl⟩
  ⟨hin, (C13_error_never_increases _ hin).1⟩

end Position

end Globe
